import Mathlib

/-!
# Verification of the OpenSBI Domain Context Manager (Penglai-Enclave/opensbi)

Shallow embedding of the domain context management code:

* `src/unnamed/part_001` — the `sbi_context_mgmt.c` variant with a per-hart
  boot-up chain (`switch_to_next_domain_context`, `sbi_context_domain_enter`,
  `startup_next_domain_context`, `sbi_context_domain_exit`,
  `setup_domain_context`, `sbi_context_mgmt_init`), matching the struct layout
  of `src/include/sbi/sbi_context_mgmt.h`;
* `src/unnamed/part_002` — the `sbi_domain_context.c` variant with a
  `prev_dom` back-reference and lazy allocation of the per-hart context.

External collaborators that are not part of the repository sources under
`src/` (PMP driver, hart state management, `sbi_domain_assign_hart`, the CSR
access macros, the heap and the ecall dispatcher) are modelled from the
specification; each such definition carries a doc comment saying so.

Conventions: hart ids and hart indices are identified (the code converts
between them with `sbi_hartid_to_hartindex` / `sbi_hartindex_to_hartid`,
which are inverse lookups); machine words are modelled as `Nat`; C pointers
are modelled as `Option` indices into an explicit slot arena.
-/

namespace DomainContext

/-- SBI error codes returned by the context manager (`sbi_error.h` values
`SBI_EINVAL` and `SBI_ENOMEM`), plus an explicit marker for the undefined
behaviour of dereferencing a null tail pointer, which the embedding keeps
visible instead of hiding. -/
inductive SbiErr where
  | einval
  | enomem
  | nullDeref
  deriving DecidableEq, Repr

/-- Trap frame (`struct sbi_trap_regs`): general purpose registers together
with `mepc` and `mstatus`.  The registers the code addresses individually
(`a0`, `a1`, `mepc`, `mstatus`) are separate fields; the remaining general
purpose registers are bundled in `rest`, since the code only ever copies them
wholesale with `sbi_memcpy`. -/
structure TrapRegs where
  a0 : Nat
  a1 : Nat
  mepc : Nat
  mstatus : Nat
  rest : List Nat
  deriving DecidableEq, Repr

/-- The all-zero trap frame produced by `sbi_zalloc`. -/
def TrapRegs.zero : TrapRegs := ⟨0, 0, 0, 0, []⟩

/-- The S-mode CSRs saved by the part_001 variant: `stvec`, `sscratch`,
`sie`, `sip`, `satp` (fields `csr_*` of `struct sbi_context` in
`src/include/sbi/sbi_context_mgmt.h`). -/
structure Csrs where
  stvec : Nat
  sscratch : Nat
  sie : Nat
  sip : Nat
  satp : Nat
  deriving DecidableEq, Repr

/-- The all-zero CSR bank produced by `sbi_zalloc`. -/
def Csrs.zero : Csrs := ⟨0, 0, 0, 0, 0⟩

/-- `struct sbi_context` of `src/include/sbi/sbi_context_mgmt.h`: saved trap
frame, saved S-mode CSRs, owning domain back-reference, `next_ctx` linkage
and the `initialized` flag.  Two ghost fields record facts the C heap keeps
implicitly: `hart` is the hart index whose table entry points at this slot
(the loop variable at allocation time), and `alive` tracks `sbi_free`. -/
structure SbiContext where
  regs : TrapRegs
  csrs : Csrs
  dom : Nat
  next_ctx : Option Nat
  initialized : Bool
  hart : Nat
  alive : Bool
  deriving DecidableEq, Repr

/-- A freshly `sbi_zalloc`ed context slot, with the ghost hart index filled
in.  All data fields are zero, pointers null, flags false, as guaranteed by
the zeroing allocator. -/
def SbiContext.fresh (h : Nat) : SbiContext :=
  { regs := TrapRegs.zero, csrs := Csrs.zero, dom := 0, next_ctx := none,
    initialized := false, hart := h, alive := true }

/-- The read-only configuration of a domain (`struct sbi_domain` fields the
context manager consumes, §3 of the spec).  Hart masks are lists of hart
indices in ascending iteration order of `sbi_hartmask_for_each_hartindex`. -/
structure Domain where
  name : String
  possible_harts : List Nat
  assigned_harts : List Nat
  boot_hartid : Nat
  next_addr : Nat
  next_mode : Nat
  next_arg1 : Nat
  context_mgmt_enabled : Bool
  deriving DecidableEq, Repr

/-- State threaded through `sbi_context_mgmt_init` (part_001): the slot
arena (slot ids are list indices, in allocation order), the per-domain
`hartindex_to_context_table` (domain index → hart index → slot id), the
per-hart `hartindex_to_tail_ctx_table` cursor of the boot-up chain builder,
the console diagnostics emitted so far (domain name, hart id), and the
number of allocations performed (consulted by the allocation oracle). -/
structure InitSt where
  slots : List SbiContext
  table : Nat → Nat → Option Nat
  tail : Nat → Option Nat
  diags : List (String × Nat)
  allocCount : Nat

/-- The initial state: no slots, all tables zeroed (`{ 0 }` initializer of
`hartindex_to_tail_ctx_table`, zeroed domain structures). -/
def InitSt.empty : InitSt :=
  { slots := [], table := fun _ _ => none, tail := fun _ => none,
    diags := [], allocCount := 0 }

/-- Point update of a domain's context table. -/
def setTable (st : InitSt) (dIdx h : Nat) (v : Option Nat) : InitSt :=
  { st with table := fun d' h' =>
      if d' = dIdx ∧ h' = h then v else st.table d' h' }

/-- Point update of the per-hart tail cursor. -/
def setTail (st : InitSt) (h : Nat) (v : Option Nat) : InitSt :=
  { st with tail := fun h' => if h' = h then v else st.tail h' }

/-- Write the `next_ctx` field of slot `sid`. -/
def setNext (st : InitSt) (sid : Nat) (v : Option Nat) : InitSt :=
  match st.slots.get? sid with
  | none => st
  | some sl => { st with slots := st.slots.set sid { sl with next_ctx := v } }

/-- `sbi_free` of slot `sid`: mark it dead in the arena. -/
def killSlot (st : InitSt) (sid : Nat) : InitSt :=
  match st.slots.get? sid with
  | none => st
  | some sl => { st with slots := st.slots.set sid { sl with alive := false } }

/-- The `fail_free_all` label of `setup_domain_context`: for every hart in
the domain's possible mask, free the slot installed in the domain's context
table, if any.  (The code frees the memory but leaves the table entry and
the tail cursors dangling, and so does the model.) -/
def freeDomainSlots (st : InitSt) (dIdx : Nat) (harts : List Nat) : InitSt :=
  harts.foldl (fun acc h =>
    match acc.table dIdx h with
    | some sid => killSlot acc sid
    | none => acc) st

/-- Modelled from the spec: the heap allocator (`sbi_zalloc` /  `sbi_free`
of `sbi_heap.h`, not under `src/`) returns zeroed memory and may fail; §6
lists "Allocator: zeroed allocation, free".  An oracle decides whether the
`n`-th allocation of the run succeeds. -/
def AllocOracle : Type := Nat → Bool

/-- The always-succeeding allocation oracle. -/
def allocAlways : AllocOracle := fun _ => true

/-- `dom_ctx = sbi_zalloc(sizeof(struct sbi_context)); dom_ctx->dom = dom;
dom->hartindex_to_context_table[i] = dom_ctx;` — append a fresh zeroed slot
(its id is the old arena length) and install it in the domain's table. -/
def allocSlot (st : InitSt) (dIdx h : Nat) : InitSt :=
  setTable
    { st with slots := st.slots ++ [{ SbiContext.fresh h with dom := dIdx }],
              allocCount := st.allocCount + 1 } dIdx h (some st.slots.length)

/-- The body of `setup_domain_context`'s per-hart loop (part_001 lines
156-216), structurally recursive over the remaining harts of
`dom->possible_harts`.  `dIdx` is the index of `dom` in processing order and
`isRoot` says whether `dom == &root` (root is passed last by
`sbi_context_mgmt_init`).  Mirrors the source case for case:
allocation (with `fail_free_all` on failure), the assigned-hart head case,
the root append case (whose tail dereference has no null check — a null
tail there surfaces as `SbiErr.nullDeref`), validation of the boot hart,
validation of the tail cursor, and the ordinary append. -/
def setupHarts (oracle : AllocOracle) (dIdx : Nat) (d : Domain)
    (isRoot : Bool) : List Nat → InitSt → Except SbiErr Unit × InitSt
  | [], st => (Except.ok (), st)
  | h :: hs, st =>
    if oracle st.allocCount then
      let sid := st.slots.length
      let st1 := allocSlot st dIdx h
      if h ∈ d.assigned_harts then
        -- head of the boot-up chain for hart h
        setupHarts oracle dIdx d isRoot hs (setTail st1 h (some sid))
      else if isRoot then
        -- root: append to the tail, without advancing it; the tail pointer
        -- is dereferenced with no null check in the source
        match st1.tail h with
        | none => (Except.error SbiErr.nullDeref, st1)
        | some t => setupHarts oracle dIdx d isRoot hs (setNext st1 t (some sid))
      else if d.boot_hartid ∈ d.assigned_harts then
        -- validation: fires when the boot hart IS assigned at boot time
        let st2 := { st1 with diags := st1.diags ++ [(d.name, h)] }
        (Except.error SbiErr.einval, freeDomainSlots st2 dIdx d.possible_harts)
      else
        match st1.tail h with
        | none =>
          -- validation: no earlier domain was assigned this hart
          let st2 := { st1 with diags := st1.diags ++ [(d.name, h)] }
          (Except.error SbiErr.einval, freeDomainSlots st2 dIdx d.possible_harts)
        | some t =>
          -- append to the boot-up chain and advance the tail
          setupHarts oracle dIdx d isRoot hs (setTail (setNext st1 t (some sid)) h (some sid))
    else
      -- sbi_zalloc returned NULL: rc = SBI_ENOMEM; goto fail_free_all
      (Except.error SbiErr.enomem, freeDomainSlots st dIdx d.possible_harts)

/-- `setup_domain_context(hartindex_to_tail_ctx_table, dom)` (part_001 lines
148-224): iterate the domain's possible harts. -/
def setup_domain_context (oracle : AllocOracle) (dIdx : Nat) (d : Domain)
    (isRoot : Bool) (st : InitSt) : Except SbiErr Unit × InitSt :=
  setupHarts oracle dIdx d isRoot d.possible_harts st

/-- The `sbi_domain_for_each` loop of `sbi_context_mgmt_init` (part_001
lines 237-241) over the non-root domains, paired with their processing
index; the first failing `setup_domain_context` aborts the walk. -/
def runDomains (oracle : AllocOracle) :
    List (Nat × Domain) → InitSt → Except SbiErr Unit × InitSt
  | [], st => (Except.ok (), st)
  | (i, d) :: rest, st =>
    match setup_domain_context oracle i d false st with
    | (Except.ok _, st') => runDomains oracle rest st'
    | e => e

/-- `sbi_context_mgmt_init(scratch)` (part_001 lines 226-248): set up every
non-root domain (in registration order, `doms` here), then the root domain
last.  The root domain gets processing index `doms.length`.  Note that the
source applies no `context_mgmt_enabled` filter: every registered domain is
set up. -/
def sbi_context_mgmt_init (oracle : AllocOracle) (doms : List Domain)
    (root : Domain) : Except SbiErr Unit × InitSt :=
  match runDomains oracle doms.enum InitSt.empty with
  | (Except.ok _, st) =>
    setup_domain_context oracle doms.length root true st
  | e => e

/-- The `next_ctx` pointer of slot `sid` of the arena: `none` for a null
pointer or an out-of-arena id. -/
def nextOf (st : InitSt) (sid : Nat) : Option Nat :=
  (st.slots.get? sid).bind (fun sl => sl.next_ctx)

/-- One step along a boot-up chain: slot `a`'s `next_ctx` points at slot
`b`. -/
def chainStep (st : InitSt) (a b : Nat) : Prop :=
  nextOf st a = some b

/-- The ghost hart index of slot `sid`: the hart whose loop iteration
allocated it. -/
def slotHart (st : InitSt) (sid : Nat) : Option Nat :=
  (st.slots.get? sid).map (fun sl => sl.hart)

/-- Disjointness of two domains' assigned hart masks: at boot, every hart
is assigned to exactly one domain, so distinct domains have disjoint
`assigned_harts`. -/
def DisjA (a b : Domain) : Prop :=
  ∀ hh, hh ∈ a.assigned_harts → hh ∉ b.assigned_harts

instance : DecidableRel DisjA := fun a b =>
  List.decidableBAll (fun hh => hh ∉ b.assigned_harts) a.assigned_harts

/-- Invariant of the boot-up chain builder between `setup_domain_context`
passes: `next_ctx` edges go strictly upward in allocation order and land
inside the arena; every tail cursor points inside the arena at a slot of
its own hart with no successor; every context-table entry is a slot of its
hart from which the chain reaches that hart's tail; a hart without a tail
has no table entries at all. -/
structure ChainCore (st : InitSt) : Prop where
  edges : ∀ a b, chainStep st a b → a < b ∧ b < st.slots.length
  tails : ∀ h t, st.tail h = some t →
    t < st.slots.length ∧ slotHart st t = some h ∧ nextOf st t = none
  heads : ∀ dIdx h sid, st.table dIdx h = some sid →
    slotHart st sid = some h ∧
      ∃ t, st.tail h = some t ∧ Relation.ReflTransGen (chainStep st) sid t
  noTail : ∀ h, st.tail h = none → ∀ dIdx, st.table dIdx h = none

/-- How a step of the init model relates the `dom` back-references of the
arena (`dom_ctx->dom = dom` at allocation; `sbi_free`, table and `next_ctx`
writes never touch it): every pre-existing slot keeps its position and its
`dom` field, and every newly appearing slot carries `dom = dIdx`, the
domain being set up. -/
def DomStable (dIdx : Nat) (st stR : InitSt) : Prop :=
  ∀ sid, (∀ sl0, st.slots.get? sid = some sl0 →
      ∃ sl1, stR.slots.get? sid = some sl1 ∧ sl1.dom = sl0.dom) ∧
    (st.slots.get? sid = none →
      stR.slots.get? sid = none ∨
        ∃ sl1, stR.slots.get? sid = some sl1 ∧ sl1.dom = dIdx)

/-!
## Runtime model of the part_001 variant

Single-hart machine state for `switch_to_next_domain_context`,
`sbi_context_domain_enter`, `startup_next_domain_context` and
`sbi_context_domain_exit` (part_001 lines 25-137).  The spec's concurrency
model (§5) is single-threaded cooperative per hart, with all mutated state
hart-local, so one hart's state suffices.
-/

/-- Calls into the external PMP driver and domain registry made during a
switch, in program order (used to state the ordering contract of §4.1). -/
inductive Ev where
  | assignHart (dom hart : Nat)
  | pmpDisable (i : Nat)
  | pmpConfigure (dom : Nat)
  deriving DecidableEq, Repr

/-- Machine state of one hart for the part_001 runtime functions: the domain
registry (read-only), this hart's index, `sbi_hart_pmp_count(scratch)`, the
hartindex→domain map entry for this hart (`sbi_domain_thishart_ptr`), the set
of live `(domain, hart)` assignment bits across all `assigned_harts` masks,
the per-domain context tables, the slot heap, the live S-mode CSRs, the live
trap frame at `mscratch - SBI_TRAP_REGS_SIZE`, the domain whose PMP
configuration the hardware currently holds, and the log of external calls. -/
structure Rt1 where
  doms : List Domain
  hart : Nat
  pmp_count : Nat
  curDom : Nat
  assigned : List (Nat × Nat)
  table : Nat → Nat → Option Nat
  slots : Nat → SbiContext
  liveCsrs : Csrs
  liveFrame : TrapRegs
  pmpApplied : Option Nat
  log : List Ev

/-- Heap write of one context slot. -/
def putSlot (s : Rt1) (sid : Nat) (c : SbiContext) : Rt1 :=
  { s with slots := fun j => if j = sid then c else s.slots j }

/-- Modelled from the spec: `sbi_domain_assign_hart` (`sbi_domain.c`, not
under `src/`), §4.1 phase 1: "Clear this hart from the outgoing domain's
`assigned_harts`; update the global hartindex→domain map; set this hart in
the incoming domain's `assigned_harts`." -/
def sbi_domain_assign_hart (s : Rt1) (d : Nat) : Rt1 :=
  { s with
    assigned := (d, s.hart) :: s.assigned.filter (fun p => p ≠ (s.curDom, s.hart)),
    curDom := d,
    log := s.log ++ [Ev.assignHart d s.hart] }

/-- Modelled from the spec: the PMP driver calls (`pmp_disable(i)` for
`i < pmp_count`, then `sbi_hart_pmp_configure(scratch)`, which applies the
configuration of the hart's current domain; §6).  The model records the
calls in order and the resulting hardware configuration. -/
def pmpReprogram (s : Rt1) : Rt1 :=
  { s with pmpApplied := some s.curDom,
           log := s.log ++ (List.range s.pmp_count).map Ev.pmpDisable
                        ++ [Ev.pmpConfigure s.curDom] }

/-- The CSR exchange phase of `switch_to_next_domain_context` (part_001
lines 42-47).  Modelled from the spec: `csr_read_set` (`riscv_asm.h`, not
under `src/`) per §4.1 phase 3 — "For each tracked S-mode CSR, atomically
swap the live value with the target's saved value, writing the
previously-live value into the outgoing slot."  Each CSR is read from the
target slot before the outgoing slot is written, as in the source. -/
def csrExchange (s : Rt1) (cid dcid : Nat) : Rt1 :=
  { putSlot s cid { s.slots cid with csrs := s.liveCsrs } with
    liveCsrs := (s.slots dcid).csrs }

/-- The trap-frame exchange phase (part_001 lines 49-53): copy the live
frame into the outgoing slot, then copy the target slot into the live frame
(the second `sbi_memcpy` reads the heap after the first one wrote it). -/
def frameExchange (s : Rt1) (cid dcid : Nat) : Rt1 :=
  let s1 := putSlot s cid { s.slots cid with regs := s.liveFrame }
  { s1 with liveFrame := (s1.slots dcid).regs }

/-- `switch_to_next_domain_context(ctx, dom_ctx)` (part_001 lines 25-54):
domain reassignment, PMP reprogramming, CSR exchange, trap-frame
exchange, in that order. -/
def switch_to_next_domain_context (s : Rt1) (cid dcid : Nat) : Rt1 :=
  let s1 := sbi_domain_assign_hart s (s.slots dcid).dom
  let s2 := pmpReprogram s1
  frameExchange (csrExchange s2 cid dcid) cid dcid

/-- `ctx->initialized = true` (part_001 lines 67 and 126). -/
def markInit (c : SbiContext) : SbiContext := { c with initialized := true }

/-- `sbi_context_domain_enter(dom)` (part_001 lines 56-75).  The result is
`none` on undefined behaviour (the current hart has no context slot, so
`ctx->initialized = true` dereferences a null pointer); otherwise the SBI
return value plus the new state. -/
def sbi_context_domain_enter (s : Rt1) (dIdx : Nat) :
    Option (Except SbiErr Unit × Rt1) :=
  match s.table dIdx s.hart with
  | none => some (Except.error SbiErr.einval, s)
  | some dcid =>
    if (s.slots dcid).initialized = false then
      some (Except.error SbiErr.einval, s)
    else
      match s.table s.curDom s.hart with
      | none => none
      | some cid =>
        let s1 := putSlot s cid (markInit (s.slots cid))
        let s2 := switch_to_next_domain_context s1 cid dcid
        some (Except.ok (), putSlot s2 dcid { s2.slots dcid with next_ctx := some cid })

/-- What `startup_next_domain_context` does to the world before it stops
returning: park the hart (`sbi_hsm_hart_stop`), jump into the domain
(`sbi_hart_switch_mode(a0, a1, addr, mode, false)`), or request
`sbi_hsm_hart_start(boot, addr, mode, arg1)` and then stop the hart. -/
inductive StartupOutcome where
  | parked
  | jumped (a0 a1 addr mode : Nat)
  | started (bootHart addr mode arg1 : Nat)
  deriving DecidableEq, Repr

/-- `startup_next_domain_context(dom_ctx)` (part_001 lines 86-115): check
that every hart of the target domain's possible mask is assigned (the hart
state management calls are external, so the function reduces to the
outcome it requests); `none` when `dom_ctx->dom` is not a registered
domain.  The assignment test reads the live `assigned_harts` masks. -/
def startup_next_domain_context (s : Rt1) (dcid : Nat) : Option StartupOutcome :=
  match s.doms.get? (s.slots dcid).dom with
  | none => none
  | some d =>
    if d.possible_harts.any
        (fun i => !(decide (((s.slots dcid).dom, i) ∈ s.assigned))) then
      some StartupOutcome.parked
    else if s.hart ≠ d.boot_hartid then
      some (StartupOutcome.started d.boot_hartid d.next_addr d.next_mode d.next_arg1)
    else
      some (StartupOutcome.jumped d.boot_hartid d.next_arg1 d.next_addr d.next_mode)

/-- Result of `sbi_context_domain_exit`: a normal return, an error return,
or divergence into the startup path. -/
inductive ExitRes where
  | ok
  | err (e : SbiErr)
  | startup (o : StartupOutcome)
  deriving DecidableEq, Repr

/-- `sbi_context_domain_exit()` (part_001 lines 117-137); `none` on
undefined behaviour (null current-context pointer, or startup of a slot
whose owning domain is not registered). -/
def sbi_context_domain_exit (s : Rt1) : Option (ExitRes × Rt1) :=
  match s.table s.curDom s.hart with
  | none => none
  | some cid =>
    match (s.slots cid).next_ctx with
    | none => some (ExitRes.err SbiErr.einval, s)
    | some dcid =>
      let s1 := putSlot s cid (markInit (s.slots cid))
      let s2 := switch_to_next_domain_context s1 cid dcid
      if (s2.slots dcid).initialized then
        some (ExitRes.ok, s2)
      else
        match startup_next_domain_context s2 dcid with
        | none => none
        | some o => some (ExitRes.startup o, s2)

/-- Modelled from the spec: the ecall dispatcher (out of scope per §1, §6)
advances the live frame's `mepc` past the trapped `ecall` instruction after
a successfully handled call — §8: "`mepc`, which advances by 4 to skip the
ecall instruction when exit is driven by the callee's ecall". -/
def ecallAdvance (s : Rt1) : Rt1 :=
  { s with liveFrame := { s.liveFrame with mepc := s.liveFrame.mepc + 4 } }

/-- The state after a successful `enter`; `none` otherwise. -/
def expectEnterOk : Option (Except SbiErr Unit × Rt1) → Option Rt1
  | some (Except.ok _, s1) => some s1
  | _ => none

/-- The state after a normal (non-startup) successful `exit`; `none`
otherwise. -/
def expectExitOk : Option (ExitRes × Rt1) → Option Rt1
  | some (ExitRes.ok, s1) => some s1
  | _ => none

/-- The round trip of §8: from the caller's trapped state, dispatch
`enter(dIdx)` (dispatcher advances the live `mepc` afterwards), let the
callee run arbitrary supervisor code and trap back with CSR bank `g` and
trap frame `gf`, then dispatch `exit()` (dispatcher advances `mepc` again).
`none` unless both calls return success. -/
def roundTrip (s : Rt1) (dIdx : Nat) (g : Csrs) (gf : TrapRegs) : Option Rt1 :=
  (expectEnterOk (sbi_context_domain_enter s dIdx)).bind fun s1 =>
    (expectExitOk (sbi_context_domain_exit
      { ecallAdvance s1 with liveCsrs := g, liveFrame := gf })).bind fun s2 =>
      some (ecallAdvance s2)

/-!
## Runtime model of the part_002 variant (`sbi_domain_context.c`)

This variant saves eleven S-mode CSRs with `csr_swap`, records the caller
through a `prev_dom` back-reference, allocates the per-hart context lazily
on first use, and starts an uninitialized target through a zeroed
stack-local context inside the switch itself.
-/

namespace V2

/-- The S-mode CSRs saved by the part_002 variant (lines 61-71). -/
structure Csrs2 where
  sstatus : Nat
  sie : Nat
  stvec : Nat
  sscratch : Nat
  sepc : Nat
  scause : Nat
  stval : Nat
  sip : Nat
  satp : Nat
  scounteren : Nat
  senvcfg : Nat
  deriving DecidableEq, Repr

/-- The all-zero CSR bank (zeroed allocation / `= { 0 }` stack context). -/
def Csrs2.zero : Csrs2 := ⟨0, 0, 0, 0, 0, 0, 0, 0, 0, 0, 0⟩

/-- `struct sbi_context` as used by part_002: trap frame, saved CSRs and the
`prev_dom` back-reference to the caller domain. -/
structure Ctx2 where
  regs : TrapRegs
  csrs : Csrs2
  prev_dom : Option Nat
  deriving DecidableEq, Repr

/-- A zeroed context (`sbi_zalloc`, and the `= { 0 }` startup context). -/
def Ctx2.zero : Ctx2 := ⟨TrapRegs.zero, Csrs2.zero, none⟩

/-- Machine state of one hart for part_002.  `rootIdx` is the registry index
of `&root`; `freshSlot` is the next heap cell handed out by `sbi_zalloc`,
and `allocOk` says whether the (at most one) allocation of the current call
succeeds. -/
structure St where
  doms : List Domain
  rootIdx : Nat
  hart : Nat
  pmp_count : Nat
  curDom : Nat
  assigned : List (Nat × Nat)
  table : Nat → Nat → Option Nat
  slots : Nat → Ctx2
  freshSlot : Nat
  allocOk : Bool
  liveCsrs : Csrs2
  liveFrame : TrapRegs
  pmpApplied : Option Nat
  log : List Ev

/-- Heap write of one context slot. -/
def putSlot (s : St) (sid : Nat) (c : Ctx2) : St :=
  { s with slots := fun j => if j = sid then c else s.slots j }

/-- Point update of a domain's context table (used by the lazy allocation
`sbi_domain_context_thishart_ptr() = sbi_zalloc(...)`). -/
def setTable (s : St) (dIdx h : Nat) (v : Option Nat) : St :=
  { s with table := fun d' h' =>
      if d' = dIdx ∧ h' = h then v else s.table d' h' }

/-- How `switch_to_next_domain_context` leaves the hart when the target
context was uninitialized (part_002 lines 79-87): jump into the domain via
`sbi_hart_switch_mode(boot, arg1, addr, mode, false)`, or stop the hart. -/
inductive Outcome2 where
  | jumped (a0 a1 addr mode : Nat)
  | stopped
  deriving DecidableEq, Repr

/-- The state mutation of `switch_to_next_domain_context` (part_002 lines
47-77) for current context `cid`: domain reassignment (lines 47-52), PMP
reprogramming (lines 54-58), CSR exchange with `csr_swap` — each swap reads
the target before the outgoing slot field is written (lines 61-71) — and
trap-frame exchange, where the second `sbi_memcpy` reads the heap after the
first wrote it (lines 73-77).  A target without a context uses the zeroed
stack-local `startup_ctx` (lines 34, 42-45). -/
def switchedState (s : St) (dIdx cid : Nat) : St :=
  let dcid? := s.table dIdx s.hart
  let s1 : St := { s with
    assigned := (dIdx, s.hart) :: s.assigned.filter (fun p => p ≠ (s.curDom, s.hart)),
    curDom := dIdx,
    log := s.log ++ [Ev.assignHart dIdx s.hart] }
  let s2 : St := { s1 with
    pmpApplied := some dIdx,
    log := s1.log ++ (List.range s1.pmp_count).map Ev.pmpDisable
                  ++ [Ev.pmpConfigure dIdx] }
  let targetCsrs := match dcid? with
    | some dcid => (s2.slots dcid).csrs
    | none => Csrs2.zero
  let s3 : St := { putSlot s2 cid { s2.slots cid with csrs := s2.liveCsrs } with
                   liveCsrs := targetCsrs }
  let s4 : St := putSlot s3 cid { s3.slots cid with regs := s3.liveFrame }
  let targetRegs := match dcid? with
    | some dcid => (s4.slots dcid).regs
    | none => TrapRegs.zero
  { s4 with liveFrame := targetRegs }

/-- `switch_to_next_domain_context(dom)` (part_002 lines 26-88): resolve the
current and target contexts, mark startup when the target has none, apply
the state mutation, and on startup either jump to the boot entry (when this
hart is the boot hart, lines 81-84) or stop the hart (line 86).  `none` when
the current hart has no context (the CSR writes at lines 61-71 would
dereference a null `ctx`) or `dom` is not a registered domain. -/
def switch_to_next_domain_context (s : St) (dIdx : Nat) :
    Option (St × Option Outcome2) :=
  match s.doms.get? dIdx with
  | none => none
  | some d =>
    match s.table s.curDom s.hart with
    | none => none
    | some cid =>
      match s.table dIdx s.hart with
      | some _ => some (switchedState s dIdx cid, none)
      | none =>
        if s.hart = d.boot_hartid then
          some (switchedState s dIdx cid,
            some (Outcome2.jumped d.boot_hartid d.next_arg1 d.next_addr d.next_mode))
        else
          some (switchedState s dIdx cid, some Outcome2.stopped)

/-- The lazy allocation prologue shared by enter and exit (part_002 lines
96-101 and 121-126): if this hart has no context in the current domain,
allocate a zeroed one and install it, failing with `SBI_ENOMEM` when the
allocator does. -/
def ensureCtx (s : St) : Except SbiErr St :=
  match s.table s.curDom s.hart with
  | some _ => Except.ok s
  | none =>
    if s.allocOk then
      Except.ok (setTable (putSlot { s with freshSlot := s.freshSlot + 1 }
        s.freshSlot Ctx2.zero) s.curDom s.hart (some s.freshSlot))
    else
      Except.error SbiErr.enomem

/-- `sbi_domain_context_enter(dom)` (part_002 lines 90-113).  Note that the
local `dom_ctx` is resolved before the lazy allocation of `ctx`, so the
`SBI_EINVAL` check tests the pre-allocation table value. -/
def sbi_domain_context_enter (s : St) (dIdx : Nat) :
    Option (Except SbiErr Unit × Option Outcome2 × St) :=
  let dcid? := s.table dIdx s.hart
  match ensureCtx s with
  | Except.error e => some (Except.error e, none, s)
  | Except.ok s1 =>
    match dcid? with
    | none => some (Except.error SbiErr.einval, none, s1)
    | some dcid =>
      -- dom_ctx->prev_dom = sbi_domain_thishart_ptr();
      let s2 := putSlot s1 dcid { s1.slots dcid with prev_dom := some s1.curDom }
      match switch_to_next_domain_context s2 dIdx with
      | none => none
      | some (s3, o) => some (Except.ok (), o, s3)

/-- `sbi_domain_context_exit()` (part_002 lines 115-151): return to the
recorded previous domain if any, otherwise pick the first registered
domain that is neither root nor the current domain, owns this hart as a
possible hart, and has no context yet; fall back to root. -/
def sbi_domain_context_exit (s : St) :
    Option (Except SbiErr Unit × Option Outcome2 × St) :=
  match ensureCtx s with
  | Except.error e => some (Except.error e, none, s)
  | Except.ok s1 =>
    match s1.table s1.curDom s1.hart with
    | none => none
    | some cid =>
      let dIdx := match (s1.slots cid).prev_dom with
        | some p => p
        | none =>
          match s1.doms.enum.find? (fun p =>
              decide (p.1 ≠ s1.rootIdx ∧ p.1 ≠ s1.curDom ∧
                s1.hart ∈ p.2.possible_harts ∧ s1.table p.1 s1.hart = none)) with
          | some (i, _) => i
          | none => s1.rootIdx
      match switch_to_next_domain_context s1 dIdx with
      | none => none
      | some (s3, o) => some (Except.ok (), o, s3)

end V2

/-!
## Concrete configurations

Small domain setups used to evaluate the model on explicit inputs.
-/

/-- A user domain pinned to hart 1 (assigned and possible), boot hart 1. -/
def d1C2 : Domain := ⟨"d1", [1], [1], 1, 0x80400000, 1, 0, true⟩

/-- A secure domain whose boot hart 1 is not assigned at boot time: it is
started lazily through the boot-up chain. -/
def secureC2 : Domain := ⟨"secure", [1], [], 1, 0x80200000, 1, 0, true⟩

/-- A root domain owning hart 0, with both harts possible. -/
def rootC2 : Domain := ⟨"root", [0, 1], [0], 0, 0x80000000, 1, 0, false⟩

/-- A domain whose boot hart 0 is assigned while hart 1 is possible but
unassigned — the configuration the code's init-time validation rejects. -/
def dA : Domain := ⟨"dA", [0, 1], [0], 0, 0x80200000, 1, 0, true⟩

/-- Root for the `dA` scenario, owning hart 1. -/
def rootA : Domain := ⟨"root", [0, 1], [1], 0, 0x80000000, 1, 0, false⟩

/-- A domain with context management disabled, pinned to hart 1. -/
def d1Off : Domain := ⟨"d1off", [1], [1], 1, 0x80400000, 1, 0, false⟩

/-- The domain a processing index of `sbi_context_mgmt_init` refers to: the
non-root domains in registration order, then root last. -/
def domainAt (doms : List Domain) (root : Domain) (dIdx : Nat) : Option Domain :=
  if dIdx = doms.length then some root else doms[dIdx]?

/-- A two-hart, fully assigned domain for the allocation-failure scenario:
its setup allocates one slot and then fails on the second. -/
def d2C8 : Domain := ⟨"d2", [0, 1], [0, 1], 1, 0x80500000, 1, 0, true⟩

/-- Runtime scenario: non-secure domain (index 0) on hart 0. -/
def nsD : Domain := ⟨"ns", [0], [0], 0, 0x80000000, 1, 0, true⟩

/-- Allocation oracle for the ENOMEM scenario: the third allocation of the
run fails. -/
def oracleC8 : AllocOracle := fun n => decide (n < 2)

/-- The state after the walk of the domains preceding `d2C8` (just `nsD`,
one slot allocated). -/
def stkC8 : InitSt :=
  (runDomains oracleC8 (([nsD, d2C8].enum).take 1) InitSt.empty).2

/-- The state in which `d2C8`'s setup fails: it allocated one slot (id 1)
and hit `SBI_ENOMEM` on its second hart. -/
def stfC8 : InitSt :=
  (setup_domain_context oracleC8 1 d2C8 (decide (1 = [nsD, d2C8].length))
    stkC8).2

/-- Runtime scenario: secure service domain (index 1). -/
def secD : Domain := ⟨"sec", [0], [0], 0, 0x80200000, 1, 0x1111, true⟩

/-- Runtime scenario: a not-yet-started domain (index 2) with possible
harts 0 and 1, hart 1 never observed assigned. -/
def othD : Domain := ⟨"oth", [0, 1], [], 1, 0x80600000, 1, 0x2222, true⟩

/-- The caller's context slot (slot 0, domain 0) with sentinel contents. -/
def callerSlot : SbiContext :=
  ⟨⟨10, 11, 0x1000, 0x1800, [12, 13]⟩, ⟨21, 22, 23, 24, 25⟩, 0, none, true, 0, true⟩

/-- The secure domain's context slot (slot 1, domain 1), initialized. -/
def secSlot : SbiContext :=
  ⟨⟨30, 31, 0x2000, 0x1800, [32, 33]⟩, ⟨41, 42, 43, 44, 45⟩, 1, none, true, 0, true⟩

/-- A concrete part_001 machine state on hart 0: domain 0 current, slots 0/1
initialized for domains 0/1, slot 2 a zeroed uninitialized slot of domain 2. -/
def rt1Ex : Rt1 :=
  { doms := [nsD, secD, othD], hart := 0, pmp_count := 2, curDom := 0,
    assigned := [(0, 0)],
    table := fun d h =>
      if d = 0 ∧ h = 0 then some 0
      else if d = 1 ∧ h = 0 then some 1
      else if d = 2 ∧ h = 0 then some 2
      else none,
    slots := fun j =>
      if j = 0 then callerSlot
      else if j = 1 then secSlot
      else if j = 2 then { SbiContext.fresh 0 with dom := 2 }
      else SbiContext.fresh 0,
    liveCsrs := ⟨51, 52, 53, 54, 55⟩,
    liveFrame := ⟨60, 61, 0x5000, 0x1800, [62, 63]⟩,
    pmpApplied := some 0, log := [] }

/-- A part_001 state inside the secure domain (index 1) whose slot links,
through `next_ctx`, to the uninitialized slot 2 of the never-started domain
`othD` (index 2): the state just before an exit that must walk the boot-up
chain into `othD`. -/
def rtStart : Rt1 :=
  { rt1Ex with
    curDom := 1,
    assigned := [(1, 0)],
    slots := fun j =>
      if j = 0 then callerSlot
      else if j = 1 then { secSlot with next_ctx := some 2 }
      else if j = 2 then { SbiContext.fresh 0 with dom := 2 }
      else SbiContext.fresh 0 }

/-- A caller context for the part_002 variant with sentinel contents. -/
def callerCtx2 : V2.Ctx2 :=
  ⟨⟨10, 11, 0x1000, 0x1800, [12]⟩,
   ⟨101, 102, 103, 104, 105, 106, 107, 108, 109, 110, 111⟩, none⟩

/-- A target context for the part_002 variant with sentinel contents. -/
def secCtx2 : V2.Ctx2 :=
  ⟨⟨30, 31, 0x2000, 0x1800, [32]⟩,
   ⟨201, 202, 203, 204, 205, 206, 207, 208, 209, 210, 211⟩, none⟩

/-- A concrete part_002 machine state on hart 0 (root at index 0, current
domain 0 with context slot 0, domain 1 with context slot 1). -/
def v2Ex : V2.St :=
  { doms := [nsD, secD, othD], rootIdx := 0, hart := 0, pmp_count := 2,
    curDom := 0, assigned := [(0, 0)],
    table := fun d h =>
      if d = 0 ∧ h = 0 then some 0
      else if d = 1 ∧ h = 0 then some 1
      else none,
    slots := fun j =>
      if j = 0 then callerCtx2 else if j = 1 then secCtx2 else V2.Ctx2.zero,
    freshSlot := 2, allocOk := true,
    liveCsrs := ⟨301, 302, 303, 304, 305, 306, 307, 308, 309, 310, 311⟩,
    liveFrame := ⟨70, 71, 0x6000, 0x1800, [72]⟩,
    pmpApplied := some 0, log := [] }

/-!
## Helper lemmas about the init model
-/

@[simp] theorem allocSlot_tail (st : InitSt) (dIdx h : Nat) :
    (allocSlot st dIdx h).tail = st.tail := rfl

@[simp] theorem allocSlot_diags (st : InitSt) (dIdx h : Nat) :
    (allocSlot st dIdx h).diags = st.diags := rfl

@[simp] theorem allocSlot_slots (st : InitSt) (dIdx h : Nat) :
    (allocSlot st dIdx h).slots
      = st.slots ++ [{ SbiContext.fresh h with dom := dIdx }] := rfl

@[simp] theorem allocSlot_allocCount (st : InitSt) (dIdx h : Nat) :
    (allocSlot st dIdx h).allocCount = st.allocCount + 1 := rfl

theorem allocSlot_table (st : InitSt) (dIdx h d' h' : Nat) :
    (allocSlot st dIdx h).table d' h'
      = if d' = dIdx ∧ h' = h then some st.slots.length else st.table d' h' := rfl

@[simp] theorem setTail_table (st : InitSt) (h : Nat) (v : Option Nat) :
    (setTail st h v).table = st.table := rfl

@[simp] theorem setTail_slots (st : InitSt) (h : Nat) (v : Option Nat) :
    (setTail st h v).slots = st.slots := rfl

@[simp] theorem setTail_diags (st : InitSt) (h : Nat) (v : Option Nat) :
    (setTail st h v).diags = st.diags := rfl

@[simp] theorem setTail_allocCount (st : InitSt) (h : Nat) (v : Option Nat) :
    (setTail st h v).allocCount = st.allocCount := rfl

theorem setTail_tail (st : InitSt) (h h' : Nat) (v : Option Nat) :
    (setTail st h v).tail h' = if h' = h then v else st.tail h' := rfl

@[simp] theorem setNext_table (st : InitSt) (sid : Nat) (v : Option Nat) :
    (setNext st sid v).table = st.table := by
  unfold setNext; cases st.slots.get? sid <;> rfl

@[simp] theorem setNext_tail (st : InitSt) (sid : Nat) (v : Option Nat) :
    (setNext st sid v).tail = st.tail := by
  unfold setNext; cases st.slots.get? sid <;> rfl

@[simp] theorem setNext_diags (st : InitSt) (sid : Nat) (v : Option Nat) :
    (setNext st sid v).diags = st.diags := by
  unfold setNext; cases st.slots.get? sid <;> rfl

@[simp] theorem setNext_allocCount (st : InitSt) (sid : Nat) (v : Option Nat) :
    (setNext st sid v).allocCount = st.allocCount := by
  unfold setNext; cases st.slots.get? sid <;> rfl

@[simp] theorem setNext_length (st : InitSt) (sid : Nat) (v : Option Nat) :
    (setNext st sid v).slots.length = st.slots.length := by
  unfold setNext; cases st.slots.get? sid <;> simp

theorem killSlot_diags (st : InitSt) (sid : Nat) :
    (killSlot st sid).diags = st.diags := by
  unfold killSlot
  cases st.slots.get? sid <;> rfl

/-!
### Unfolding equations for `setupHarts`
-/

theorem setupHarts_nil {oracle : AllocOracle} {dIdx : Nat} {d : Domain}
    {isRoot : Bool} {st : InitSt} :
    setupHarts oracle dIdx d isRoot [] st = (Except.ok (), st) := rfl

theorem setupHarts_cons_allocFail {oracle : AllocOracle} {dIdx : Nat}
    {d : Domain} {isRoot : Bool} {h : Nat} {hs : List Nat} {st : InitSt}
    (hOr : oracle st.allocCount = false) :
    setupHarts oracle dIdx d isRoot (h :: hs) st
      = (Except.error SbiErr.enomem, freeDomainSlots st dIdx d.possible_harts) := by
  simp [setupHarts, hOr]

theorem setupHarts_cons_assigned {oracle : AllocOracle} {dIdx : Nat}
    {d : Domain} {isRoot : Bool} {h : Nat} {hs : List Nat} {st : InitSt}
    (hOr : oracle st.allocCount = true) (hass : h ∈ d.assigned_harts) :
    setupHarts oracle dIdx d isRoot (h :: hs) st
      = setupHarts oracle dIdx d isRoot hs
          (setTail (allocSlot st dIdx h) h (some st.slots.length)) := by
  simp [setupHarts, hOr, hass]

theorem setupHarts_cons_root_tailNone {oracle : AllocOracle} {dIdx : Nat}
    {d : Domain} {h : Nat} {hs : List Nat} {st : InitSt}
    (hOr : oracle st.allocCount = true) (hass : h ∉ d.assigned_harts)
    (ht : st.tail h = none) :
    setupHarts oracle dIdx d true (h :: hs) st
      = (Except.error SbiErr.nullDeref, allocSlot st dIdx h) := by
  simp [setupHarts, hOr, hass, ht]

theorem setupHarts_cons_root_append {oracle : AllocOracle} {dIdx : Nat}
    {d : Domain} {h : Nat} {hs : List Nat} {st : InitSt} {t : Nat}
    (hOr : oracle st.allocCount = true) (hass : h ∉ d.assigned_harts)
    (ht : st.tail h = some t) :
    setupHarts oracle dIdx d true (h :: hs) st
      = setupHarts oracle dIdx d true hs
          (setNext (allocSlot st dIdx h) t (some st.slots.length)) := by
  simp [setupHarts, hOr, hass, ht]

theorem setupHarts_cons_bootAssigned {oracle : AllocOracle} {dIdx : Nat}
    {d : Domain} {h : Nat} {hs : List Nat} {st : InitSt}
    (hOr : oracle st.allocCount = true) (hass : h ∉ d.assigned_harts)
    (hb : d.boot_hartid ∈ d.assigned_harts) :
    setupHarts oracle dIdx d false (h :: hs) st
      = (Except.error SbiErr.einval,
         freeDomainSlots
           { allocSlot st dIdx h with diags := st.diags ++ [(d.name, h)] }
           dIdx d.possible_harts) := by
  simp [setupHarts, hOr, hass, hb]

theorem setupHarts_cons_tailNone {oracle : AllocOracle} {dIdx : Nat}
    {d : Domain} {h : Nat} {hs : List Nat} {st : InitSt}
    (hOr : oracle st.allocCount = true) (hass : h ∉ d.assigned_harts)
    (hb : d.boot_hartid ∉ d.assigned_harts) (ht : st.tail h = none) :
    setupHarts oracle dIdx d false (h :: hs) st
      = (Except.error SbiErr.einval,
         freeDomainSlots
           { allocSlot st dIdx h with diags := st.diags ++ [(d.name, h)] }
           dIdx d.possible_harts) := by
  simp [setupHarts, hOr, hass, hb, ht]

theorem setupHarts_cons_append {oracle : AllocOracle} {dIdx : Nat}
    {d : Domain} {h : Nat} {hs : List Nat} {st : InitSt} {t : Nat}
    (hOr : oracle st.allocCount = true) (hass : h ∉ d.assigned_harts)
    (hb : d.boot_hartid ∉ d.assigned_harts) (ht : st.tail h = some t) :
    setupHarts oracle dIdx d false (h :: hs) st
      = setupHarts oracle dIdx d false hs
          (setTail (setNext (allocSlot st dIdx h) t (some st.slots.length))
            h (some st.slots.length)) := by
  simp [setupHarts, hOr, hass, hb, ht]

theorem freeDomainSlots_diags (dIdx : Nat) :
    ∀ (hs : List Nat) (st : InitSt),
      (freeDomainSlots st dIdx hs).diags = st.diags := by
  intro hs
  induction hs with
  | nil => intro st; rfl
  | cons h t ih =>
    intro st
    show (freeDomainSlots _ dIdx t).diags = st.diags
    rw [ih]
    rcases hT : st.table dIdx h with _ | sid
    · simp [hT]
    · simp [hT, killSlot_diags]

/-- The inverted init-time validation of `setup_domain_context` (part_001
lines 189-199): for a non-root domain whose boot hart IS assigned at boot
time, reaching any possible-but-unassigned hart fails the setup with
`SBI_EINVAL` and a diagnostic naming the domain and that hart. -/
theorem setupHarts_bootAssigned_fails (d : Domain)
    (hboot : d.boot_hartid ∈ d.assigned_harts) :
    ∀ (hs : List Nat) (st : InitSt) (dIdx : Nat),
      (∃ h, h ∈ hs ∧ h ∉ d.assigned_harts) →
      (setupHarts allocAlways dIdx d false hs st).1 = Except.error SbiErr.einval ∧
      ∃ h', h' ∈ hs ∧ h' ∉ d.assigned_harts ∧
        (d.name, h') ∈ (setupHarts allocAlways dIdx d false hs st).2.diags := by
  intro hs
  induction hs with
  | nil =>
    intro st dIdx hex
    rcases hex with ⟨h, hm, _⟩
    exact absurd hm (List.not_mem_nil h)
  | cons h t ih =>
    intro st dIdx hex
    by_cases hass : h ∈ d.assigned_harts
    · -- head is assigned: the offending hart is in the tail
      have hex' : ∃ h', h' ∈ t ∧ h' ∉ d.assigned_harts := by
        rcases hex with ⟨h', hm, hna⟩
        rcases List.mem_cons.mp hm with rfl | hmt
        · exact absurd hass hna
        · exact ⟨h', hmt, hna⟩
      rw [setupHarts_cons_assigned rfl hass]
      exact ⟨(ih _ dIdx hex').1,
        (ih _ dIdx hex').2.imp
          (fun h' hp => ⟨List.mem_cons_of_mem _ hp.1, hp.2.1, hp.2.2⟩)⟩
    · -- head is possible but unassigned: validation fires here
      rw [setupHarts_cons_bootAssigned rfl hass hboot]
      exact ⟨rfl, h, List.mem_cons_self h t, hass, by
        rw [freeDomainSlots_diags]
        exact List.mem_append_right _ (List.mem_singleton_self _)⟩

/-- If some listed domain always fails its setup with `SBI_EINVAL`, the
domain walk of `sbi_context_mgmt_init` cannot succeed. -/
theorem runDomains_member_fails (d : Domain)
    (hfail : ∀ (st : InitSt) (dIdx : Nat),
      (setup_domain_context allocAlways dIdx d false st).1 = Except.error SbiErr.einval) :
    ∀ (l : List (Nat × Domain)), (∃ i, (i, d) ∈ l) →
      ∀ st, (runDomains allocAlways l st).1 ≠ Except.ok () := by
  intro l
  induction l with
  | nil =>
    intro hex st
    rcases hex with ⟨i, hm⟩
    exact absurd hm (List.not_mem_nil _)
  | cons p rest ih =>
    intro hex st
    rcases p with ⟨j, d'⟩
    show (match setup_domain_context allocAlways j d' false st with
      | (Except.ok _, st') => runDomains allocAlways rest st'
      | e => e).1 ≠ Except.ok ()
    rcases hres : setup_domain_context allocAlways j d' false st with ⟨r, st'⟩
    cases r with
    | ok u =>
      have hd : d' ≠ d := by
        intro hEq
        subst hEq
        have := hfail st j
        rw [hres] at this
        simp at this
      have hex' : ∃ i, (i, d) ∈ rest := by
        rcases hex with ⟨i, hm⟩
        rcases List.mem_cons.mp hm with hEq | hmt
        · exact absurd (congrArg Prod.snd hEq).symm hd
        · exact ⟨i, hmt⟩
      simpa using ih hex' st'
    | error e =>
      have : e = SbiErr.einval ∨ e ≠ SbiErr.einval := em _
      simp

/-!
## Claim C2 — init-time Validation A
-/

/-- C2, counterexample: the claim says that a non-root domain with a
possible-but-unassigned hart whose `boot_hartid` is NOT in its
`assigned_harts` makes init fail with `SBI_EINVAL` and a diagnostic.  In
the configuration `[d1C2, secureC2]` with root `rootC2`, the domain
`secureC2` satisfies exactly that antecedent (hart 1 possible, unassigned,
boot hart 1 unassigned), yet `sbi_context_mgmt_init` succeeds and prints
nothing: the source's validation (part_001 lines 189-191) tests
`sbi_hartmask_test_hartindex(boot, assigned)` and fails when the boot hart
IS assigned, the opposite polarity of the claim. -/
theorem validationA_claim_counterexample :
    secureC2.boot_hartid ∉ secureC2.assigned_harts ∧
    1 ∈ secureC2.possible_harts ∧ 1 ∉ secureC2.assigned_harts ∧
    (sbi_context_mgmt_init allocAlways [d1C2, secureC2] rootC2).1 = Except.ok () ∧
    (sbi_context_mgmt_init allocAlways [d1C2, secureC2] rootC2).2.diags = [] := by
  refine ⟨by decide, by decide, by decide, by rfl, by rfl⟩

/-- C2, amended: for every non-root domain `d` with a hart `h` possible but
not assigned, if `d.boot_hartid` IS in `d.assigned_harts` then
`setup_domain_context` fails with `SBI_EINVAL` and records a diagnostic
naming the domain and a possible-but-unassigned hart, and consequently
`sbi_context_mgmt_init` over any domain list containing `d` does not
succeed (part_001 lines 184-199, 237-241). -/
theorem validationA_boot_assigned_rejected
    (doms : List Domain) (root d : Domain) (hmem : d ∈ doms)
    (hboot : d.boot_hartid ∈ d.assigned_harts)
    (h : Nat) (hposs : h ∈ d.possible_harts) (hnass : h ∉ d.assigned_harts) :
    (∀ (st : InitSt) (dIdx : Nat),
      (setup_domain_context allocAlways dIdx d false st).1
          = Except.error SbiErr.einval ∧
      ∃ h', h' ∈ d.possible_harts ∧ h' ∉ d.assigned_harts ∧
        (d.name, h') ∈ (setup_domain_context allocAlways dIdx d false st).2.diags) ∧
    (sbi_context_mgmt_init allocAlways doms root).1 ≠ Except.ok () := by
  have hfail1 : ∀ (st : InitSt) (dIdx : Nat),
      (setup_domain_context allocAlways dIdx d false st).1
          = Except.error SbiErr.einval ∧
      ∃ h', h' ∈ d.possible_harts ∧ h' ∉ d.assigned_harts ∧
        (d.name, h') ∈ (setup_domain_context allocAlways dIdx d false st).2.diags :=
    fun st dIdx =>
      setupHarts_bootAssigned_fails d hboot d.possible_harts st dIdx ⟨h, hposs, hnass⟩
  refine ⟨hfail1, ?_⟩
  have hex : ∃ i, (i, d) ∈ doms.enum := by
    rcases List.mem_iff_getElem?.mp hmem with ⟨i, hi⟩
    exact ⟨i, List.mk_mem_enum_iff_getElem?.mpr hi⟩
  have hrun := runDomains_member_fails d (fun st dIdx => (hfail1 st dIdx).1)
    doms.enum hex InitSt.empty
  unfold sbi_context_mgmt_init
  rcases hr : runDomains allocAlways doms.enum InitSt.empty with ⟨r, st⟩
  cases r with
  | ok u =>
    rw [hr] at hrun
    exact absurd rfl hrun
  | error e => simp

/-- C2, witness for the amended theorem: the concrete domain `dA`
(boot hart 0 assigned, hart 1 possible but unassigned) makes init fail. -/
theorem validationA_boot_assigned_rejected_witness :
    (dA ∈ [dA] ∧ dA.boot_hartid ∈ dA.assigned_harts ∧
      1 ∈ dA.possible_harts ∧ 1 ∉ dA.assigned_harts) ∧
    (sbi_context_mgmt_init allocAlways [dA] rootA).1 ≠ Except.ok () :=
  ⟨⟨by decide, by decide, by decide, by decide⟩,
   (validationA_boot_assigned_rejected [dA] rootA dA (by decide) (by decide)
      1 (by decide) (by decide)).2⟩

/-!
## Claim C7 — which (domain, hart) pairs get slots
-/

theorem killSlot_table (st : InitSt) (sid : Nat) :
    (killSlot st sid).table = st.table := by
  unfold killSlot; cases st.slots.get? sid <;> rfl

theorem killSlot_tail (st : InitSt) (sid : Nat) :
    (killSlot st sid).tail = st.tail := by
  unfold killSlot; cases st.slots.get? sid <;> rfl

theorem freeDomainSlots_table (dIdx : Nat) :
    ∀ (hs : List Nat) (st : InitSt),
      (freeDomainSlots st dIdx hs).table = st.table := by
  intro hs
  induction hs with
  | nil => intro st; rfl
  | cons h t ih =>
    intro st
    show (freeDomainSlots _ dIdx t).table = st.table
    rw [ih]
    rcases hT : st.table dIdx h with _ | sid
    · simp [hT]
    · simp [hT, killSlot_table]

theorem freeDomainSlots_tail (dIdx : Nat) :
    ∀ (hs : List Nat) (st : InitSt),
      (freeDomainSlots st dIdx hs).tail = st.tail := by
  intro hs
  induction hs with
  | nil => intro st; rfl
  | cons h t ih =>
    intro st
    show (freeDomainSlots _ dIdx t).tail = st.tail
    rw [ih]
    rcases hT : st.table dIdx h with _ | sid
    · simp [hT]
    · simp [hT, killSlot_tail]

/-- `setup_domain_context` never writes another domain's context table. -/
theorem setupHarts_table_other {oracle : AllocOracle} {dIdx : Nat} {d : Domain}
    {isRoot : Bool} :
    ∀ (hs : List Nat) (st : InitSt) (d' h' : Nat), d' ≠ dIdx →
      ((setupHarts oracle dIdx d isRoot hs st).2).table d' h' = st.table d' h' := by
  intro hs
  induction hs with
  | nil => intro st d' h' _; rfl
  | cons h t ih =>
    intro st d' h' hne
    rcases hOr : oracle st.allocCount with _ | _
    · rw [setupHarts_cons_allocFail hOr]
      show (freeDomainSlots _ _ _).table d' h' = _
      rw [freeDomainSlots_table]
    · have hTa : (allocSlot st dIdx h).table d' h' = st.table d' h' := by
        rw [allocSlot_table, if_neg]
        intro hc; exact hne hc.1
      by_cases hass : h ∈ d.assigned_harts
      · rw [setupHarts_cons_assigned hOr hass, ih _ _ _ hne]
        simpa using hTa
      · cases isRoot with
        | true =>
          rcases ht : st.tail h with _ | tl
          · rw [setupHarts_cons_root_tailNone hOr hass ht]
            exact hTa
          · rw [setupHarts_cons_root_append hOr hass ht, ih _ _ _ hne]
            simpa using hTa
        | false =>
          by_cases hb : d.boot_hartid ∈ d.assigned_harts
          · rw [setupHarts_cons_bootAssigned hOr hass hb]
            show (freeDomainSlots _ _ _).table d' h' = _
            rw [freeDomainSlots_table]
            exact hTa
          · rcases ht : st.tail h with _ | tl
            · rw [setupHarts_cons_tailNone hOr hass hb ht]
              show (freeDomainSlots _ _ _).table d' h' = _
              rw [freeDomainSlots_table]
              exact hTa
            · rw [setupHarts_cons_append hOr hass hb ht, ih _ _ _ hne]
              simp only [setTail_table, setNext_table]
              exact hTa

/-- On success, `setup_domain_context` has installed a slot exactly at the
harts it visited (plus whatever was in its table before). -/
theorem setupHarts_ok_table {oracle : AllocOracle} {dIdx : Nat} {d : Domain}
    {isRoot : Bool} :
    ∀ (hs : List Nat) (st st' : InitSt),
      setupHarts oracle dIdx d isRoot hs st = (Except.ok (), st') →
      ∀ h', (st'.table dIdx h').isSome
        ↔ (h' ∈ hs ∨ (st.table dIdx h').isSome) := by
  intro hs
  induction hs with
  | nil =>
    intro st st' hok h'
    rw [setupHarts_nil] at hok
    cases hok
    simp
  | cons h t ih =>
    intro st st' hok h'
    have hTa : ∀ st0 : InitSt, st0.table = (allocSlot st dIdx h).table →
        ((st0.table dIdx h').isSome ↔ (h' = h ∨ (st.table dIdx h').isSome)) := by
      intro st0 hEq
      rw [hEq, allocSlot_table]
      by_cases hc : h' = h
      · simp [hc]
      · rw [if_neg (fun hp => hc hp.2)]
        simp [hc]
    rcases hOr : oracle st.allocCount with _ | _
    · rw [setupHarts_cons_allocFail hOr] at hok
      cases hok
    · by_cases hass : h ∈ d.assigned_harts
      · rw [setupHarts_cons_assigned hOr hass] at hok
        rw [ih _ _ hok h', List.mem_cons]
        rw [hTa _ (by simp)]
        tauto
      · cases isRoot with
        | true =>
          rcases ht : st.tail h with _ | tl
          · rw [setupHarts_cons_root_tailNone hOr hass ht] at hok
            cases hok
          · rw [setupHarts_cons_root_append hOr hass ht] at hok
            rw [ih _ _ hok h', List.mem_cons]
            rw [hTa _ (by simp)]
            tauto
        | false =>
          by_cases hb : d.boot_hartid ∈ d.assigned_harts
          · rw [setupHarts_cons_bootAssigned hOr hass hb] at hok
            cases hok
          · rcases ht : st.tail h with _ | tl
            · rw [setupHarts_cons_tailNone hOr hass hb ht] at hok
              cases hok
            · rw [setupHarts_cons_append hOr hass hb ht] at hok
              rw [ih _ _ hok h', List.mem_cons]
              rw [hTa _ (by simp)]
              tauto

/-- Accumulated table characterization along the non-root domain walk. -/
theorem runDomains_ok_table {oracle : AllocOracle} :
    ∀ (l : List (Nat × Domain)) (st st' : InitSt),
      runDomains oracle l st = (Except.ok (), st') →
      ∀ dIdx h, (st'.table dIdx h).isSome
        ↔ ((∃ d, (dIdx, d) ∈ l ∧ h ∈ d.possible_harts)
            ∨ (st.table dIdx h).isSome) := by
  intro l
  induction l with
  | nil =>
    intro st st' hok dIdx h
    cases hok
    simp
  | cons p rest ih =>
    intro st st' hok dIdx h
    rcases p with ⟨j, d0⟩
    rcases hres : setup_domain_context oracle j d0 false st with ⟨r, st1⟩
    have hok' : (match setup_domain_context oracle j d0 false st with
        | (Except.ok _, st1) => runDomains oracle rest st1
        | e => e) = (Except.ok (), st') := hok
    rw [hres] at hok'
    unfold setup_domain_context at hres
    cases r with
    | error e => cases hok'
    | ok u =>
      have hrest := ih st1 st' hok' dIdx h
      rw [hrest]
      by_cases hd : dIdx = j
      · subst hd
        have h1 := setupHarts_ok_table d0.possible_harts st st1 hres h
        rw [h1]
        constructor
        · rintro (⟨d, hm, hp⟩ | (hp | hs))
          · exact Or.inl ⟨d, List.mem_cons_of_mem _ hm, hp⟩
          · exact Or.inl ⟨d0, List.mem_cons_self _ _, hp⟩
          · exact Or.inr hs
        · rintro (⟨d, hm, hp⟩ | hs)
          · rcases List.mem_cons.mp hm with hEq | hm2
            · have hd0 : d = d0 := congrArg Prod.snd hEq
              subst hd0
              exact Or.inr (Or.inl hp)
            · exact Or.inl ⟨d, hm2, hp⟩
          · exact Or.inr (Or.inr hs)
      · have h2 := @setupHarts_table_other oracle j d0 false
          d0.possible_harts st dIdx h hd
        rw [hres] at h2
        rw [h2]
        constructor
        · rintro (⟨d, hm, hp⟩ | hs)
          · exact Or.inl ⟨d, List.mem_cons_of_mem _ hm, hp⟩
          · exact Or.inr hs
        · rintro (⟨d, hm, hp⟩ | hs)
          · rcases List.mem_cons.mp hm with hEq | hm2
            · exact absurd (congrArg Prod.fst hEq) hd
            · exact Or.inl ⟨d, hm2, hp⟩
          · exact Or.inr hs

/-- C7, counterexample: the claim says only domains with
`context_mgmt_enabled` get context slots.  `d1Off` has the flag false, yet
after a successful init it owns a slot for hart 1: `sbi_context_mgmt_init`
(part_001 lines 236-245) walks every registered domain with no
`context_mgmt_enabled` filter. -/
theorem cm_disabled_domain_gets_slot :
    d1Off.context_mgmt_enabled = false ∧
    (sbi_context_mgmt_init allocAlways [d1Off] rootC2).1 = Except.ok () ∧
    (sbi_context_mgmt_init allocAlways [d1Off] rootC2).2.table 0 1 = some 0 :=
  ⟨rfl, rfl, rfl⟩

/-- C7, amended: after a successful `sbi_context_mgmt_init`, a context slot
is installed exactly for those (domain, hart) pairs where the domain is
registered (non-root domains at their registration index, root last) and
the hart is in the domain's `possible_harts` — regardless of
`context_mgmt_enabled` (part_001 lines 156-166, 236-245). -/
theorem init_allocates_per_possible_hart (oracle : AllocOracle)
    (doms : List Domain) (root : Domain) (st' : InitSt)
    (hok : sbi_context_mgmt_init oracle doms root = (Except.ok (), st')) :
    ∀ dIdx h, (st'.table dIdx h).isSome
      ↔ ∃ d, domainAt doms root dIdx = some d ∧ h ∈ d.possible_harts := by
  unfold sbi_context_mgmt_init at hok
  rcases hr : runDomains oracle doms.enum InitSt.empty with ⟨r, st1⟩
  rw [hr] at hok
  cases r with
  | error e => cases hok
  | ok u =>
    intro dIdx h
    have hok2 : setup_domain_context oracle doms.length root true st1
        = (Except.ok (), st') := hok
    unfold setup_domain_context at hok2
    have hrun := runDomains_ok_table doms.enum InitSt.empty st1 hr dIdx h
    have hempty : ((InitSt.empty).table dIdx h).isSome = false := rfl
    by_cases hd : dIdx = doms.length
    · subst hd
      have h1 := setupHarts_ok_table root.possible_harts st1 st' hok2 h
      rw [h1, hrun]
      have hnone : ¬ ∃ d, (doms.length, d) ∈ doms.enum ∧ h ∈ d.possible_harts := by
        rintro ⟨d, hm, _⟩
        have := List.mk_mem_enum_iff_getElem?.mp hm
        rw [List.getElem?_eq_none (le_refl _)] at this
        cases this
      simp [domainAt, hnone, hempty]
    · have h2 := @setupHarts_table_other oracle doms.length root true
        root.possible_harts st1 dIdx h hd
      rw [hok2] at h2
      rw [h2, hrun]
      simp only [hempty]
      constructor
      · rintro (⟨d, hm, hp⟩ | hs)
        · exact ⟨d, by simp [domainAt, hd, List.mk_mem_enum_iff_getElem?.mp hm], hp⟩
        · cases hs
      · rintro ⟨d, hm, hp⟩
        rw [domainAt, if_neg hd] at hm
        exact Or.inl ⟨d, List.mk_mem_enum_iff_getElem?.mpr hm, hp⟩

/-- C7, witness for the amended theorem on the concrete `[d1Off]` setup. -/
theorem init_allocates_per_possible_hart_witness :
    sbi_context_mgmt_init allocAlways [d1Off] rootC2
        = (Except.ok (), (sbi_context_mgmt_init allocAlways [d1Off] rootC2).2) ∧
    ∀ dIdx h,
      (((sbi_context_mgmt_init allocAlways [d1Off] rootC2).2).table dIdx h).isSome
        ↔ ∃ d, domainAt [d1Off] rootC2 dIdx = some d ∧ h ∈ d.possible_harts :=
  ⟨rfl, init_allocates_per_possible_hart allocAlways [d1Off] rootC2 _ rfl⟩

/-!
## Claim C4 — enter rejects null / uninitialized target contexts
-/

/-- C4: `enter(target)` returns `SBI_EINVAL` when the target's context slot
for the current hart is null (part_001 line 63, part_002 lines 104-105) or,
in the strict part_001 variant, when the slot is not marked `initialized`
(part_001 line 63); in both models the rejection happens before any state
change (the part_002 rejection may follow the lazy allocation of the
caller's own context, which needs either a pre-existing context or a
successful allocation, line 96-101). -/
theorem enter_null_or_uninitialized_einval :
    (∀ (s : Rt1) (dIdx : Nat),
        s.table dIdx s.hart = none →
        sbi_context_domain_enter s dIdx = some (Except.error SbiErr.einval, s)) ∧
    (∀ (s : Rt1) (dIdx dcid : Nat),
        s.table dIdx s.hart = some dcid →
        (s.slots dcid).initialized = false →
        sbi_context_domain_enter s dIdx = some (Except.error SbiErr.einval, s)) ∧
    (∀ (s : V2.St) (dIdx : Nat),
        s.table dIdx s.hart = none →
        (s.table s.curDom s.hart ≠ none ∨ s.allocOk = true) →
        ∃ s', V2.sbi_domain_context_enter s dIdx
            = some (Except.error SbiErr.einval, none, s')) := by
  refine ⟨?_, ?_, ?_⟩
  · intro s dIdx hnone
    simp [sbi_context_domain_enter, hnone]
  · intro s dIdx dcid hsome huninit
    simp [sbi_context_domain_enter, hsome, huninit]
  · intro s dIdx hnone halloc
    unfold V2.sbi_domain_context_enter
    rcases hctx : s.table s.curDom s.hart with _ | cid
    · rcases halloc with hc | hOk
      · exact absurd hctx hc
      · refine ⟨V2.setTable (V2.putSlot { s with freshSlot := s.freshSlot + 1 }
          s.freshSlot V2.Ctx2.zero) s.curDom s.hart (some s.freshSlot), ?_⟩
        simp [V2.ensureCtx, hctx, hOk, hnone]
    · exact ⟨s, by simp [V2.ensureCtx, hctx, hnone]⟩

/-- C4, witness: concrete rejections on `rt1Ex` (no table entry for domain
3; uninitialized slot of domain 2) and on `v2Ex` (no table entry for
domain 3). -/
theorem enter_null_or_uninitialized_einval_witness :
    (rt1Ex.table 3 rt1Ex.hart = none ∧
      sbi_context_domain_enter rt1Ex 3
        = some (Except.error SbiErr.einval, rt1Ex)) ∧
    (rt1Ex.table 2 rt1Ex.hart = some 2 ∧
      (rt1Ex.slots 2).initialized = false ∧
      sbi_context_domain_enter rt1Ex 2
        = some (Except.error SbiErr.einval, rt1Ex)) ∧
    (v2Ex.table 3 v2Ex.hart = none ∧
      ∃ s', V2.sbi_domain_context_enter v2Ex 3
        = some (Except.error SbiErr.einval, none, s')) :=
  ⟨⟨rfl, enter_null_or_uninitialized_einval.1 rt1Ex 3 rfl⟩,
   ⟨rfl, rfl, enter_null_or_uninitialized_einval.2.1 rt1Ex 2 2 rfl rfl⟩,
   ⟨rfl, enter_null_or_uninitialized_einval.2.2 v2Ex 3 rfl (Or.inr rfl)⟩⟩

/-!
## Claim C5 — ordering of domain reassignment, PMP disable, PMP configure
-/

/-- C5: on every domain switch, the external calls happen in the order:
domain reassignment first, then `pmp_disable(i)` for every
`i < pmp_count(scratch)`, then the incoming domain's PMP configuration —
in the part_001 switch (lines 32-40) and the part_002 switch (lines
47-58) alike.  Stated as an equation on the call trace. -/
theorem switch_pmp_order :
    (∀ (s : Rt1) (cid dcid : Nat),
      (switch_to_next_domain_context s cid dcid).log
        = s.log ++ Ev.assignHart ((s.slots dcid).dom) s.hart
            :: ((List.range s.pmp_count).map Ev.pmpDisable
                ++ [Ev.pmpConfigure ((s.slots dcid).dom)])) ∧
    (∀ (s : V2.St) (dIdx : Nat) (r : V2.St × Option V2.Outcome2),
      V2.switch_to_next_domain_context s dIdx = some r →
      r.1.log = s.log ++ Ev.assignHart dIdx s.hart
            :: ((List.range s.pmp_count).map Ev.pmpDisable
                ++ [Ev.pmpConfigure dIdx])) := by
  constructor
  · intro s cid dcid
    simp [switch_to_next_domain_context, sbi_domain_assign_hart, pmpReprogram,
      csrExchange, frameExchange, putSlot]
  · intro s dIdx r hr
    have hlog : ∀ cid, (V2.switchedState s dIdx cid).log
        = s.log ++ Ev.assignHart dIdx s.hart
            :: ((List.range s.pmp_count).map Ev.pmpDisable
                ++ [Ev.pmpConfigure dIdx]) := by
      intro cid
      simp [V2.switchedState, V2.putSlot]
    rcases hd : s.doms.get? dIdx with _ | d
    · simp only [V2.switch_to_next_domain_context, hd] at hr
      cases hr
    · rcases hc : s.table s.curDom s.hart with _ | cid
      · simp only [V2.switch_to_next_domain_context, hd, hc] at hr
        cases hr
      · rcases hdc : s.table dIdx s.hart with _ | dcid
        · simp only [V2.switch_to_next_domain_context, hd, hc, hdc] at hr
          split at hr <;> (injection hr with h; subst h; exact hlog cid)
        · simp only [V2.switch_to_next_domain_context, hd, hc, hdc,
            Option.some.injEq] at hr
          subst hr
          exact hlog cid

/-- C5, witness: the concrete traces on `rt1Ex` (target slot 1, domain 1)
and `v2Ex` (target domain 1), with `pmp_count = 2`. -/
theorem switch_pmp_order_witness :
    (switch_to_next_domain_context rt1Ex 0 1).log
      = rt1Ex.log ++ Ev.assignHart 1 0
          :: ((List.range 2).map Ev.pmpDisable ++ [Ev.pmpConfigure 1]) ∧
    ∃ r, V2.switch_to_next_domain_context v2Ex 1 = some r ∧
      r.1.log = v2Ex.log ++ Ev.assignHart 1 0
          :: ((List.range 2).map Ev.pmpDisable ++ [Ev.pmpConfigure 1]) := by
  refine ⟨switch_pmp_order.1 rt1Ex 0 1, ?_⟩
  rcases hEq : V2.switch_to_next_domain_context v2Ex 1 with _ | r
  · exact absurd (congrArg Option.isSome hEq) (by decide)
  · exact ⟨r, rfl, switch_pmp_order.2 v2Ex 1 r hEq⟩

/-!
## Claim C3 — error paths change nothing
-/

theorem ensureCtx_existing {s : V2.St} {cid : Nat}
    (hctx : s.table s.curDom s.hart = some cid) :
    V2.ensureCtx s = Except.ok s := by
  unfold V2.ensureCtx
  rw [hctx]

theorem ensureCtx_alloc {s : V2.St}
    (hctx : s.table s.curDom s.hart = none) (hOk : s.allocOk = true) :
    V2.ensureCtx s = Except.ok (V2.setTable
      (V2.putSlot { s with freshSlot := s.freshSlot + 1 } s.freshSlot V2.Ctx2.zero)
      s.curDom s.hart (some s.freshSlot)) := by
  unfold V2.ensureCtx
  rw [hctx, if_pos hOk]

theorem ensureCtx_fail {s : V2.St}
    (hctx : s.table s.curDom s.hart = none) (hOk : s.allocOk = false) :
    V2.ensureCtx s = Except.error SbiErr.enomem := by
  unfold V2.ensureCtx
  rw [hctx, if_neg (by rw [hOk]; exact Bool.false_ne_true)]

/-- The lazily allocated caller context changes only the table, the slot
heap and the allocation cursor. -/
theorem ensureCtx_alloc_fields (s : V2.St) :
    (V2.setTable (V2.putSlot { s with freshSlot := s.freshSlot + 1 }
        s.freshSlot V2.Ctx2.zero) s.curDom s.hart (some s.freshSlot)).assigned
      = s.assigned ∧
    (V2.setTable (V2.putSlot { s with freshSlot := s.freshSlot + 1 }
        s.freshSlot V2.Ctx2.zero) s.curDom s.hart (some s.freshSlot)).pmpApplied
      = s.pmpApplied ∧
    (V2.setTable (V2.putSlot { s with freshSlot := s.freshSlot + 1 }
        s.freshSlot V2.Ctx2.zero) s.curDom s.hart (some s.freshSlot)).liveCsrs
      = s.liveCsrs ∧
    (V2.setTable (V2.putSlot { s with freshSlot := s.freshSlot + 1 }
        s.freshSlot V2.Ctx2.zero) s.curDom s.hart (some s.freshSlot)).liveFrame
      = s.liveFrame :=
  ⟨rfl, rfl, rfl, rfl⟩

/-- C3: whenever enter or exit returns an error code, the caller's domain
assignment, PMP configuration, S-mode CSRs and live trap frame are
unchanged.  For part_001 the whole state is unchanged (the `SBI_EINVAL`
returns at lines 62-64 and 122-123 precede every mutation); for part_002
the four named components are unchanged (the lazy allocation of the
caller's own context pointer may have happened before an `SBI_EINVAL`
return, but it touches none of them). -/
theorem error_paths_preserve_state :
    (∀ (s : Rt1) (dIdx : Nat) (e : SbiErr) (s' : Rt1),
        sbi_context_domain_enter s dIdx = some (Except.error e, s') → s' = s) ∧
    (∀ (s : Rt1) (e : SbiErr) (s' : Rt1),
        sbi_context_domain_exit s = some (ExitRes.err e, s') → s' = s) ∧
    (∀ (s : V2.St) (dIdx : Nat) (e : SbiErr) (o : Option V2.Outcome2) (s' : V2.St),
        V2.sbi_domain_context_enter s dIdx = some (Except.error e, o, s') →
        s'.assigned = s.assigned ∧ s'.pmpApplied = s.pmpApplied ∧
        s'.liveCsrs = s.liveCsrs ∧ s'.liveFrame = s.liveFrame) ∧
    (∀ (s : V2.St) (e : SbiErr) (o : Option V2.Outcome2) (s' : V2.St),
        V2.sbi_domain_context_exit s = some (Except.error e, o, s') →
        s'.assigned = s.assigned ∧ s'.pmpApplied = s.pmpApplied ∧
        s'.liveCsrs = s.liveCsrs ∧ s'.liveFrame = s.liveFrame) := by
  refine ⟨?_, ?_, ?_, ?_⟩
  · -- part_001 enter
    intro s dIdx e s' hr
    rcases hdc : s.table dIdx s.hart with _ | dcid
    · simp only [sbi_context_domain_enter, hdc, Option.some.injEq,
        Prod.mk.injEq] at hr
      exact hr.2.symm
    · by_cases hinit : (s.slots dcid).initialized = false
      · simp only [sbi_context_domain_enter, hdc, hinit, if_true,
          Option.some.injEq, Prod.mk.injEq] at hr
        exact hr.2.symm
      · simp only [sbi_context_domain_enter, hdc, hinit, if_false] at hr
        rcases hc : s.table s.curDom s.hart with _ | cid
        · rw [hc] at hr
          cases hr
        · rw [hc] at hr
          simp at hr
  · -- part_001 exit
    intro s e s' hr
    rcases hc : s.table s.curDom s.hart with _ | cid
    · simp only [sbi_context_domain_exit, hc] at hr
      cases hr
    · rcases hn : (s.slots cid).next_ctx with _ | dcid
      · simp only [sbi_context_domain_exit, hc, hn, Option.some.injEq,
          Prod.mk.injEq] at hr
        exact hr.2.symm
      · simp only [sbi_context_domain_exit, hc, hn] at hr
        split at hr
        · simp at hr
        · split at hr
          · cases hr
          · simp at hr
  · -- part_002 enter
    intro s dIdx e o s' hr
    rcases hctx : s.table s.curDom s.hart with _ | cid
    · rcases hOk : s.allocOk with _ | _
      · simp only [V2.sbi_domain_context_enter, ensureCtx_fail hctx hOk,
          Option.some.injEq, Prod.mk.injEq] at hr
        rcases hr with ⟨_, _, rfl⟩
        exact ⟨rfl, rfl, rfl, rfl⟩
      · rcases hdc : s.table dIdx s.hart with _ | dcid
        · simp only [V2.sbi_domain_context_enter, ensureCtx_alloc hctx hOk, hdc,
            Option.some.injEq, Prod.mk.injEq] at hr
          rcases hr with ⟨_, _, rfl⟩
          exact ensureCtx_alloc_fields s
        · simp only [V2.sbi_domain_context_enter, ensureCtx_alloc hctx hOk,
            hdc] at hr
          split at hr
          · cases hr
          · simp at hr
    · rcases hdc : s.table dIdx s.hart with _ | dcid
      · simp only [V2.sbi_domain_context_enter, ensureCtx_existing hctx, hdc,
          Option.some.injEq, Prod.mk.injEq] at hr
        rcases hr with ⟨_, _, rfl⟩
        exact ⟨rfl, rfl, rfl, rfl⟩
      · simp only [V2.sbi_domain_context_enter, ensureCtx_existing hctx,
          hdc] at hr
        split at hr
        · cases hr
        · simp at hr
  · -- part_002 exit
    intro s e o s' hr
    rcases hctx : s.table s.curDom s.hart with _ | cid
    · rcases hOk : s.allocOk with _ | _
      · simp only [V2.sbi_domain_context_exit, ensureCtx_fail hctx hOk,
          Option.some.injEq, Prod.mk.injEq] at hr
        rcases hr with ⟨_, _, rfl⟩
        exact ⟨rfl, rfl, rfl, rfl⟩
      · simp only [V2.sbi_domain_context_exit, ensureCtx_alloc hctx hOk] at hr
        split at hr
        · cases hr
        · split at hr
          · cases hr
          · simp at hr
    · simp only [V2.sbi_domain_context_exit, ensureCtx_existing hctx,
        hctx] at hr
      split at hr
      · cases hr
      · simp at hr

/-- C3, witness: concrete error returns leaving the state intact: a
part_001 enter of unregistered domain 3, a part_001 exit with no recorded
caller, and a part_002 enter of unregistered domain 3. -/
theorem error_paths_preserve_state_witness :
    (sbi_context_domain_enter rt1Ex 3
        = some (Except.error SbiErr.einval, rt1Ex) ∧ rt1Ex = rt1Ex) ∧
    (sbi_context_domain_exit rt1Ex
        = some (ExitRes.err SbiErr.einval, rt1Ex) ∧ rt1Ex = rt1Ex) ∧
    (V2.sbi_domain_context_enter v2Ex 3
        = some (Except.error SbiErr.einval, none, v2Ex) ∧
      (v2Ex.assigned = v2Ex.assigned ∧ v2Ex.pmpApplied = v2Ex.pmpApplied ∧
       v2Ex.liveCsrs = v2Ex.liveCsrs ∧ v2Ex.liveFrame = v2Ex.liveFrame)) :=
  ⟨⟨rfl, error_paths_preserve_state.1 rt1Ex 3 SbiErr.einval rt1Ex rfl⟩,
   ⟨rfl, error_paths_preserve_state.2.1 rt1Ex SbiErr.einval rt1Ex rfl⟩,
   ⟨rfl, error_paths_preserve_state.2.2.1 v2Ex 3 SbiErr.einval none v2Ex rfl⟩⟩

/-!
## Claim C9 — startup of a fresh domain context
-/

/-- The part_001 switch touches no slot other than the outgoing `ctx`. -/
theorem switch1_slots_other (s : Rt1) (cid dcid j : Nat) (hj : j ≠ cid) :
    (switch_to_next_domain_context s cid dcid).slots j = s.slots j := by
  simp [switch_to_next_domain_context, frameExchange, csrExchange,
    pmpReprogram, sbi_domain_assign_hart, putSlot, hj]

/-- Registry, hart id and context tables are invariant under the part_001
switch, and the assignment update is phase 1 of §4.1. -/
theorem switch1_fields (s : Rt1) (cid dcid : Nat) :
    (switch_to_next_domain_context s cid dcid).doms = s.doms ∧
    (switch_to_next_domain_context s cid dcid).hart = s.hart ∧
    (switch_to_next_domain_context s cid dcid).table = s.table ∧
    (switch_to_next_domain_context s cid dcid).curDom = (s.slots dcid).dom ∧
    (switch_to_next_domain_context s cid dcid).assigned
      = ((s.slots dcid).dom, s.hart)
          :: s.assigned.filter (fun p => p ≠ (s.curDom, s.hart)) :=
  ⟨rfl, rfl, rfl, rfl, rfl⟩

/-- When the recorded successor context is uninitialized, `exit` switches
into it and then diverges into `startup_next_domain_context` (part_001
lines 125-136). -/
theorem exit_uninit_eq (s : Rt1) (cid dcid : Nat)
    (hc : s.table s.curDom s.hart = some cid)
    (hn : (s.slots cid).next_ctx = some dcid)
    (hne : dcid ≠ cid)
    (huninit : (s.slots dcid).initialized = false) :
    sbi_context_domain_exit s
      = match startup_next_domain_context
          (switch_to_next_domain_context
            (putSlot s cid (markInit (s.slots cid))) cid dcid)
          dcid with
        | none => none
        | some o => some (ExitRes.startup o,
            switch_to_next_domain_context
              (putSlot s cid (markInit (s.slots cid))) cid dcid) := by
  have hslot : (switch_to_next_domain_context
      (putSlot s cid (markInit (s.slots cid))) cid dcid).slots dcid
      = s.slots dcid := by
    rw [switch1_slots_other _ _ _ _ hne]
    simp [putSlot, hne]
  simp only [sbi_context_domain_exit, hc, hn, hslot, huninit]
  rw [if_neg (by simp)]

/-- The startup outcome computed after the switch, for a registered target
domain. -/
theorem startup_after_switch (s : Rt1) (cid dcid : Nat) (d : Domain)
    (hne : dcid ≠ cid)
    (hdom : s.doms.get? ((s.slots dcid).dom) = some d) :
    startup_next_domain_context
      (switch_to_next_domain_context
        (putSlot s cid (markInit (s.slots cid))) cid dcid) dcid
      = (if d.possible_harts.any (fun i =>
            !(decide (((s.slots dcid).dom, i)
              ∈ (((s.slots dcid).dom, s.hart)
                  :: s.assigned.filter (fun p => p ≠ (s.curDom, s.hart)))))) then
          some StartupOutcome.parked
        else if s.hart ≠ d.boot_hartid then
          some (StartupOutcome.started d.boot_hartid d.next_addr d.next_mode
            d.next_arg1)
        else
          some (StartupOutcome.jumped d.boot_hartid d.next_arg1 d.next_addr
            d.next_mode)) := by
  have hslot : (switch_to_next_domain_context
      (putSlot s cid (markInit (s.slots cid))) cid dcid).slots dcid
      = s.slots dcid := by
    rw [switch1_slots_other _ _ _ _ hne]
    simp [putSlot, hne]
  simp only [startup_next_domain_context, hslot]
  have hdoms : (switch_to_next_domain_context
      (putSlot s cid (markInit (s.slots cid))) cid dcid).doms
      = s.doms := rfl
  rw [hdoms, hdom]
  have hass : (switch_to_next_domain_context
      (putSlot s cid (markInit (s.slots cid))) cid dcid).assigned
      = (((s.slots dcid).dom, s.hart)
          :: s.assigned.filter (fun p => p ≠ (s.curDom, s.hart))) := by
    rw [(switch1_fields _ cid dcid).2.2.2.2]
    simp [putSlot, hne]
  rw [hass]
  rfl

/-- If every possible hart of the target domain other than the current one
is already assigned, the parking test of `startup_next_domain_context` is
false after the switch (the switch itself assigned the current hart). -/
theorem startupCondFalse (s : Rt1) (cid dcid : Nat) (d : Domain)
    (hall : ∀ i, i ∈ d.possible_harts →
      i = s.hart ∨ ((s.slots dcid).dom, i) ∈ s.assigned) :
    d.possible_harts.any (fun i =>
        !(decide (((s.slots dcid).dom, i)
          ∈ (((s.slots dcid).dom, s.hart)
              :: s.assigned.filter (fun p => p ≠ (s.curDom, s.hart)))))) = false := by
  rw [List.any_eq_false]
  intro i hi
  simp only [Bool.not_eq_true', decide_eq_false_iff_not, not_not]
  by_cases hih : i = s.hart
  · subst hih
    exact List.mem_cons_self _ _
  · rcases hall i hi with hEq | hmem
    · exact absurd hEq hih
    · refine List.mem_cons_of_mem _ (List.mem_filter.mpr ⟨hmem, ?_⟩)
      simp only [decide_eq_true_eq]
      intro hEq2
      exact hih (congrArg Prod.snd hEq2)

/-- C9: when `exit` switches into an uninitialized slot of a registered
domain `d` (part_001 lines 125-136, 86-115): if some hart of
`d.possible_harts` is not observed assigned to `d` — after the switch has
just assigned the current hart — the current hart is parked via
`hsm_hart_stop`; otherwise, if the current hart is `d.boot_hartid`, the
mode-switch helper jumps to `next_addr` at `next_mode` with
`a0 = current_hartid()` and `a1 = next_arg1`; otherwise
`hsm_hart_start(boot_hartid, next_addr, next_mode, next_arg1)` is requested
and the current hart stops. -/
theorem exit_startup_of_uninitialized (s : Rt1) (cid dcid : Nat) (d : Domain)
    (hc : s.table s.curDom s.hart = some cid)
    (hn : (s.slots cid).next_ctx = some dcid)
    (hne : dcid ≠ cid)
    (hdom : s.doms.get? ((s.slots dcid).dom) = some d)
    (huninit : (s.slots dcid).initialized = false) :
    ((∃ i, i ∈ d.possible_harts ∧ i ≠ s.hart ∧
        ((s.slots dcid).dom, i) ∉ s.assigned) →
      ∃ s2, sbi_context_domain_exit s
        = some (ExitRes.startup StartupOutcome.parked, s2)) ∧
    ((∀ i, i ∈ d.possible_harts → i = s.hart ∨ ((s.slots dcid).dom, i) ∈ s.assigned) →
      s.hart = d.boot_hartid →
      ∃ s2, sbi_context_domain_exit s
        = some (ExitRes.startup
            (StartupOutcome.jumped s.hart d.next_arg1 d.next_addr d.next_mode), s2)) ∧
    ((∀ i, i ∈ d.possible_harts → i = s.hart ∨ ((s.slots dcid).dom, i) ∈ s.assigned) →
      s.hart ≠ d.boot_hartid →
      ∃ s2, sbi_context_domain_exit s
        = some (ExitRes.startup
            (StartupOutcome.started d.boot_hartid d.next_addr d.next_mode
              d.next_arg1), s2)) := by
  have hmain := exit_uninit_eq s cid dcid hc hn hne huninit
  have hstart := startup_after_switch s cid dcid d hne hdom
  refine ⟨?_, ?_, ?_⟩
  · rintro ⟨i, hi, hih, hia⟩
    have hcond : d.possible_harts.any (fun i =>
        !(decide (((s.slots dcid).dom, i)
          ∈ (((s.slots dcid).dom, s.hart)
              :: s.assigned.filter (fun p => p ≠ (s.curDom, s.hart)))))) = true := by
      rw [List.any_eq_true]
      refine ⟨i, hi, ?_⟩
      simp only [Bool.not_eq_true', decide_eq_false_iff_not]
      intro hmem
      rcases List.mem_cons.mp hmem with hEq | hmemf
      · exact hih (congrArg Prod.snd hEq)
      · exact hia (List.mem_filter.mp hmemf).1
    rw [if_pos hcond] at hstart
    refine ⟨switch_to_next_domain_context
      (putSlot s cid (markInit (s.slots cid))) cid dcid, ?_⟩
    rw [hmain, hstart]
  · intro hall hb
    rw [if_neg (by
      rw [startupCondFalse s cid dcid d hall]
      exact Bool.false_ne_true)] at hstart
    rw [if_neg (fun hq => hq hb)] at hstart
    refine ⟨switch_to_next_domain_context
      (putSlot s cid (markInit (s.slots cid))) cid dcid, ?_⟩
    rw [hmain, hstart, hb]
  · intro hall hb
    rw [if_neg (by
      rw [startupCondFalse s cid dcid d hall]
      exact Bool.false_ne_true)] at hstart
    rw [if_pos hb] at hstart
    refine ⟨switch_to_next_domain_context
      (putSlot s cid (markInit (s.slots cid))) cid dcid, ?_⟩
    rw [hmain, hstart]

/-- C9, witness: on `rtStart`, exiting the secure domain walks the chain
into the uninitialized slot of `othD`, whose possible hart 1 has never been
assigned, so the hart parks. -/
theorem exit_startup_of_uninitialized_witness :
    (rtStart.table rtStart.curDom rtStart.hart = some 1 ∧
     (rtStart.slots 1).next_ctx = some 2 ∧
     (2 : Nat) ≠ 1 ∧
     rtStart.doms.get? ((rtStart.slots 2).dom) = some othD ∧
     (rtStart.slots 2).initialized = false ∧
     (∃ i, i ∈ othD.possible_harts ∧ i ≠ rtStart.hart ∧
        ((rtStart.slots 2).dom, i) ∉ rtStart.assigned)) ∧
    ∃ s2, sbi_context_domain_exit rtStart
        = some (ExitRes.startup StartupOutcome.parked, s2) :=
  ⟨⟨rfl, rfl, by decide, rfl, rfl, ⟨1, by decide, by decide, by decide⟩⟩,
   (exit_startup_of_uninitialized rtStart 1 2 othD rfl rfl (by decide) rfl rfl).1
     ⟨1, by decide, by decide, by decide⟩⟩

/-!
## Claim C1 — the enter/exit round trip
-/

theorem putSlot_slots_self (s : Rt1) (i : Nat) (c : SbiContext) :
    (putSlot s i c).slots i = c := by
  simp [putSlot]

theorem putSlot_slots_other (s : Rt1) {i j : Nat} (c : SbiContext)
    (h : j ≠ i) : (putSlot s i c).slots j = s.slots j := by
  simp [putSlot, h]

theorem switch1_liveCsrs (s : Rt1) (cid dcid : Nat) :
    (switch_to_next_domain_context s cid dcid).liveCsrs = (s.slots dcid).csrs := rfl

theorem switch1_liveFrame (s : Rt1) (cid dcid : Nat) (hne : dcid ≠ cid) :
    (switch_to_next_domain_context s cid dcid).liveFrame = (s.slots dcid).regs := by
  simp [switch_to_next_domain_context, frameExchange, csrExchange,
    pmpReprogram, sbi_domain_assign_hart, putSlot, hne]

/-- The outgoing slot after a switch holds the previously-live CSR bank and
trap frame (§4.1 phases 3-4). -/
theorem switch1_slots_cid (s : Rt1) (cid dcid : Nat) :
    (switch_to_next_domain_context s cid dcid).slots cid
      = { s.slots cid with csrs := s.liveCsrs, regs := s.liveFrame } := by
  simp [switch_to_next_domain_context, frameExchange, csrExchange,
    pmpReprogram, sbi_domain_assign_hart, putSlot]

/-- Successful `sbi_context_domain_enter` (part_001 lines 56-75): switch
into the target slot, then record the caller in its `next_ctx`. -/
theorem enter_ok_eq (s : Rt1) (T cid dcid : Nat)
    (ht : s.table T s.hart = some dcid)
    (hinit : (s.slots dcid).initialized = true)
    (hc : s.table s.curDom s.hart = some cid) :
    sbi_context_domain_enter s T
      = some (Except.ok (),
          putSlot (switch_to_next_domain_context
              (putSlot s cid (markInit (s.slots cid))) cid dcid) dcid
            { (switch_to_next_domain_context
                (putSlot s cid (markInit (s.slots cid))) cid dcid).slots dcid
              with next_ctx := some cid }) := by
  simp only [sbi_context_domain_enter, ht, hinit, hc, Bool.true_eq_false,
    if_false]

/-- Successful `sbi_context_domain_exit` into an initialized caller slot
(part_001 lines 117-132). -/
theorem exit_ok_eq (s : Rt1) (cid dcid : Nat)
    (hc : s.table s.curDom s.hart = some cid)
    (hn : (s.slots cid).next_ctx = some dcid)
    (hinit2 : ((switch_to_next_domain_context
        (putSlot s cid (markInit (s.slots cid))) cid dcid).slots dcid).initialized
      = true) :
    sbi_context_domain_exit s
      = some (ExitRes.ok,
          switch_to_next_domain_context
            (putSlot s cid (markInit (s.slots cid))) cid dcid) := by
  simp only [sbi_context_domain_exit, hc, hn, hinit2, if_true]

/-- A normal exit from a state whose current slot `dcid` links back to an
initialized slot `cid`: it succeeds and restores the live CSR bank and trap
frame from slot `cid`. -/
theorem exit_ok_fields (sm : Rt1) (cid dcid : Nat)
    (hne : cid ≠ dcid)
    (htab : sm.table sm.curDom sm.hart = some dcid)
    (hn : (sm.slots dcid).next_ctx = some cid)
    (hinitc : (sm.slots cid).initialized = true) :
    ∃ s2, sbi_context_domain_exit sm = some (ExitRes.ok, s2) ∧
      s2.liveCsrs = (sm.slots cid).csrs ∧
      s2.liveFrame = (sm.slots cid).regs := by
  have h1 : ((switch_to_next_domain_context
      (putSlot sm dcid (markInit (sm.slots dcid))) dcid cid).slots cid).initialized
      = true := by
    rw [switch1_slots_other _ _ _ _ hne, putSlot_slots_other _ _ hne]
    exact hinitc
  refine ⟨_, exit_ok_eq sm dcid cid htab hn h1, ?_, ?_⟩
  · rw [switch1_liveCsrs, putSlot_slots_other _ _ hne]
  · rw [switch1_liveFrame _ _ _ hne, putSlot_slots_other _ _ hne]

set_option maxHeartbeats 1000000 in
/-- Successful enter, described by the fields of the resulting state: the
tables, hart and registry are untouched, the hart now runs `T`, the target
slot records the caller in `next_ctx`, and the caller slot is marked
initialized and holds the previously-live CSR bank and trap frame. -/
theorem enter_ok_fields (s : Rt1) (T cid dcid : Nat)
    (hc : s.table s.curDom s.hart = some cid)
    (ht : s.table T s.hart = some dcid)
    (hne : cid ≠ dcid)
    (hinit : (s.slots dcid).initialized = true)
    (hdom : (s.slots dcid).dom = T) :
    ∃ s1, sbi_context_domain_enter s T = some (Except.ok (), s1) ∧
      s1.table = s.table ∧ s1.hart = s.hart ∧ s1.curDom = T ∧
      s1.doms = s.doms ∧
      (s1.slots dcid).next_ctx = some cid ∧
      (s1.slots cid).initialized = true ∧
      (s1.slots cid).csrs = s.liveCsrs ∧
      (s1.slots cid).regs = s.liveFrame := by
  refine ⟨_, enter_ok_eq s T cid dcid ht hinit hc, rfl, rfl, ?_, rfl, ?_, ?_, ?_, ?_⟩
  · show ((putSlot s cid (markInit (s.slots cid))).slots dcid).dom = T
    rw [putSlot_slots_other _ _ (Ne.symm hne)]
    exact hdom
  · show ((putSlot (switch_to_next_domain_context
        (putSlot s cid (markInit (s.slots cid))) cid dcid) dcid
        { (switch_to_next_domain_context
            (putSlot s cid (markInit (s.slots cid))) cid dcid).slots dcid
          with next_ctx := some cid }).slots dcid).next_ctx = some cid
    rw [putSlot_slots_self]
  · show ((putSlot (switch_to_next_domain_context
        (putSlot s cid (markInit (s.slots cid))) cid dcid) dcid
        { (switch_to_next_domain_context
            (putSlot s cid (markInit (s.slots cid))) cid dcid).slots dcid
          with next_ctx := some cid }).slots cid).initialized = true
    rw [putSlot_slots_other _ _ hne, switch1_slots_cid, putSlot_slots_self]
    rfl
  · show ((putSlot (switch_to_next_domain_context
        (putSlot s cid (markInit (s.slots cid))) cid dcid) dcid
        { (switch_to_next_domain_context
            (putSlot s cid (markInit (s.slots cid))) cid dcid).slots dcid
          with next_ctx := some cid }).slots cid).csrs = s.liveCsrs
    rw [putSlot_slots_other _ _ hne, switch1_slots_cid, putSlot_slots_self]
    rfl
  · show ((putSlot (switch_to_next_domain_context
        (putSlot s cid (markInit (s.slots cid))) cid dcid) dcid
        { (switch_to_next_domain_context
            (putSlot s cid (markInit (s.slots cid))) cid dcid).slots dcid
          with next_ctx := some cid }).slots cid).regs = s.liveFrame
    rw [putSlot_slots_other _ _ hne, switch1_slots_cid, putSlot_slots_self]
    rfl

/-- C1: the round-trip law of §8.  From a caller state with context slot
`cid` and an initialized target slot `dcid` of domain `T`, dispatching
`enter(T)`, letting the callee run arbitrary supervisor code (leaving CSR
bank `g` and trapping with frame `gf`), then dispatching `exit()` returns
both calls successfully and restores every saved S-mode CSR (`stvec`,
`sscratch`, `sie`, `sip`, `satp`) and every general-purpose register of the
live trap frame exactly, except `mepc`, which has advanced by 4 to skip the
caller's ecall instruction. -/
theorem round_trip_restores_caller (s : Rt1) (T cid dcid : Nat)
    (g : Csrs) (gf : TrapRegs)
    (hc : s.table s.curDom s.hart = some cid)
    (ht : s.table T s.hart = some dcid)
    (hne : cid ≠ dcid)
    (hinit : (s.slots dcid).initialized = true)
    (hdom : (s.slots dcid).dom = T) :
    ∃ s1 s2, sbi_context_domain_enter s T = some (Except.ok (), s1) ∧
      sbi_context_domain_exit { ecallAdvance s1 with liveCsrs := g, liveFrame := gf }
        = some (ExitRes.ok, s2) ∧
      roundTrip s T g gf = some (ecallAdvance s2) ∧
      s2.liveCsrs = s.liveCsrs ∧
      (ecallAdvance s2).liveFrame
        = { s.liveFrame with mepc := s.liveFrame.mepc + 4 } := by
  obtain ⟨s1, hE, hT1, hH1, hD1, _, hN1, hI1, hC1, hR1⟩ :=
    enter_ok_fields s T cid dcid hc ht hne hinit hdom
  have htab : ({ ecallAdvance s1 with liveCsrs := g, liveFrame := gf } : Rt1).table
      ({ ecallAdvance s1 with liveCsrs := g, liveFrame := gf } : Rt1).curDom
      ({ ecallAdvance s1 with liveCsrs := g, liveFrame := gf } : Rt1).hart
      = some dcid := by
    show s1.table s1.curDom s1.hart = some dcid
    rw [hT1, hD1, hH1]
    exact ht
  have hn : (({ ecallAdvance s1 with liveCsrs := g, liveFrame := gf } : Rt1).slots
      dcid).next_ctx = some cid := hN1
  have hinitc : (({ ecallAdvance s1 with liveCsrs := g, liveFrame := gf } : Rt1).slots
      cid).initialized = true := hI1
  obtain ⟨s2, hX, hC, hF⟩ := exit_ok_fields
    { ecallAdvance s1 with liveCsrs := g, liveFrame := gf } cid dcid hne htab hn hinitc
  refine ⟨s1, s2, hE, hX, ?_, ?_, ?_⟩
  · simp only [roundTrip, hE, expectEnterOk, Option.bind, hX, expectExitOk]
  · rw [hC]
    exact hC1
  · show { s2.liveFrame with mepc := s2.liveFrame.mepc + 4 }
      = { s.liveFrame with mepc := s.liveFrame.mepc + 4 }
    rw [hF]
    show { (s1.slots cid).regs with mepc := (s1.slots cid).regs.mepc + 4 }
        = { s.liveFrame with mepc := s.liveFrame.mepc + 4 }
    rw [hR1]

/-- C1, witness: the concrete round trip on `rt1Ex` from domain 0 (slot 0)
into domain 1 (slot 1), with sentinel CSR and frame values left by the
callee. -/
theorem round_trip_restores_caller_witness :
    (rt1Ex.table rt1Ex.curDom rt1Ex.hart = some 0 ∧
     rt1Ex.table 1 rt1Ex.hart = some 1 ∧
     (0 : Nat) ≠ 1 ∧
     (rt1Ex.slots 1).initialized = true ∧
     (rt1Ex.slots 1).dom = 1) ∧
    (∃ s1 s2, sbi_context_domain_enter rt1Ex 1 = some (Except.ok (), s1) ∧
      sbi_context_domain_exit
        { ecallAdvance s1 with
          liveCsrs := ⟨91, 92, 93, 94, 95⟩,
          liveFrame := ⟨81, 82, 0x7000, 0x1800, [83]⟩ }
        = some (ExitRes.ok, s2) ∧
      roundTrip rt1Ex 1 ⟨91, 92, 93, 94, 95⟩ ⟨81, 82, 0x7000, 0x1800, [83]⟩
        = some (ecallAdvance s2) ∧
      s2.liveCsrs = rt1Ex.liveCsrs ∧
      (ecallAdvance s2).liveFrame
        = { rt1Ex.liveFrame with mepc := rt1Ex.liveFrame.mepc + 4 }) :=
  ⟨⟨rfl, rfl, by decide, rfl, rfl⟩,
   round_trip_restores_caller rt1Ex 1 0 1 ⟨91, 92, 93, 94, 95⟩
     ⟨81, 82, 0x7000, 0x1800, [83]⟩ rfl rfl (by decide) rfl rfl⟩

/-!
## Claim C8 — allocation failure frees the failing domain's slots
-/

theorem killSlot_slots_get (st : InitSt) (s0 sid : Nat) :
    (killSlot st s0).slots.get? sid
      = if s0 = sid then
          (st.slots.get? sid).map (fun sl => { sl with alive := false })
        else st.slots.get? sid := by
  unfold killSlot
  rcases h0 : st.slots.get? s0 with _ | sl0
  · by_cases hEq : s0 = sid
    · subst hEq
      rw [if_pos rfl, h0]
      rfl
    · rw [if_neg hEq]
  · by_cases hEq : s0 = sid
    · subst hEq
      rw [if_pos rfl]
      show (st.slots.set s0 _).get? s0 = _
      rw [List.get?_set_eq, h0]
      rfl
    · rw [if_neg hEq]
      show (st.slots.set s0 _).get? sid = _
      rw [List.get?_set_ne _ _ hEq]

theorem freeDomainSlots_get_some (dIdx : Nat) :
    ∀ (harts : List Nat) (st : InitSt) (sid : Nat) (sl : SbiContext),
      st.slots.get? sid = some sl →
      (freeDomainSlots st dIdx harts).slots.get? sid
        = some (if ∃ h, h ∈ harts ∧ st.table dIdx h = some sid
                then { sl with alive := false } else sl) := by
  intro harts
  induction harts with
  | nil =>
    intro st sid sl hg
    rw [if_neg (by rintro ⟨h', hm, _⟩; exact List.not_mem_nil h' hm)]
    exact hg
  | cons h t ih =>
    intro st sid sl hg
    show (freeDomainSlots (match st.table dIdx h with
        | some s0 => killSlot st s0 | none => st) dIdx t).slots.get? sid = _
    rcases hT : st.table dIdx h with _ | s0
    · rw [ih st sid sl hg]
      congr 1
      apply if_congr ?_ rfl rfl
      constructor
      · rintro ⟨h', hm, he⟩
        exact ⟨h', List.mem_cons_of_mem _ hm, he⟩
      · rintro ⟨h', hm, he⟩
        rcases List.mem_cons.mp hm with rfl | hm2
        · rw [hT] at he; cases he
        · exact ⟨h', hm2, he⟩
    · by_cases hE : s0 = sid
      · subst hE
        have hg' : (killSlot st s0).slots.get? s0
            = some { sl with alive := false } := by
          rw [killSlot_slots_get, if_pos rfl, hg]
          rfl
        rw [ih _ _ _ hg', killSlot_table]
        have hcond : ∃ h', h' ∈ h :: t ∧ st.table dIdx h' = some s0 :=
          ⟨h, List.mem_cons_self _ _, hT⟩
        rw [if_pos hcond]
        congr 1
        by_cases hc2 : ∃ h', h' ∈ t ∧ st.table dIdx h' = some s0
        · rw [if_pos hc2]
        · rw [if_neg hc2]
      · have hg' : (killSlot st s0).slots.get? sid = some sl := by
          rw [killSlot_slots_get, if_neg hE]
          exact hg
        rw [ih _ _ _ hg', killSlot_table]
        congr 1
        apply if_congr ?_ rfl rfl
        constructor
        · rintro ⟨h', hm, he⟩
          exact ⟨h', List.mem_cons_of_mem _ hm, he⟩
        · rintro ⟨h', hm, he⟩
          rcases List.mem_cons.mp hm with rfl | hm2
          · rw [hT] at he
            exact absurd (Option.some.injEq _ _ ▸ he) (by
              intro hq
              exact hE (by injection he))
          · exact ⟨h', hm2, he⟩

theorem freeDomainSlots_get_none (dIdx : Nat) :
    ∀ (harts : List Nat) (st : InitSt) (sid : Nat),
      st.slots.get? sid = none →
      (freeDomainSlots st dIdx harts).slots.get? sid = none := by
  intro harts
  induction harts with
  | nil => intro st sid hg; exact hg
  | cons h t ih =>
    intro st sid hg
    show (freeDomainSlots (match st.table dIdx h with
        | some s0 => killSlot st s0 | none => st) dIdx t).slots.get? sid = none
    rcases hT : st.table dIdx h with _ | s0
    · exact ih st sid hg
    · refine ih _ sid ?_
      rw [killSlot_slots_get]
      by_cases hE : s0 = sid
      · subst hE; rw [if_pos rfl, hg]; rfl
      · rw [if_neg hE]; exact hg

theorem setNext_slots_get (st : InitSt) (t sid : Nat) (v : Option Nat) :
    (setNext st t v).slots.get? sid
      = if t = sid then
          (st.slots.get? sid).map (fun sl => { sl with next_ctx := v })
        else st.slots.get? sid := by
  unfold setNext
  rcases h0 : st.slots.get? t with _ | sl0
  · by_cases hEq : t = sid
    · subst hEq; rw [if_pos rfl, h0]; rfl
    · rw [if_neg hEq]
  · by_cases hEq : t = sid
    · subst hEq
      rw [if_pos rfl]
      show (st.slots.set t _).get? t = _
      rw [List.get?_set_eq, h0]
      rfl
    · rw [if_neg hEq]
      show (st.slots.set t _).get? sid = _
      rw [List.get?_set_ne _ _ hEq]

/-- The freeing analysis of `setup_domain_context` (part_001 lines 156-223):
with all pre-existing slots alive (their ids below `n0`) and every slot id
at or above `n0` registered in the domain's table at a possible hart, a
successful run leaves everything alive, and a failing run either died on
the root null-tail dereference or has freed exactly the slots with id at
or above `n0` — the ones allocated for this domain. -/
theorem setupHarts_fail_frees (oracle : AllocOracle) (dIdx : Nat) (d : Domain)
    (isRoot : Bool) (n0 : Nat) :
    ∀ (hs : List Nat) (st : InitSt),
      hs.Nodup →
      (∀ h, h ∈ hs → h ∈ d.possible_harts) →
      n0 ≤ st.slots.length →
      (∀ sid sl, st.slots.get? sid = some sl → sl.alive = true) →
      (∀ sid, n0 ≤ sid → sid < st.slots.length →
        ∃ h, h ∈ d.possible_harts ∧ st.table dIdx h = some sid) →
      (∀ h, h ∈ hs → st.table dIdx h = none) →
      (∀ h sid, st.table dIdx h = some sid → n0 ≤ sid ∧ sid < st.slots.length) →
      (∀ st', setupHarts oracle dIdx d isRoot hs st = (Except.ok (), st') →
        ∀ sid sl, st'.slots.get? sid = some sl → sl.alive = true) ∧
      (∀ e st', setupHarts oracle dIdx d isRoot hs st = (Except.error e, st') →
        e = SbiErr.nullDeref ∨
        ∀ sid sl, st'.slots.get? sid = some sl → (sl.alive = true ↔ sid < n0)) := by
  intro hs
  induction hs with
  | nil =>
    intro st _ _ _ halive _ _ _
    constructor
    · intro st' hok
      rw [setupHarts_nil] at hok
      cases hok
      exact halive
    · intro e st' hok
      rw [setupHarts_nil] at hok
      cases hok
  | cons h hs' ih =>
    intro st hnd hposs hn0 halive hreg hfresh htgt
    -- characterization of a freeDomainSlots result from a state satisfying
    -- the invariants (shared by the ENOMEM and EINVAL branches)
    have hfreeChar : ∀ (stf : InitSt),
        (∀ sid sl, stf.slots.get? sid = some sl → sl.alive = true) →
        (∀ sid, n0 ≤ sid → sid < stf.slots.length →
          ∃ h', h' ∈ d.possible_harts ∧ stf.table dIdx h' = some sid) →
        (∀ h' sid, stf.table dIdx h' = some sid → n0 ≤ sid) →
        ∀ sid sl,
          (freeDomainSlots stf dIdx d.possible_harts).slots.get? sid = some sl →
          (sl.alive = true ↔ sid < n0) := by
      intro stf halivef hregf htgtf sid sl hres
      rcases hpre : stf.slots.get? sid with _ | sl0
      · rw [freeDomainSlots_get_none dIdx _ _ _ hpre] at hres
        cases hres
      · rw [freeDomainSlots_get_some dIdx _ _ _ _ hpre] at hres
        have hlt : sid < stf.slots.length := by
          rcases List.get?_eq_some.mp hpre with ⟨hb, _⟩
          exact hb
        injection hres with hres
        by_cases hnn : sid < n0
        · have hcf : ¬ ∃ h', h' ∈ d.possible_harts ∧ stf.table dIdx h' = some sid := by
            rintro ⟨h', _, he⟩
            exact absurd hnn (not_lt.mpr (htgtf h' sid he))
          rw [if_neg hcf] at hres
          subst hres
          simp [halivef sid sl0 hpre, hnn]
        · have hcf : ∃ h', h' ∈ d.possible_harts ∧ stf.table dIdx h' = some sid :=
            hregf sid (not_lt.mp hnn) hlt
          rw [if_pos hcf] at hres
          subst hres
          simp [hnn]
    rcases hOr : oracle st.allocCount with _ | _
    · -- allocation failure: SBI_ENOMEM, free everything of this domain
      constructor
      · intro st' hok
        rw [setupHarts_cons_allocFail hOr] at hok
        cases hok
      · intro e st' hok
        rw [setupHarts_cons_allocFail hOr] at hok
        injection hok with h1 h2
        injection h1 with h1
        subst h1
        subst h2
        exact Or.inr (hfreeChar st halive hreg (fun h' sid he => (htgt h' sid he).1))
    · -- allocation succeeded: the new slot has id st.slots.length
      -- facts about the post-allocation state
      have hgetNew : ∀ (st1 : InitSt), st1.slots = st.slots ++
          [{ SbiContext.fresh h with dom := dIdx }] →
          ∀ sid sl, st1.slots.get? sid = some sl →
            (sid < st.slots.length ∧ st.slots.get? sid = some sl) ∨
            (sid = st.slots.length ∧ sl = { SbiContext.fresh h with dom := dIdx }) := by
        intro st1 hEq sid sl hg
        rw [hEq] at hg
        by_cases hlt : sid < st.slots.length
        · rw [List.get?_append hlt] at hg
          exact Or.inl ⟨hlt, hg⟩
        · have hb : sid < st.slots.length + 1 := by
            rcases List.get?_eq_some.mp hg with ⟨hb, _⟩
            simpa using hb
          have hsid : sid = st.slots.length := by omega
          subst hsid
          rw [List.get?_concat_length] at hg
          injection hg with hg
          exact Or.inr ⟨rfl, hg.symm⟩
      by_cases hass : h ∈ d.assigned_harts
      · -- head case: recurse on the tail-updated state
        rw [setupHarts_cons_assigned hOr hass]
        refine ih (setTail (allocSlot st dIdx h) h (some st.slots.length))
          (List.Nodup.of_cons hnd) (fun h' hm => hposs h' (List.mem_cons_of_mem _ hm))
          ?_ ?_ ?_ ?_ ?_
        · simp
          omega
        · intro sid sl hg
          rcases hgetNew _ rfl sid sl hg with ⟨_, hg0⟩ | ⟨_, hEq⟩
          · exact halive sid sl hg0
          · subst hEq; rfl
        · intro sid hge hlt
          simp only [setTail_table, allocSlot_table]
          simp only [setTail_slots, allocSlot_slots, List.length_append,
            List.length_cons, List.length_nil] at hlt
          by_cases hEq : sid = st.slots.length
          · subst hEq
            exact ⟨h, hposs h (List.mem_cons_self _ _), by rw [if_pos (by simp)]⟩
          · have hlt0 : sid < st.slots.length := by omega
            rcases hreg sid hge hlt0 with ⟨h', hm', he'⟩
            refine ⟨h', hm', ?_⟩
            by_cases hh : h' = h
            · subst hh
              rw [hfresh h' (List.mem_cons_self _ _)] at he'
              cases he'
            · rw [if_neg (fun hp => hh hp.2)]
              exact he'
        · intro h' hm
          simp only [setTail_table, allocSlot_table]
          have hh : h' ≠ h := by
            rintro rfl
            exact (List.nodup_cons.mp hnd).1 hm
          rw [if_neg (fun hp => hh hp.2)]
          exact hfresh h' (List.mem_cons_of_mem _ hm)
        · intro h' sid he
          simp only [setTail_table, allocSlot_table] at he
          simp only [setTail_slots, allocSlot_slots, List.length_append,
            List.length_cons, List.length_nil]
          by_cases hp : h' = h
          · subst hp
            rw [if_pos (by simp)] at he
            injection he with he
            omega
          · rw [if_neg (fun hq => hp hq.2)] at he
            have := htgt h' sid he
            omega
      · cases isRoot with
        | true =>
          rcases hTl : st.tail h with _ | tl
          · -- null tail dereference
            constructor
            · intro st' hok
              rw [setupHarts_cons_root_tailNone hOr hass hTl] at hok
              cases hok
            · intro e st' hok
              rw [setupHarts_cons_root_tailNone hOr hass hTl] at hok
              injection hok with h1 h2
              injection h1 with h1
              exact Or.inl h1.symm
          · -- root append: recurse
            rw [setupHarts_cons_root_append hOr hass hTl]
            refine ih (setNext (allocSlot st dIdx h) tl (some st.slots.length))
              (List.Nodup.of_cons hnd)
              (fun h' hm => hposs h' (List.mem_cons_of_mem _ hm)) ?_ ?_ ?_ ?_ ?_
            · rw [setNext_length]
              simp
              omega
            · intro sid sl hg
              rw [setNext_slots_get] at hg
              by_cases hEq : tl = sid
              · rw [if_pos hEq] at hg
                rcases hg0 : (allocSlot st dIdx h).slots.get? sid with _ | sl0
                · rw [hg0] at hg; cases hg
                · rw [hg0] at hg
                  injection hg with hg
                  rcases hgetNew _ rfl sid sl0 hg0 with ⟨_, hgoto⟩ | ⟨_, hEq2⟩
                  · rw [← hg]
                    exact halive sid sl0 hgoto
                  · rw [← hg, hEq2]; rfl
              · rw [if_neg hEq] at hg
                rcases hgetNew _ rfl sid sl hg with ⟨_, hg0⟩ | ⟨_, hEq2⟩
                · exact halive sid sl hg0
                · subst hEq2; rfl
            · intro sid hge hlt
              simp only [setNext_table, allocSlot_table]
              rw [setNext_length] at hlt
              simp only [allocSlot_slots, List.length_append, List.length_cons,
                List.length_nil] at hlt
              by_cases hEq : sid = st.slots.length
              · subst hEq
                exact ⟨h, hposs h (List.mem_cons_self _ _), by rw [if_pos (by simp)]⟩
              · have hlt0 : sid < st.slots.length := by omega
                rcases hreg sid hge hlt0 with ⟨h', hm', he'⟩
                refine ⟨h', hm', ?_⟩
                by_cases hh : h' = h
                · subst hh
                  rw [hfresh h' (List.mem_cons_self _ _)] at he'
                  cases he'
                · rw [if_neg (fun hp => hh hp.2)]
                  exact he'
            · intro h' hm
              simp only [setNext_table, allocSlot_table]
              have hh : h' ≠ h := by
                rintro rfl
                exact (List.nodup_cons.mp hnd).1 hm
              rw [if_neg (fun hp => hh hp.2)]
              exact hfresh h' (List.mem_cons_of_mem _ hm)
            · intro h' sid he
              simp only [setNext_table, allocSlot_table] at he
              rw [setNext_length]
              simp only [allocSlot_slots, List.length_append, List.length_cons,
                List.length_nil]
              by_cases hp : h' = h
              · subst hp
                rw [if_pos (by simp)] at he
                injection he with he
                omega
              · rw [if_neg (fun hq => hp hq.2)] at he
                have := htgt h' sid he
                omega
        | false =>
          -- invariants for the post-allocation state used by the EINVAL frees
          have halive1 : ∀ sid sl,
              ({ allocSlot st dIdx h with diags := st.diags ++ [(d.name, h)] }
                : InitSt).slots.get? sid = some sl → sl.alive = true := by
            intro sid sl hg
            rcases hgetNew _ rfl sid sl hg with ⟨_, hg0⟩ | ⟨_, hEq⟩
            · exact halive sid sl hg0
            · subst hEq; rfl
          have hreg1 : ∀ sid, n0 ≤ sid →
              sid < ({ allocSlot st dIdx h with
                diags := st.diags ++ [(d.name, h)] } : InitSt).slots.length →
              ∃ h', h' ∈ d.possible_harts ∧
                ({ allocSlot st dIdx h with diags := st.diags ++ [(d.name, h)] }
                  : InitSt).table dIdx h' = some sid := by
            intro sid hge hlt
            simp only [allocSlot_slots, List.length_append, List.length_cons,
              List.length_nil] at hlt
            show ∃ h', h' ∈ d.possible_harts ∧
              (allocSlot st dIdx h).table dIdx h' = some sid
            simp only [allocSlot_table]
            by_cases hEq : sid = st.slots.length
            · subst hEq
              exact ⟨h, hposs h (List.mem_cons_self _ _), by rw [if_pos (by simp)]⟩
            · have hlt0 : sid < st.slots.length := by omega
              rcases hreg sid hge hlt0 with ⟨h', hm', he'⟩
              refine ⟨h', hm', ?_⟩
              by_cases hh : h' = h
              · subst hh
                rw [hfresh h' (List.mem_cons_self _ _)] at he'
                cases he'
              · rw [if_neg (fun hp => hh hp.2)]
                exact he'
          have htgt1 : ∀ h' sid,
              ({ allocSlot st dIdx h with diags := st.diags ++ [(d.name, h)] }
                : InitSt).table dIdx h' = some sid → n0 ≤ sid := by
            intro h' sid he
            show n0 ≤ sid
            have he' : (allocSlot st dIdx h).table dIdx h' = some sid := he
            rw [allocSlot_table] at he'
            by_cases hp : h' = h
            · subst hp
              rw [if_pos (by simp)] at he'
              injection he' with he'
              omega
            · rw [if_neg (fun hq => hp hq.2)] at he'
              exact (htgt h' sid he').1
          by_cases hb : d.boot_hartid ∈ d.assigned_harts
          · constructor
            · intro st' hok
              rw [setupHarts_cons_bootAssigned hOr hass hb] at hok
              cases hok
            · intro e st' hok
              rw [setupHarts_cons_bootAssigned hOr hass hb] at hok
              injection hok with h1 h2
              injection h1 with h1
              subst h1
              subst h2
              exact Or.inr (hfreeChar _ halive1 hreg1 htgt1)
          · rcases hTl : st.tail h with _ | tl
            · constructor
              · intro st' hok
                rw [setupHarts_cons_tailNone hOr hass hb hTl] at hok
                cases hok
              · intro e st' hok
                rw [setupHarts_cons_tailNone hOr hass hb hTl] at hok
                injection hok with h1 h2
                injection h1 with h1
                subst h1
                subst h2
                exact Or.inr (hfreeChar _ halive1 hreg1 htgt1)
            · -- ordinary append: recurse
              rw [setupHarts_cons_append hOr hass hb hTl]
              refine ih (setTail (setNext (allocSlot st dIdx h) tl
                  (some st.slots.length)) h (some st.slots.length))
                (List.Nodup.of_cons hnd)
                (fun h' hm => hposs h' (List.mem_cons_of_mem _ hm)) ?_ ?_ ?_ ?_ ?_
              · rw [setTail_slots, setNext_length]
                simp
                omega
              · intro sid sl hg
                rw [setTail_slots, setNext_slots_get] at hg
                by_cases hEq : tl = sid
                · rw [if_pos hEq] at hg
                  rcases hg0 : (allocSlot st dIdx h).slots.get? sid with _ | sl0
                  · rw [hg0] at hg; cases hg
                  · rw [hg0] at hg
                    injection hg with hg
                    rcases hgetNew _ rfl sid sl0 hg0 with ⟨_, hgoto⟩ | ⟨_, hEq2⟩
                    · rw [← hg]
                      exact halive sid sl0 hgoto
                    · rw [← hg, hEq2]; rfl
                · rw [if_neg hEq] at hg
                  rcases hgetNew _ rfl sid sl hg with ⟨_, hg0⟩ | ⟨_, hEq2⟩
                  · exact halive sid sl hg0
                  · subst hEq2; rfl
              · intro sid hge hlt
                simp only [setTail_table, setNext_table, allocSlot_table]
                rw [setTail_slots, setNext_length] at hlt
                simp only [allocSlot_slots, List.length_append, List.length_cons,
                  List.length_nil] at hlt
                by_cases hEq : sid = st.slots.length
                · subst hEq
                  exact ⟨h, hposs h (List.mem_cons_self _ _),
                    by rw [if_pos (by simp)]⟩
                · have hlt0 : sid < st.slots.length := by omega
                  rcases hreg sid hge hlt0 with ⟨h', hm', he'⟩
                  refine ⟨h', hm', ?_⟩
                  by_cases hh : h' = h
                  · subst hh
                    rw [hfresh h' (List.mem_cons_self _ _)] at he'
                    cases he'
                  · rw [if_neg (fun hp => hh hp.2)]
                    exact he'
              · intro h' hm
                simp only [setTail_table, setNext_table, allocSlot_table]
                have hh : h' ≠ h := by
                  rintro rfl
                  exact (List.nodup_cons.mp hnd).1 hm
                rw [if_neg (fun hp => hh hp.2)]
                exact hfresh h' (List.mem_cons_of_mem _ hm)
              · intro h' sid he
                simp only [setTail_table, setNext_table, allocSlot_table] at he
                rw [setTail_slots, setNext_length]
                simp only [allocSlot_slots, List.length_append, List.length_cons,
                  List.length_nil]
                by_cases hp : h' = h
                · subst hp
                  rw [if_pos (by simp)] at he
                  injection he with he
                  omega
                · rw [if_neg (fun hq => hp hq.2)] at he
                  have := htgt h' sid he
                  omega

/-- `runDomains` preserves the context-table entries of any processing
index it does not touch, on every path. -/
theorem runDomains_table_other {oracle : AllocOracle} :
    ∀ (l : List (Nat × Domain)) (st : InitSt) (dIdx0 h' : Nat),
      (∀ p, p ∈ l → p.1 ≠ dIdx0) →
      ((runDomains oracle l st).2).table dIdx0 h' = st.table dIdx0 h' := by
  intro l
  induction l with
  | nil => intro st dIdx0 h' _; rfl
  | cons p rest ih =>
    intro st dIdx0 h' hne
    rcases p with ⟨j, d0⟩
    show ((match setup_domain_context oracle j d0 false st with
      | (Except.ok _, st1) => runDomains oracle rest st1
      | e => e).2).table dIdx0 h' = st.table dIdx0 h'
    rcases hres : setup_domain_context oracle j d0 false st with ⟨r, st1⟩
    unfold setup_domain_context at hres
    have hother : st1.table dIdx0 h' = st.table dIdx0 h' := by
      have := @setupHarts_table_other oracle j d0 false d0.possible_harts st
        dIdx0 h' (Ne.symm (hne (j, d0) (List.mem_cons_self _ _)))
      rw [hres] at this
      exact this
    cases r with
    | ok u =>
      rw [ih st1 dIdx0 h' (fun q hq => hne q (List.mem_cons_of_mem _ hq))]
      exact hother
    | error e => exact hother

/-- The alive / freed analysis of the non-root domain walk. -/
theorem runDomains_alive (oracle : AllocOracle) :
    ∀ (l : List (Nat × Domain)) (st : InitSt),
      (∀ p, p ∈ l → (p.2).possible_harts.Nodup) →
      (∀ p, p ∈ l → ∀ h', st.table p.1 h' = none) →
      List.Pairwise (fun p q => p.1 ≠ q.1) l →
      (∀ sid sl, st.slots.get? sid = some sl → sl.alive = true) →
      (∀ st', runDomains oracle l st = (Except.ok (), st') →
        ∀ sid sl, st'.slots.get? sid = some sl → sl.alive = true) ∧
      (∀ st', runDomains oracle l st = (Except.error SbiErr.enomem, st') →
        ∃ n, ∀ sid sl, st'.slots.get? sid = some sl →
          (sl.alive = true ↔ sid < n)) := by
  intro l
  induction l with
  | nil =>
    intro st _ _ _ halive
    constructor
    · intro st' hok
      cases hok
      exact halive
    · intro st' hok
      cases hok
  | cons p rest ih =>
    intro st hndl hfreshl hpair halive
    rcases p with ⟨j, d0⟩
    have hmain := setupHarts_fail_frees oracle j d0 false st.slots.length
      d0.possible_harts st (hndl (j, d0) (List.mem_cons_self _ _))
      (fun _ hm => hm) (le_refl _) halive
      (fun sid hge hlt => absurd hlt (by omega))
      (fun h' hm => hfreshl (j, d0) (List.mem_cons_self _ _) h')
      (fun h' sid he => by
        rw [hfreshl (j, d0) (List.mem_cons_self _ _) h'] at he
        cases he)
    constructor
    · intro st' hok
      have hok' : (match setup_domain_context oracle j d0 false st with
        | (Except.ok _, st1) => runDomains oracle rest st1
        | e => e) = (Except.ok (), st') := hok
      rcases hres : setup_domain_context oracle j d0 false st with ⟨r, st1⟩
      have hres2 : setupHarts oracle j d0 false d0.possible_harts st = (r, st1) := hres
      rw [hres] at hok'
      cases r with
      | error e => cases hok'
      | ok u =>
        have halive1 := hmain.1 st1 hres2
        have hfresh1 : ∀ q, q ∈ rest → ∀ h', st1.table q.1 h' = none := by
          intro q hq h'
          have hne : q.1 ≠ j := by
            have := (List.pairwise_cons.mp hpair).1 q hq
            exact fun hEq => this hEq.symm
          have := @setupHarts_table_other oracle j d0 false d0.possible_harts st
            q.1 h' hne
          rw [hres2] at this
          rw [this]
          exact hfreshl q (List.mem_cons_of_mem _ hq) h'
        exact (ih st1 (fun q hq => hndl q (List.mem_cons_of_mem _ hq)) hfresh1
          (List.pairwise_cons.mp hpair).2 halive1).1 st' hok'
    · intro st' hok
      have hok' : (match setup_domain_context oracle j d0 false st with
        | (Except.ok _, st1) => runDomains oracle rest st1
        | e => e) = (Except.error SbiErr.enomem, st') := hok
      rcases hres : setup_domain_context oracle j d0 false st with ⟨r, st1⟩
      have hres2 : setupHarts oracle j d0 false d0.possible_harts st = (r, st1) := hres
      rw [hres] at hok'
      cases r with
      | ok u =>
        have halive1 := hmain.1 st1 hres2
        have hfresh1 : ∀ q, q ∈ rest → ∀ h', st1.table q.1 h' = none := by
          intro q hq h'
          have hne : q.1 ≠ j := by
            have := (List.pairwise_cons.mp hpair).1 q hq
            exact fun hEq => this hEq.symm
          have := @setupHarts_table_other oracle j d0 false d0.possible_harts st
            q.1 h' hne
          rw [hres2] at this
          rw [this]
          exact hfreshl q (List.mem_cons_of_mem _ hq) h'
        exact (ih st1 (fun q hq => hndl q (List.mem_cons_of_mem _ hq)) hfresh1
          (List.pairwise_cons.mp hpair).2 halive1).2 st' hok'
      | error e =>
        injection hok' with h1 h2
        subst h2
        injection h1 with h1
        subst h1
        rcases hmain.2 SbiErr.enomem st1 hres2 with hnd | hchar
        · cases hnd
        · exact ⟨st.slots.length, hchar⟩

theorem domStable_refl (dIdx : Nat) (st : InitSt) : DomStable dIdx st st :=
  fun _ => ⟨fun sl0 hg => ⟨sl0, hg, rfl⟩, fun hn => Or.inl hn⟩

theorem domStable_trans {dIdx : Nat} {st1 st2 st3 : InitSt}
    (h12 : DomStable dIdx st1 st2) (h23 : DomStable dIdx st2 st3) :
    DomStable dIdx st1 st3 := by
  intro sid
  constructor
  · intro sl0 hg
    rcases (h12 sid).1 sl0 hg with ⟨sl1, hg1, hd1⟩
    rcases (h23 sid).1 sl1 hg1 with ⟨sl2, hg2, hd2⟩
    exact ⟨sl2, hg2, hd2.trans hd1⟩
  · intro hn
    rcases (h12 sid).2 hn with hn1 | ⟨sl1, hg1, hd1⟩
    · rcases (h23 sid).2 hn1 with hn2 | ⟨sl2, hg2, hd2⟩
      · exact Or.inl hn2
      · exact Or.inr ⟨sl2, hg2, hd2⟩
    · rcases (h23 sid).1 sl1 hg1 with ⟨sl2, hg2, hd2⟩
      exact Or.inr ⟨sl2, hg2, hd2.trans hd1⟩

theorem domStable_allocSlot (st : InitSt) (dIdx h : Nat) :
    DomStable dIdx st (allocSlot st dIdx h) := by
  intro sid
  constructor
  · intro sl0 hg
    rcases List.get?_eq_some.mp hg with ⟨hlt, _⟩
    refine ⟨sl0, ?_, rfl⟩
    rw [allocSlot_slots, List.get?_append hlt]
    exact hg
  · intro hn
    have hge : st.slots.length ≤ sid := List.get?_eq_none.mp hn
    by_cases he : sid = st.slots.length
    · subst he
      exact Or.inr ⟨{ SbiContext.fresh h with dom := dIdx },
        by rw [allocSlot_slots, List.get?_concat_length], rfl⟩
    · refine Or.inl ?_
      rw [allocSlot_slots, List.get?_eq_none.mpr]
      simp only [List.length_append, List.length_cons, List.length_nil]
      omega

theorem domStable_setTail (dIdx : Nat) (st : InitSt) (h : Nat)
    (v : Option Nat) : DomStable dIdx st (setTail st h v) :=
  fun _ => ⟨fun sl0 hg => ⟨sl0, hg, rfl⟩, fun hn => Or.inl hn⟩

theorem domStable_setNext (dIdx : Nat) (st : InitSt) (t : Nat)
    (v : Option Nat) : DomStable dIdx st (setNext st t v) := by
  intro sid
  constructor
  · intro sl0 hg
    rw [setNext_slots_get]
    by_cases he : t = sid
    · rw [if_pos he, hg]
      exact ⟨_, rfl, rfl⟩
    · rw [if_neg he]
      exact ⟨sl0, hg, rfl⟩
  · intro hn
    rw [setNext_slots_get]
    by_cases he : t = sid
    · rw [if_pos he, hn]
      exact Or.inl rfl
    · rw [if_neg he]
      exact Or.inl hn

theorem domStable_freeDomainSlots (dIdx dI2 : Nat) (st : InitSt)
    (harts : List Nat) : DomStable dIdx st (freeDomainSlots st dI2 harts) := by
  intro sid
  constructor
  · intro sl0 hg
    rw [freeDomainSlots_get_some dI2 harts st sid sl0 hg]
    by_cases hc : ∃ h', h' ∈ harts ∧ st.table dI2 h' = some sid
    · rw [if_pos hc]
      exact ⟨_, rfl, rfl⟩
    · rw [if_neg hc]
      exact ⟨sl0, rfl, rfl⟩
  · intro hn
    exact Or.inl (freeDomainSlots_get_none dI2 harts st sid hn)

/-- `setup_domain_context` never changes the `dom` back-reference of a
pre-existing slot, and every slot it allocates carries its own domain's
index — on every path, success or failure. -/
theorem setupHarts_domStable (oracle : AllocOracle) (dIdx : Nat) (d : Domain)
    (isRoot : Bool) :
    ∀ (hs : List Nat) (st : InitSt),
      DomStable dIdx st ((setupHarts oracle dIdx d isRoot hs st).2) := by
  intro hs
  induction hs with
  | nil =>
    intro st
    rw [setupHarts_nil]
    exact domStable_refl dIdx st
  | cons h hs' ih =>
    intro st
    cases hOr : oracle st.allocCount with
    | false =>
      rw [setupHarts_cons_allocFail hOr]
      exact domStable_freeDomainSlots dIdx dIdx st d.possible_harts
    | true =>
      by_cases hass : h ∈ d.assigned_harts
      · rw [setupHarts_cons_assigned hOr hass]
        exact domStable_trans
          (domStable_trans (domStable_allocSlot st dIdx h)
            (domStable_setTail dIdx _ h _))
          (ih _)
      · cases isRoot with
        | true =>
          rcases htl : st.tail h with _ | t
          · rw [setupHarts_cons_root_tailNone hOr hass htl]
            exact domStable_allocSlot st dIdx h
          · rw [setupHarts_cons_root_append hOr hass htl]
            exact domStable_trans
              (domStable_trans (domStable_allocSlot st dIdx h)
                (domStable_setNext dIdx _ t _))
              (ih _)
        | false =>
          by_cases hb : d.boot_hartid ∈ d.assigned_harts
          · rw [setupHarts_cons_bootAssigned hOr hass hb]
            have hmid : DomStable dIdx st
                ({ allocSlot st dIdx h with
                  diags := st.diags ++ [(d.name, h)] } : InitSt) :=
              domStable_allocSlot st dIdx h
            exact domStable_trans hmid
              (domStable_freeDomainSlots dIdx dIdx _ d.possible_harts)
          · rcases htl : st.tail h with _ | t
            · rw [setupHarts_cons_tailNone hOr hass hb htl]
              have hmid : DomStable dIdx st
                  ({ allocSlot st dIdx h with
                    diags := st.diags ++ [(d.name, h)] } : InitSt) :=
                domStable_allocSlot st dIdx h
              exact domStable_trans hmid
                (domStable_freeDomainSlots dIdx dIdx _ d.possible_harts)
            · rw [setupHarts_cons_append hOr hass hb htl]
              exact domStable_trans
                (domStable_trans
                  (domStable_trans (domStable_allocSlot st dIdx h)
                    (domStable_setNext dIdx _ t _))
                  (domStable_setTail dIdx _ h _))
                (ih _)

/-- Every slot present after a `runDomains` walk either predates the walk
(with its `dom` back-reference untouched) or was allocated by one of the
walked domains and carries that domain's index. -/
theorem runDomains_dom (oracle : AllocOracle) :
    ∀ (l : List (Nat × Domain)) (st : InitSt) (sid : Nat) (sl : SbiContext),
      ((runDomains oracle l st).2).slots.get? sid = some sl →
      (∃ sl0, st.slots.get? sid = some sl0 ∧ sl.dom = sl0.dom) ∨
        ∃ q, q ∈ l ∧ sl.dom = q.1 := by
  intro l
  induction l with
  | nil =>
    intro st sid sl hg
    exact Or.inl ⟨sl, hg, rfl⟩
  | cons p rest ih =>
    intro st sid sl hg
    rcases hsd : setup_domain_context oracle p.1 p.2 false st with ⟨r0, st1⟩
    have hDS : DomStable p.1 st st1 := by
      have hx := setupHarts_domStable oracle p.1 p.2 false p.2.possible_harts st
      unfold setup_domain_context at hsd
      rw [hsd] at hx
      exact hx
    simp only [runDomains, hsd] at hg
    cases r0 with
    | error e =>
      rcases hg0 : st.slots.get? sid with _ | sl0
      · rcases (hDS sid).2 hg0 with hn1 | ⟨sl1, hg1, hd1⟩
        · rw [hn1] at hg
          cases hg
        · rw [hg1] at hg
          injection hg with hg
          subst hg
          exact Or.inr ⟨p, List.mem_cons_self _ _, hd1⟩
      · rcases (hDS sid).1 sl0 hg0 with ⟨sl1, hg1, hd1⟩
        rw [hg1] at hg
        injection hg with hg
        subst hg
        exact Or.inl ⟨sl0, rfl, hd1⟩
    | ok u =>
      rcases ih st1 sid sl hg with ⟨sl0', hg1, hd1⟩ | ⟨q, hq, hdq⟩
      · rcases hg0 : st.slots.get? sid with _ | sl0
        · rcases (hDS sid).2 hg0 with hn1 | ⟨sl1, hg1b, hd1b⟩
          · rw [hn1] at hg1
            cases hg1
          · rw [hg1b] at hg1
            injection hg1 with hg1
            subst hg1
            exact Or.inr ⟨p, List.mem_cons_self _ _, hd1.trans hd1b⟩
        · rcases (hDS sid).1 sl0 hg0 with ⟨sl1, hg1b, hd1b⟩
          rw [hg1b] at hg1
          injection hg1 with hg1
          subst hg1
          exact Or.inl ⟨sl0, rfl, hd1.trans hd1b⟩
      · exact Or.inr ⟨q, List.mem_cons_of_mem _ hq, hdq⟩

/-- `sbi_domain_for_each` over a split list: the walk runs the first part,
and only on its success continues with the second from the reached state. -/
theorem runDomains_split (oracle : AllocOracle) :
    ∀ (l1 l2 : List (Nat × Domain)) (st : InitSt),
      runDomains oracle (l1 ++ l2) st
        = match runDomains oracle l1 st with
          | (Except.ok _, st1) => runDomains oracle l2 st1
          | e => e := by
  intro l1
  induction l1 with
  | nil =>
    intro l2 st
    rfl
  | cons p rest ih =>
    intro l2 st
    rcases p with ⟨j, d0⟩
    rcases hsd : setup_domain_context oracle j d0 false st with ⟨r0, st1⟩
    show (match setup_domain_context oracle j d0 false st with
      | (Except.ok _, st1) => runDomains oracle (rest ++ l2) st1
      | e => e)
      = match (match setup_domain_context oracle j d0 false st with
          | (Except.ok _, st1) => runDomains oracle rest st1
          | e => e) with
        | (Except.ok _, st1) => runDomains oracle l2 st1
        | e => e
    rw [hsd]
    cases r0 with
    | error e => rfl
    | ok u => exact ih l2 st1

/-- Every index appearing in a prefix of `doms.enum` is below the prefix
length. -/
theorem enum_take_fst_lt (doms : List Domain) (k : Nat) :
    ∀ p, p ∈ doms.enum.take k → p.1 < k := by
  intro p hp
  rcases List.mem_iff_getElem?.mp hp with ⟨i, hi⟩
  have hil : i < (doms.enum.take k).length := by
    by_contra hc
    rw [List.getElem?_eq_none (le_of_not_lt hc)] at hi
    cases hi
  rw [List.length_take] at hil
  have hik : i < k := by omega
  have hilen : i < doms.enum.length := by omega
  rw [List.getElem?_take, if_pos hik, List.getElem?_eq_getElem hilen] at hi
  injection hi with hi
  rw [← hi]
  simp only [List.getElem_enum]
  exact hik

set_option maxHeartbeats 1000000 in
/-- **C8**: if slot allocation fails (`SBI_ENOMEM`) while init is setting
up the domain at processing index `k` — after the domains processed before
it completed — then init returns `SBI_ENOMEM` in exactly the failed pass's
state, in which every slot already allocated for the failing domain (the
slots appended since that pass began: ids at or above `n`, the arena size
when it began, all carrying the failing domain's back-reference `dom = k`)
has been freed by `fail_free_all`, while every slot of the previously
completed domains (ids below `n`, `dom ≠ k`) is still alive (part_001
lines 157-162, 218-223, 237-245). -/
theorem init_enomem_frees_failing_domain (oracle : AllocOracle)
    (doms : List Domain) (root : Domain) (k : Nat) (dk : Domain)
    (stk stf : InitSt)
    (hnd : ∀ d, d ∈ doms → d.possible_harts.Nodup)
    (hndr : root.possible_harts.Nodup)
    (hk : domainAt doms root k = some dk)
    (hpre : runDomains oracle (doms.enum.take k) InitSt.empty
      = (Except.ok (), stk))
    (hfail : setup_domain_context oracle k dk (decide (k = doms.length)) stk
      = (Except.error SbiErr.enomem, stf)) :
    sbi_context_mgmt_init oracle doms root
        = (Except.error SbiErr.enomem, stf) ∧
    ∀ sid sl, stf.slots.get? sid = some sl →
      (sl.alive = true ↔ sid < stk.slots.length) ∧
      (stk.slots.length ≤ sid → sl.dom = k) ∧
      (sid < stk.slots.length → sl.dom ≠ k) := by
  -- dom back-references of the pre-failure arena: all from the walked
  -- prefix, hence strictly below k
  have hdomsk : ∀ sid sl0, stk.slots.get? sid = some sl0 → sl0.dom < k := by
    intro sid sl0 hg
    have hg2 : ((runDomains oracle (doms.enum.take k)
        InitSt.empty).2).slots.get? sid = some sl0 := by
      rw [hpre]
      exact hg
    rcases runDomains_dom oracle (doms.enum.take k) InitSt.empty sid sl0 hg2
      with ⟨sl00, hg00, _⟩ | ⟨q, hq, hdq⟩
    · simp [InitSt.empty] at hg00
    · rw [hdq]
      exact enum_take_fst_lt doms k q hq
  have halive0 : ∀ sid sl, (InitSt.empty).slots.get? sid = some sl →
      sl.alive = true := by
    intro sid sl hg
    simp [InitSt.empty] at hg
  have hndl : ∀ p, p ∈ doms.enum.take k → (p.2).possible_harts.Nodup := by
    intro p hm
    have hm2 : p ∈ doms.enum := List.take_subset k doms.enum hm
    exact hnd p.2 (List.getElem?_mem (List.mk_mem_enum_iff_getElem?.mp hm2))
  have hfreshl : ∀ p, p ∈ doms.enum.take k → ∀ h',
      (InitSt.empty).table p.1 h' = none := fun _ _ _ => rfl
  have hpairE : List.Pairwise (fun p q : Nat × Domain => p.1 ≠ q.1)
      doms.enum := by
    have hmap : (doms.enum.map Prod.fst).Nodup := by
      rw [List.enum_map_fst]
      exact List.nodup_range _
    exact (List.pairwise_map.mp hmap)
  have hpair : List.Pairwise (fun p q : Nat × Domain => p.1 ≠ q.1)
      (doms.enum.take k) :=
    List.Pairwise.sublist (List.take_sublist k doms.enum) hpairE
  have hrdpre := runDomains_alive oracle (doms.enum.take k) InitSt.empty hndl
    hfreshl hpair halive0
  have halive_stk : ∀ sid sl, stk.slots.get? sid = some sl →
      sl.alive = true := hrdpre.1 stk hpre
  have hfresh_k : ∀ h', stk.table k h' = none := by
    intro h'
    have hx := @runDomains_table_other oracle (doms.enum.take k) InitSt.empty
      k h' (fun p hm => by
        have := enum_take_fst_lt doms k p hm
        omega)
    rw [hpre] at hx
    exact hx
  have hfail2 : setupHarts oracle k dk (decide (k = doms.length))
      dk.possible_harts stk = (Except.error SbiErr.enomem, stf) := hfail
  have hDS : DomStable k stk stf := by
    have hx := setupHarts_domStable oracle k dk (decide (k = doms.length))
      dk.possible_harts stk
    rw [hfail2] at hx
    exact hx
  have hdomhi : ∀ sid sl, stf.slots.get? sid = some sl →
      stk.slots.length ≤ sid → sl.dom = k := by
    intro sid sl hg hge
    have hn : stk.slots.get? sid = none := List.get?_eq_none.mpr hge
    rcases (hDS sid).2 hn with hn1 | ⟨sl1, hg1, hd1⟩
    · rw [hn1] at hg
      cases hg
    · rw [hg1] at hg
      injection hg with hg
      subst hg
      exact hd1
  have hdomlo : ∀ sid sl, stf.slots.get? sid = some sl →
      sid < stk.slots.length → sl.dom ≠ k := by
    intro sid sl hg hlt
    rcases hg0 : stk.slots.get? sid with _ | sl0
    · rw [List.get?_eq_none] at hg0
      omega
    · rcases (hDS sid).1 sl0 hg0 with ⟨sl1, hg1, hd1⟩
      rw [hg1] at hg
      injection hg with hg
      subst hg
      rw [hd1]
      exact Nat.ne_of_lt (hdomsk sid sl0 hg0)
  unfold domainAt at hk
  by_cases hkl : k = doms.length
  · -- the failing domain is root, processed last
    rw [if_pos hkl] at hk
    injection hk with hk
    subst hk
    subst hkl
    have hdec : decide (doms.length = doms.length) = true := by simp
    rw [hdec] at hfail2
    have htake : doms.enum.take doms.length = doms.enum :=
      List.take_of_length_le (le_of_eq (List.enum_length))
    have hpre2 : runDomains oracle doms.enum InitSt.empty
        = (Except.ok (), stk) := by
      rw [← htake]
      exact hpre
    have hinit : sbi_context_mgmt_init oracle doms root
        = (Except.error SbiErr.enomem, stf) := by
      unfold sbi_context_mgmt_init
      rw [hpre2]
      exact hfail2
    have hmain := setupHarts_fail_frees oracle doms.length root true
      stk.slots.length root.possible_harts stk hndr (fun _ hm => hm)
      (le_refl _) halive_stk
      (fun sid hge hlt => absurd hlt (by omega))
      (fun h' _ => hfresh_k h')
      (fun h' sid he => by rw [hfresh_k h'] at he; cases he)
    rcases hmain.2 SbiErr.enomem stf hfail2 with hndd | hchar
    · cases hndd
    · exact ⟨hinit, fun sid sl hg =>
        ⟨hchar sid sl hg, hdomhi sid sl hg, hdomlo sid sl hg⟩⟩
  · -- the failing domain is a non-root domain at index k
    rw [if_neg hkl] at hk
    have hklt : k < doms.length := by
      rcases List.getElem?_eq_some.mp hk with ⟨hb, _⟩
      exact hb
    have hdec : decide (k = doms.length) = false := decide_eq_false hkl
    rw [hdec] at hfail2
    have hdkmem : dk ∈ doms := List.getElem?_mem hk
    have hklen : k < doms.enum.length := by
      rw [List.enum_length]
      exact hklt
    have hgetk : doms[k] = dk := by
      have h2 : doms[k]? = some doms[k] := List.getElem?_eq_getElem hklt
      rw [hk] at h2
      injection h2 with h2
      exact h2.symm
    have hdrop : doms.enum.drop k = (k, dk) :: doms.enum.drop (k + 1) := by
      rw [List.drop_eq_getElem_cons hklen, List.getElem_enum, hgetk]
    have hfail3 : setup_domain_context oracle k dk false stk
        = (Except.error SbiErr.enomem, stf) := hfail2
    have hinit : sbi_context_mgmt_init oracle doms root
        = (Except.error SbiErr.enomem, stf) := by
      unfold sbi_context_mgmt_init
      have hsplit : runDomains oracle doms.enum InitSt.empty
          = (Except.error SbiErr.enomem, stf) := by
        have h1 : doms.enum = doms.enum.take k ++ doms.enum.drop k :=
          (List.take_append_drop k doms.enum).symm
        rw [h1, runDomains_split, hpre, hdrop]
        show (match setup_domain_context oracle k dk false stk with
          | (Except.ok _, st1) =>
            runDomains oracle (doms.enum.drop (k + 1)) st1
          | e => e) = (Except.error SbiErr.enomem, stf)
        rw [hfail3]
      rw [hsplit]
    have hmain := setupHarts_fail_frees oracle k dk false
      stk.slots.length dk.possible_harts stk (hnd dk hdkmem) (fun _ hm => hm)
      (le_refl _) halive_stk
      (fun sid hge hlt => absurd hlt (by omega))
      (fun h' _ => hfresh_k h')
      (fun h' sid he => by rw [hfresh_k h'] at he; cases he)
    rcases hmain.2 SbiErr.enomem stf hfail2 with hndd | hchar
    · cases hndd
    · exact ⟨hinit, fun sid sl hg =>
        ⟨hchar sid sl hg, hdomhi sid sl hg, hdomlo sid sl hg⟩⟩

/-- C8, witness: with an allocator failing from the third allocation on,
the fully assigned two-hart domain `d2C8` (processed after `nsD`, which
occupies slot 0) allocates slot 1 for its first hart and hits `SBI_ENOMEM`
on its second; the theorem then forces slot 1 (`dom = 1`, the failing
domain's) to be freed while `nsD`'s slot 0 stays alive, and init
propagates the error — real freeing is exercised, as `stfC8` holds one
dead slot of the failing domain. -/
theorem init_enomem_frees_failing_domain_witness :
    ((∀ d, d ∈ [nsD, d2C8] → d.possible_harts.Nodup) ∧
      rootC2.possible_harts.Nodup ∧
      domainAt [nsD, d2C8] rootC2 1 = some d2C8 ∧
      runDomains oracleC8 (([nsD, d2C8].enum).take 1) InitSt.empty
        = (Except.ok (), stkC8) ∧
      setup_domain_context oracleC8 1 d2C8 (decide (1 = [nsD, d2C8].length))
          stkC8 = (Except.error SbiErr.enomem, stfC8) ∧
      stkC8.slots.length = 1 ∧ stfC8.slots.length = 2) ∧
    (sbi_context_mgmt_init oracleC8 [nsD, d2C8] rootC2
        = (Except.error SbiErr.enomem, stfC8) ∧
      ∀ sid sl, stfC8.slots.get? sid = some sl →
        (sl.alive = true ↔ sid < stkC8.slots.length) ∧
        (stkC8.slots.length ≤ sid → sl.dom = 1) ∧
        (sid < stkC8.slots.length → sl.dom ≠ 1)) :=
  ⟨⟨by decide, by decide, by decide, by rfl, by rfl, by decide, by decide⟩,
   init_enomem_frees_failing_domain oracleC8 [nsD, d2C8] rootC2 1 d2C8
     stkC8 stfC8 (by decide) (by decide) (by decide) (by rfl) (by rfl)⟩

/-!
## C10: safety of the unchecked tail dereference in the root pass
-/

/-- A non-root `setup_domain_context` pass never reaches the unchecked tail
dereference: its only error returns are `SBI_EINVAL` and `SBI_ENOMEM`
(the null-tail case on a non-root domain is caught by the explicit
validation at part_001 lines 201-208). -/
theorem setupHarts_nonroot_no_nullDeref (oracle : AllocOracle) (dIdx : Nat)
    (d : Domain) :
    ∀ (hs : List Nat) (st st' : InitSt),
      setupHarts oracle dIdx d false hs st
        = (Except.error SbiErr.nullDeref, st') → False := by
  intro hs
  induction hs with
  | nil =>
    intro st st' hr
    rw [setupHarts_nil] at hr
    simp at hr
  | cons h t ih =>
    intro st st' hr
    cases hOr : oracle st.allocCount with
    | false =>
      rw [setupHarts_cons_allocFail hOr] at hr
      simp at hr
    | true =>
      by_cases hass : h ∈ d.assigned_harts
      · rw [setupHarts_cons_assigned hOr hass] at hr
        exact ih _ _ hr
      · by_cases hb : d.boot_hartid ∈ d.assigned_harts
        · rw [setupHarts_cons_bootAssigned hOr hass hb] at hr
          simp at hr
        · rcases ht : st.tail h with _ | tl
          · rw [setupHarts_cons_tailNone hOr hass hb ht] at hr
            simp at hr
          · rw [setupHarts_cons_append hOr hass hb ht] at hr
            exact ih _ _ hr

/-- The tail cursor of a hart is never cleared by `setup_domain_context`:
once it points at a slot it keeps pointing at some slot in the state the
pass returns, on every path, success or failure. -/
theorem setupHarts_tail_mono (oracle : AllocOracle) (dIdx : Nat) (d : Domain)
    (isRoot : Bool) :
    ∀ (hs : List Nat) (st : InitSt) (h0 : Nat),
      (st.tail h0).isSome = true →
      (((setupHarts oracle dIdx d isRoot hs st).2).tail h0).isSome = true := by
  intro hs
  induction hs with
  | nil =>
    intro st h0 hsm
    rw [setupHarts_nil]
    exact hsm
  | cons h t ih =>
    intro st h0 hsm
    cases hOr : oracle st.allocCount with
    | false =>
      rw [setupHarts_cons_allocFail hOr]
      show ((freeDomainSlots st dIdx d.possible_harts).tail h0).isSome = true
      rw [freeDomainSlots_tail]
      exact hsm
    | true =>
      by_cases hass : h ∈ d.assigned_harts
      · rw [setupHarts_cons_assigned hOr hass]
        apply ih
        rw [setTail_tail]
        by_cases he : h0 = h
        · simp [he]
        · simpa [he] using hsm
      · cases isRoot with
        | true =>
          rcases ht : st.tail h with _ | tl
          · rw [setupHarts_cons_root_tailNone hOr hass ht]
            simpa using hsm
          · rw [setupHarts_cons_root_append hOr hass ht]
            apply ih
            simpa using hsm
        | false =>
          by_cases hb : d.boot_hartid ∈ d.assigned_harts
          · rw [setupHarts_cons_bootAssigned hOr hass hb]
            show ((freeDomainSlots _ dIdx d.possible_harts).tail h0).isSome = true
            rw [freeDomainSlots_tail]
            exact hsm
          · rcases ht : st.tail h with _ | tl
            · rw [setupHarts_cons_tailNone hOr hass hb ht]
              show ((freeDomainSlots _ dIdx d.possible_harts).tail h0).isSome
                = true
              rw [freeDomainSlots_tail]
              exact hsm
            · rw [setupHarts_cons_append hOr hass hb ht]
              apply ih
              rw [setTail_tail]
              by_cases he : h0 = h
              · simp [he]
              · simpa [he] using hsm

/-- On success, `setup_domain_context` leaves the tail cursor set for every
assigned hart of the domain that occurs in the processed hart list (the
head-of-chain case at part_001 lines 168-171 sets it). -/
theorem setupHarts_ok_tail_assigned (oracle : AllocOracle) (dIdx : Nat)
    (d : Domain) (isRoot : Bool) :
    ∀ (hs : List Nat) (st st' : InitSt) (r : Unit),
      setupHarts oracle dIdx d isRoot hs st = (Except.ok r, st') →
      ∀ h0, h0 ∈ hs → h0 ∈ d.assigned_harts → (st'.tail h0).isSome = true := by
  intro hs
  induction hs with
  | nil =>
    intro st st' r hr h0 hmem
    cases hmem
  | cons h t ih =>
    intro st st' r hr h0 hmem hass0
    cases hOr : oracle st.allocCount with
    | false =>
      rw [setupHarts_cons_allocFail hOr] at hr
      simp at hr
    | true =>
      rcases List.mem_cons.mp hmem with rfl | hmem'
      · -- h0 is the head of the list, so it is set as head of its chain here
        rw [setupHarts_cons_assigned hOr hass0] at hr
        have hst' : st' = (setupHarts oracle dIdx d isRoot t
            (setTail (allocSlot st dIdx h0) h0 (some st.slots.length))).2 :=
          (congrArg Prod.snd hr).symm
        rw [hst']
        apply setupHarts_tail_mono
        rw [setTail_tail]
        simp
      · by_cases hass : h ∈ d.assigned_harts
        · rw [setupHarts_cons_assigned hOr hass] at hr
          exact ih _ _ _ hr h0 hmem' hass0
        · cases isRoot with
          | true =>
            rcases ht : st.tail h with _ | tl
            · rw [setupHarts_cons_root_tailNone hOr hass ht] at hr
              simp at hr
            · rw [setupHarts_cons_root_append hOr hass ht] at hr
              exact ih _ _ _ hr h0 hmem' hass0
          | false =>
            by_cases hb : d.boot_hartid ∈ d.assigned_harts
            · rw [setupHarts_cons_bootAssigned hOr hass hb] at hr
              simp at hr
            · rcases ht : st.tail h with _ | tl
              · rw [setupHarts_cons_tailNone hOr hass hb ht] at hr
                simp at hr
              · rw [setupHarts_cons_append hOr hass hb ht] at hr
                exact ih _ _ _ hr h0 hmem' hass0

/-- The non-root walk of `sbi_context_mgmt_init` never hits the unchecked
tail dereference. -/
theorem runDomains_no_nullDeref (oracle : AllocOracle) :
    ∀ (l : List (Nat × Domain)) (st st' : InitSt),
      runDomains oracle l st = (Except.error SbiErr.nullDeref, st') → False := by
  intro l
  induction l with
  | nil =>
    intro st st' hr
    simp [runDomains] at hr
  | cons p rest ih =>
    intro st st' hr
    rcases hsd : setup_domain_context oracle p.1 p.2 false st with ⟨r0, st1⟩
    simp only [runDomains, hsd] at hr
    cases r0 with
    | ok u => exact ih _ _ hr
    | error e =>
      injection hr with h1 h2
      injection h1 with h1
      subst h1
      unfold setup_domain_context at hsd
      exact setupHarts_nonroot_no_nullDeref oracle p.1 p.2 _ _ _ hsd

/-- The non-root walk never clears a tail cursor either. -/
theorem runDomains_tail_mono (oracle : AllocOracle) :
    ∀ (l : List (Nat × Domain)) (st : InitSt) (h0 : Nat),
      (st.tail h0).isSome = true →
      (((runDomains oracle l st).2).tail h0).isSome = true := by
  intro l
  induction l with
  | nil =>
    intro st h0 hsm
    simpa [runDomains] using hsm
  | cons p rest ih =>
    intro st h0 hsm
    rcases hsd : setup_domain_context oracle p.1 p.2 false st with ⟨r0, st1⟩
    have hst1 :
        (((setupHarts oracle p.1 p.2 false p.2.possible_harts st).2).tail
          h0).isSome = true :=
      setupHarts_tail_mono oracle p.1 p.2 false _ st h0 hsm
    have hst1' : (st1.tail h0).isSome = true := by
      unfold setup_domain_context at hsd
      rw [hsd] at hst1
      exact hst1
    simp only [runDomains, hsd]
    cases r0 with
    | ok u => exact ih _ _ hst1'
    | error e => exact hst1'

/-- After a successful non-root walk, every hart assigned to one of the
walked domains (and possible there) has its tail cursor set. -/
theorem runDomains_ok_assigned_tail (oracle : AllocOracle) :
    ∀ (l : List (Nat × Domain)) (st st' : InitSt) (r : Unit),
      runDomains oracle l st = (Except.ok r, st') →
      ∀ i d, (i, d) ∈ l → ∀ h0, h0 ∈ d.possible_harts →
        h0 ∈ d.assigned_harts → (st'.tail h0).isSome = true := by
  intro l
  induction l with
  | nil =>
    intro st st' r hr i d hmem
    cases hmem
  | cons p rest ih =>
    intro st st' r hr i d hmem h0 hposs hass
    rcases hsd : setup_domain_context oracle p.1 p.2 false st with ⟨r0, st1⟩
    simp only [runDomains, hsd] at hr
    cases r0 with
    | error e => simp at hr
    | ok u =>
      rcases List.mem_cons.mp hmem with heq | hmem'
      · have hdp : d = p.2 := congrArg Prod.snd heq
        subst hdp
        have hst1 : (st1.tail h0).isSome = true := by
          unfold setup_domain_context at hsd
          exact setupHarts_ok_tail_assigned oracle p.1 p.2 false _ st st1 u hsd
            h0 hposs hass
        have hst' : st' = (runDomains oracle rest st1).2 :=
          (congrArg Prod.snd hr).symm
        rw [hst']
        exact runDomains_tail_mono oracle rest st1 h0 hst1
      · exact ih _ _ _ hr i d hmem' h0 hposs hass

/-- If every possible-but-unassigned hart of the domain already has a tail
cursor, the root pass of `setup_domain_context` cannot hit the unchecked
tail dereference. -/
theorem setupHarts_root_guarded (oracle : AllocOracle) (dIdx : Nat)
    (d : Domain) :
    ∀ (hs : List Nat) (st : InitSt),
      (∀ h0, h0 ∈ hs → h0 ∉ d.assigned_harts → (st.tail h0).isSome = true) →
      ∀ st', setupHarts oracle dIdx d true hs st
        = (Except.error SbiErr.nullDeref, st') → False := by
  intro hs
  induction hs with
  | nil =>
    intro st hguard st' hr
    rw [setupHarts_nil] at hr
    simp at hr
  | cons h t ih =>
    intro st hguard st' hr
    cases hOr : oracle st.allocCount with
    | false =>
      rw [setupHarts_cons_allocFail hOr] at hr
      simp at hr
    | true =>
      by_cases hass : h ∈ d.assigned_harts
      · rw [setupHarts_cons_assigned hOr hass] at hr
        refine ih _ ?_ _ hr
        intro h0 hm0 hass0
        rw [setTail_tail]
        by_cases he : h0 = h
        · simp [he]
        · simpa [he] using hguard h0 (List.mem_cons_of_mem _ hm0) hass0
      · have hsome : (st.tail h).isSome = true :=
          hguard h (List.mem_cons_self _ _) hass
        rcases ht : st.tail h with _ | tl
        · rw [ht] at hsome
          cases hsome
        · rw [setupHarts_cons_root_append hOr hass ht] at hr
          refine ih _ ?_ _ hr
          intro h0 hm0 hass0
          simpa using hguard h0 (List.mem_cons_of_mem _ hm0) hass0

set_option maxHeartbeats 1000000 in
/-- **C10**: the root pass of `setup_domain_context` dereferences
`hartindex_to_tail_ctx_table[i]` with no null check (part_001 lines
174-182).  Under the preconditions that every domain's assigned harts are
possible there, and that every hart of root's possible mask not assigned
to root is assigned to some earlier-processed domain, the tail cursor is
non-null at every such dereference, so `sbi_context_mgmt_init` can never
fail with the modelled null-dereference error. -/
theorem init_root_tail_no_nullDeref (oracle : AllocOracle)
    (doms : List Domain) (root : Domain)
    (hwf : ∀ d, d ∈ doms → ∀ h, h ∈ d.assigned_harts → h ∈ d.possible_harts)
    (hpre : ∀ h, h ∈ root.possible_harts → h ∉ root.assigned_harts →
      ∃ d, d ∈ doms ∧ h ∈ d.assigned_harts) :
    (sbi_context_mgmt_init oracle doms root).1
      ≠ Except.error SbiErr.nullDeref := by
  intro hc
  unfold sbi_context_mgmt_init at hc
  rcases hrd : runDomains oracle doms.enum InitSt.empty with ⟨r0, st1⟩
  rw [hrd] at hc
  cases r0 with
  | error e =>
    have he : e = SbiErr.nullDeref := by
      injection hc with hc
    subst he
    exact runDomains_no_nullDeref oracle doms.enum InitSt.empty st1 hrd
  | ok u =>
    rcases hsd : setup_domain_context oracle doms.length root true st1
      with ⟨r1, st2⟩
    have hc2 : (setup_domain_context oracle doms.length root true st1).1
        = Except.error SbiErr.nullDeref := hc
    rw [hsd] at hc2
    have hr1 : r1 = Except.error SbiErr.nullDeref := hc2
    rw [hr1] at hsd
    unfold setup_domain_context at hsd
    refine setupHarts_root_guarded oracle doms.length root
      root.possible_harts st1 ?_ st2 hsd
    intro h0 hm0 hass0
    rcases hpre h0 hm0 hass0 with ⟨d, hd, hassd⟩
    rcases List.mem_iff_getElem?.mp hd with ⟨i, hi⟩
    exact runDomains_ok_assigned_tail oracle doms.enum InitSt.empty st1 u hrd
      i d (List.mk_mem_enum_iff_getElem?.mpr hi) h0 (hwf d hd h0 hassd) hassd

/-- C10, witness: with `dA` assigned hart 0 and root assigned hart 1, both
preconditions hold for `[dA]` over `rootA`, and init cannot null-deref. -/
theorem init_root_tail_no_nullDeref_witness :
    ((∀ d, d ∈ [dA] → ∀ h, h ∈ d.assigned_harts → h ∈ d.possible_harts) ∧
     (∀ h, h ∈ rootA.possible_harts → h ∉ rootA.assigned_harts →
        ∃ d, d ∈ [dA] ∧ h ∈ d.assigned_harts)) ∧
    (sbi_context_mgmt_init allocAlways [dA] rootA).1
      ≠ Except.error SbiErr.nullDeref :=
  ⟨⟨by decide, by decide⟩,
   init_root_tail_no_nullDeref allocAlways [dA] rootA (by decide) (by decide)⟩

/-!
## C6: the boot-up chain is acyclic and terminates at the root slot
-/

theorem nextOf_ge (st : InitSt) (a : Nat) (ha : st.slots.length ≤ a) :
    nextOf st a = none := by
  unfold nextOf
  rw [List.get?_eq_none.mpr ha]
  rfl

theorem slotHart_lt {st : InitSt} {a h0 : Nat}
    (hh : slotHart st a = some h0) : a < st.slots.length := by
  unfold slotHart at hh
  rcases hg : st.slots.get? a with _ | sl
  · rw [hg] at hh; cases hh
  · rcases List.get?_eq_some.mp hg with ⟨hb, _⟩
    exact hb

theorem nextOf_allocSlot (st : InitSt) (dIdx h a : Nat) :
    nextOf (allocSlot st dIdx h) a = nextOf st a := by
  unfold nextOf
  rw [allocSlot_slots]
  by_cases hlt : a < st.slots.length
  · rw [List.get?_append hlt]
  · have hnone : st.slots.get? a = none :=
      List.get?_eq_none.mpr (le_of_not_lt hlt)
    rw [hnone]
    by_cases heq : a = st.slots.length
    · subst heq
      rw [List.get?_concat_length]
      rfl
    · rw [List.get?_eq_none.mpr]
      simp only [List.length_append, List.length_cons, List.length_nil]
      omega

theorem slotHart_allocSlot_old (st : InitSt) (dIdx h a : Nat)
    (ha : a < st.slots.length) :
    slotHart (allocSlot st dIdx h) a = slotHart st a := by
  unfold slotHart
  rw [allocSlot_slots, List.get?_append ha]

theorem slotHart_allocSlot_new (st : InitSt) (dIdx h : Nat) :
    slotHart (allocSlot st dIdx h) st.slots.length = some h := by
  unfold slotHart
  rw [allocSlot_slots, List.get?_concat_length]
  rfl

theorem nextOf_setTail (st : InitSt) (h : Nat) (v : Option Nat) (a : Nat) :
    nextOf (setTail st h v) a = nextOf st a := rfl

theorem slotHart_setTail (st : InitSt) (h : Nat) (v : Option Nat) (a : Nat) :
    slotHart (setTail st h v) a = slotHart st a := rfl

theorem nextOf_setNext_other (st : InitSt) (t a : Nat) (v : Option Nat)
    (hne : t ≠ a) : nextOf (setNext st t v) a = nextOf st a := by
  unfold nextOf
  rw [setNext_slots_get, if_neg hne]

theorem nextOf_setNext_self (st : InitSt) (t : Nat) (v : Option Nat)
    (sl : SbiContext) (hg : st.slots.get? t = some sl) :
    nextOf (setNext st t v) t = v := by
  unfold nextOf
  rw [setNext_slots_get, if_pos rfl, hg]
  rfl

theorem slotHart_setNext (st : InitSt) (t a : Nat) (v : Option Nat) :
    slotHart (setNext st t v) a = slotHart st a := by
  unfold slotHart
  rw [setNext_slots_get]
  by_cases he : t = a
  · rw [if_pos he]
    cases st.slots.get? a <;> rfl
  · rw [if_neg he]

theorem chainCore_empty : ChainCore InitSt.empty := by
  constructor
  · intro a b hab
    have : nextOf InitSt.empty a = some b := hab
    rw [nextOf_ge InitSt.empty a (Nat.zero_le a)] at this
    cases this
  · intro h t ht
    cases ht
  · intro dIdx h sid hsid
    cases hsid
  · intro h _ dIdx
    rfl

/-- The chain invariant is preserved by a successful non-root
`setup_domain_context` pass, and every tail cursor of the result is owed
either to a previously processed domain or to this pass's own domain. -/
theorem setupHarts_core (oracle : AllocOracle) (dIdx : Nat) (d : Domain)
    (seen : List Domain)
    (hdisj : ∀ d', d' ∈ seen → DisjA d' d) :
    ∀ (hs : List Nat) (st : InitSt), hs.Nodup →
      ChainCore st →
      (∀ h t, st.tail h = some t →
        (∃ d', d' ∈ seen ∧ h ∈ d'.assigned_harts) ∨
          (h ∈ d.assigned_harts ∧ h ∉ hs)) →
      ∀ (r : Unit) (st' : InitSt),
        setupHarts oracle dIdx d false hs st = (Except.ok r, st') →
      ChainCore st' ∧
        ∀ h t, st'.tail h = some t →
          (∃ d', d' ∈ seen ∧ h ∈ d'.assigned_harts) ∨ h ∈ d.assigned_harts := by
  intro hs
  induction hs with
  | nil =>
    intro st _ hcore hsrc r st' hr
    rw [setupHarts_nil] at hr
    injection hr with h1 h2
    subst h2
    refine ⟨hcore, ?_⟩
    intro h t ht
    rcases hsrc h t ht with hl | hrr
    · exact Or.inl hl
    · exact Or.inr hrr.1
  | cons h hs' ih =>
    intro st hnd hcore hsrc r st' hr
    have hndt : hs'.Nodup := (List.nodup_cons.mp hnd).2
    have hhnot : h ∉ hs' := (List.nodup_cons.mp hnd).1
    cases hOr : oracle st.allocCount with
    | false =>
      rw [setupHarts_cons_allocFail hOr] at hr
      simp at hr
    | true =>
      by_cases hass : h ∈ d.assigned_harts
      · -- assigned hart: new head of its boot-up chain
        rw [setupHarts_cons_assigned hOr hass] at hr
        have htail : st.tail h = none := by
          rcases hx : st.tail h with _ | t0
          · rfl
          · rcases hsrc h t0 hx with ⟨d', hd', hh'⟩ | ⟨_, hnm⟩
            · exact absurd hass (hdisj d' hd' h hh')
            · exact absurd (List.mem_cons_self _ _) hnm
        have hnotab : ∀ dI, st.table dI h = none := hcore.noTail h htail
        set st2 := setTail (allocSlot st dIdx h) h (some st.slots.length)
          with hst2
        have hlen2 : st2.slots.length = st.slots.length + 1 := by
          rw [hst2]
          simp
        have hnx : ∀ a, nextOf st2 a = nextOf st a := by
          intro a
          rw [hst2, nextOf_setTail]
          exact nextOf_allocSlot st dIdx h a
        have hchain2 : ∀ a b, chainStep st2 a b ↔ chainStep st a b := by
          intro a b
          unfold chainStep
          rw [hnx a]
        have hsh_old : ∀ a, a < st.slots.length →
            slotHart st2 a = slotHart st a := by
          intro a ha
          rw [hst2, slotHart_setTail]
          exact slotHart_allocSlot_old st dIdx h a ha
        have hsh_new : slotHart st2 st.slots.length = some h := by
          rw [hst2, slotHart_setTail]
          exact slotHart_allocSlot_new st dIdx h
        have htl2 : ∀ h', st2.tail h'
            = if h' = h then some st.slots.length else st.tail h' := by
          intro h'
          rw [hst2, setTail_tail, allocSlot_tail]
        have htb2 : ∀ dI h', st2.table dI h'
            = if dI = dIdx ∧ h' = h then some st.slots.length
              else st.table dI h' := by
          intro dI h'
          rw [hst2, setTail_table]
          exact allocSlot_table st dIdx h dI h'
        have hcore2 : ChainCore st2 := by
          constructor
          · intro a b hab
            have hab' : chainStep st a b := (hchain2 a b).mp hab
            have hb := hcore.edges a b hab'
            exact ⟨hb.1, by omega⟩
          · intro h' t ht
            rw [htl2 h'] at ht
            by_cases he : h' = h
            · subst he
              rw [if_pos rfl] at ht
              injection ht with ht
              subst ht
              refine ⟨by omega, hsh_new, ?_⟩
              rw [hnx]
              exact nextOf_ge st _ (le_refl _)
            · rw [if_neg he] at ht
              rcases hcore.tails h' t ht with ⟨hb, hsh, hnxt⟩
              refine ⟨by omega, ?_, ?_⟩
              · rw [hsh_old t hb]
                exact hsh
              · rw [hnx]
                exact hnxt
          · intro dI h' sid hsid
            rw [htb2] at hsid
            by_cases hc : dI = dIdx ∧ h' = h
            · rw [if_pos hc] at hsid
              injection hsid with hsid
              subst hsid
              rcases hc with ⟨_, rfl⟩
              refine ⟨hsh_new, st.slots.length, ?_, Relation.ReflTransGen.refl⟩
              rw [htl2, if_pos rfl]
            · rw [if_neg hc] at hsid
              by_cases hh' : h' = h
              · subst hh'
                rw [hnotab dI] at hsid
                cases hsid
              · rcases hcore.heads dI h' sid hsid with ⟨hsh, t0, ht0, hrtg⟩
                refine ⟨?_, t0, ?_, ?_⟩
                · rw [hsh_old sid (slotHart_lt hsh)]
                  exact hsh
                · rw [htl2, if_neg hh']
                  exact ht0
                · exact Relation.ReflTransGen.mono
                    (fun a b hab => (hchain2 a b).mpr hab) hrtg
          · intro h' ht' dI
            rw [htl2] at ht'
            by_cases he : h' = h
            · rw [if_pos he] at ht'
              cases ht'
            · rw [if_neg he] at ht'
              rw [htb2, if_neg (fun hc => he hc.2)]
              exact hcore.noTail h' ht' dI
        have hsrc2 : ∀ h' t, st2.tail h' = some t →
            (∃ d', d' ∈ seen ∧ h' ∈ d'.assigned_harts) ∨
              (h' ∈ d.assigned_harts ∧ h' ∉ hs') := by
          intro h' t ht
          rw [htl2] at ht
          by_cases he : h' = h
          · subst he
            exact Or.inr ⟨hass, hhnot⟩
          · rw [if_neg he] at ht
            rcases hsrc h' t ht with hl | ⟨ha, hnm⟩
            · exact Or.inl hl
            · exact Or.inr ⟨ha, fun hm => hnm (List.mem_cons_of_mem _ hm)⟩
        exact ih st2 hndt hcore2 hsrc2 r st' hr
      · -- unassigned hart of a non-root domain
        by_cases hb : d.boot_hartid ∈ d.assigned_harts
        · rw [setupHarts_cons_bootAssigned hOr hass hb] at hr
          simp at hr
        · rcases htl : st.tail h with _ | t
          · rw [setupHarts_cons_tailNone hOr hass hb htl] at hr
            simp at hr
          · rw [setupHarts_cons_append hOr hass hb htl] at hr
            rcases hcore.tails h t htl with ⟨htlt, hsh_t, hnx_t⟩
            rcases hgt : st.slots.get? t with _ | slt
            · exfalso
              unfold slotHart at hsh_t
              rw [hgt] at hsh_t
              cases hsh_t
            · set st2 := setTail
                (setNext (allocSlot st dIdx h) t (some st.slots.length))
                h (some st.slots.length) with hst2
              have hA_get_t : (allocSlot st dIdx h).slots.get? t = some slt := by
                rw [allocSlot_slots, List.get?_append htlt]
                exact hgt
              have hlen2 : st2.slots.length = st.slots.length + 1 := by
                rw [hst2]
                simp
              have hnx2 : ∀ a, nextOf st2 a
                  = if a = t then some st.slots.length else nextOf st a := by
                intro a
                rw [hst2, nextOf_setTail]
                by_cases he : a = t
                · subst he
                  rw [if_pos rfl]
                  exact nextOf_setNext_self _ a _ slt hA_get_t
                · rw [if_neg he,
                    nextOf_setNext_other _ t a _ (fun hq => he hq.symm)]
                  exact nextOf_allocSlot st dIdx h a
              have hsh_old : ∀ a, a < st.slots.length →
                  slotHart st2 a = slotHart st a := by
                intro a ha
                rw [hst2, slotHart_setTail, slotHart_setNext]
                exact slotHart_allocSlot_old st dIdx h a ha
              have hsh_new : slotHart st2 st.slots.length = some h := by
                rw [hst2, slotHart_setTail, slotHart_setNext]
                exact slotHart_allocSlot_new st dIdx h
              have htl2 : ∀ h', st2.tail h'
                  = if h' = h then some st.slots.length else st.tail h' := by
                intro h'
                rw [hst2, setTail_tail, setNext_tail, allocSlot_tail]
              have htb2 : ∀ dI h', st2.table dI h'
                  = if dI = dIdx ∧ h' = h then some st.slots.length
                    else st.table dI h' := by
                intro dI h'
                rw [hst2, setTail_table, setNext_table]
                exact allocSlot_table st dIdx h dI h'
              have hup : ∀ a b, chainStep st a b → chainStep st2 a b := by
                intro a b hab
                have hab' : nextOf st a = some b := hab
                show nextOf st2 a = some b
                rw [hnx2 a]
                by_cases he : a = t
                · subst he
                  rw [hnx_t] at hab'
                  cases hab'
                · rw [if_neg he]
                  exact hab'
              have hstep_t : chainStep st2 t st.slots.length := by
                show nextOf st2 t = some st.slots.length
                rw [hnx2 t, if_pos rfl]
              have hcore2 : ChainCore st2 := by
                constructor
                · intro a b hab
                  have hab' : nextOf st2 a = some b := hab
                  rw [hnx2 a] at hab'
                  by_cases he : a = t
                  · rw [if_pos he] at hab'
                    injection hab' with hab'
                    subst hab'
                    subst he
                    exact ⟨htlt, by omega⟩
                  · rw [if_neg he] at hab'
                    have hb2 := hcore.edges a b hab'
                    exact ⟨hb2.1, by omega⟩
                · intro h' t' ht'
                  rw [htl2] at ht'
                  by_cases he : h' = h
                  · subst he
                    rw [if_pos rfl] at ht'
                    injection ht' with ht'
                    subst ht'
                    refine ⟨by omega, hsh_new, ?_⟩
                    rw [hnx2, if_neg (by omega)]
                    exact nextOf_ge st _ (le_refl _)
                  · rw [if_neg he] at ht'
                    rcases hcore.tails h' t' ht' with ⟨hb2, hsh2, hnxt2⟩
                    have htne : t' ≠ t := by
                      intro hq
                      subst hq
                      rw [hsh2] at hsh_t
                      injection hsh_t with hq2
                      exact he hq2
                    refine ⟨by omega, ?_, ?_⟩
                    · rw [hsh_old t' hb2]
                      exact hsh2
                    · rw [hnx2, if_neg htne]
                      exact hnxt2
                · intro dI h' sid hsid
                  rw [htb2] at hsid
                  by_cases hc : dI = dIdx ∧ h' = h
                  · rw [if_pos hc] at hsid
                    injection hsid with hsid
                    subst hsid
                    rcases hc with ⟨_, rfl⟩
                    refine ⟨hsh_new, st.slots.length, ?_,
                      Relation.ReflTransGen.refl⟩
                    rw [htl2, if_pos rfl]
                  · rw [if_neg hc] at hsid
                    rcases hcore.heads dI h' sid hsid with ⟨hsh2, t0, ht0, hrtg⟩
                    by_cases hh' : h' = h
                    · subst hh'
                      have ht0t : t0 = t := by
                        rw [htl] at ht0
                        injection ht0 with hq
                        exact hq.symm
                      subst ht0t
                      refine ⟨?_, st.slots.length, ?_, ?_⟩
                      · rw [hsh_old sid (slotHart_lt hsh2)]
                        exact hsh2
                      · rw [htl2, if_pos rfl]
                      · exact Relation.ReflTransGen.tail
                          (Relation.ReflTransGen.mono hup hrtg) hstep_t
                    · refine ⟨?_, t0, ?_, ?_⟩
                      · rw [hsh_old sid (slotHart_lt hsh2)]
                        exact hsh2
                      · rw [htl2, if_neg hh']
                        exact ht0
                      · exact Relation.ReflTransGen.mono hup hrtg
                · intro h' ht' dI
                  rw [htl2] at ht'
                  by_cases he : h' = h
                  · rw [if_pos he] at ht'
                    cases ht'
                  · rw [if_neg he] at ht'
                    rw [htb2, if_neg (fun hc => he hc.2)]
                    exact hcore.noTail h' ht' dI
              have hsrc2 : ∀ h' t', st2.tail h' = some t' →
                  (∃ d', d' ∈ seen ∧ h' ∈ d'.assigned_harts) ∨
                    (h' ∈ d.assigned_harts ∧ h' ∉ hs') := by
                intro h' t' ht'
                rw [htl2] at ht'
                by_cases he : h' = h
                · subst he
                  rcases hsrc h' t htl with hl | ⟨ha', _⟩
                  · exact Or.inl hl
                  · exact absurd ha' hass
                · rw [if_neg he] at ht'
                  rcases hsrc h' t' ht' with hl | ⟨ha, hnm⟩
                  · exact Or.inl hl
                  · exact Or.inr ⟨ha, fun hm => hnm (List.mem_cons_of_mem _ hm)⟩
              exact ih st2 hndt hcore2 hsrc2 r st' hr

/-- The chain invariant holds after the whole non-root walk of
`sbi_context_mgmt_init`, with every tail cursor owed to one of the walked
domains. -/
theorem runDomains_core (oracle : AllocOracle) :
    ∀ (l : List (Nat × Domain)) (seen : List Domain) (st : InitSt),
      (∀ p, p ∈ l → (p.2).possible_harts.Nodup) →
      List.Pairwise DisjA (seen ++ l.map Prod.snd) →
      ChainCore st →
      (∀ h t, st.tail h = some t →
        ∃ d', d' ∈ seen ∧ h ∈ d'.assigned_harts) →
      ∀ (r : Unit) (st' : InitSt), runDomains oracle l st = (Except.ok r, st') →
      ChainCore st' ∧
        ∀ h t, st'.tail h = some t →
          ∃ d', d' ∈ seen ++ l.map Prod.snd ∧ h ∈ d'.assigned_harts := by
  intro l
  induction l with
  | nil =>
    intro seen st _ _ hcore hsrc r st' hr
    injection hr with h1 h2
    subst h2
    refine ⟨hcore, ?_⟩
    intro h t ht
    rcases hsrc h t ht with ⟨d', hd', hh⟩
    exact ⟨d', by simpa using hd', hh⟩
  | cons p rest ih =>
    intro seen st hndl hpw hcore hsrc r st' hr
    rcases hsd : setup_domain_context oracle p.1 p.2 false st with ⟨r0, st1⟩
    simp only [runDomains, hsd] at hr
    cases r0 with
    | error e => simp at hr
    | ok u =>
      have hdisj1 : ∀ d', d' ∈ seen → DisjA d' p.2 := by
        intro d' hd'
        exact (List.pairwise_append.mp hpw).2.2 d' hd' p.2
          (by simp)
      unfold setup_domain_context at hsd
      have hstep := setupHarts_core oracle p.1 p.2 seen hdisj1
        p.2.possible_harts st (hndl p (List.mem_cons_self _ _)) hcore
        (fun h t ht => Or.inl (hsrc h t ht)) u st1 hsd
      have hsrc1 : ∀ h t, st1.tail h = some t →
          ∃ d', d' ∈ seen ++ [p.2] ∧ h ∈ d'.assigned_harts := by
        intro h t ht
        rcases hstep.2 h t ht with ⟨d', hd', hh⟩ | hh
        · exact ⟨d', List.mem_append_left _ hd', hh⟩
        · exact ⟨p.2, List.mem_append_right _ (by simp), hh⟩
      have hpw1 : List.Pairwise DisjA ((seen ++ [p.2]) ++ rest.map Prod.snd) := by
        rw [List.append_assoc]
        exact hpw
      have hrest := ih (seen ++ [p.2]) st1
        (fun q hq => hndl q (List.mem_cons_of_mem _ hq)) hpw1
        hstep.1 hsrc1 r st' hr
      refine ⟨hrest.1, ?_⟩
      intro h t ht
      rcases hrest.2 h t ht with ⟨d', hd', hh⟩
      refine ⟨d', ?_, hh⟩
      rw [List.append_assoc] at hd'
      exact hd'

/-- The root pass of `setup_domain_context`: a successful pass keeps the
edges strictly upward, only extends chains (never rewires an existing
edge), leaves slots, tails and table entries of unprocessed harts
untouched, and gives every processed hart a root slot, registered in the
root's context table, reachable from every one of the hart's table entries
and itself without successor. -/
theorem setupHarts_root_post (oracle : AllocOracle) (rIdx : Nat)
    (root : Domain) (seen : List Domain)
    (hdisjr : ∀ d', d' ∈ seen → DisjA d' root) :
    ∀ (hs : List Nat) (st : InitSt), hs.Nodup →
      (∀ a b, chainStep st a b → a < b ∧ b < st.slots.length) →
      (∀ h, h ∈ hs → ∀ t, st.tail h = some t →
        t < st.slots.length ∧ slotHart st t = some h ∧ nextOf st t = none) →
      (∀ h, h ∈ hs → ∀ dI sid, st.table dI h = some sid →
        slotHart st sid = some h ∧
          ∃ t, st.tail h = some t ∧
            Relation.ReflTransGen (chainStep st) sid t) →
      (∀ h, h ∈ hs → st.tail h = none → ∀ dI, st.table dI h = none) →
      (∀ h, h ∈ hs → ∀ t, st.tail h = some t →
        ∃ d', d' ∈ seen ∧ h ∈ d'.assigned_harts) →
      ∀ (r : Unit) (st' : InitSt),
        setupHarts oracle rIdx root true hs st = (Except.ok r, st') →
      (∀ a b, chainStep st' a b → a < b ∧ b < st'.slots.length) ∧
      (∀ a b, chainStep st a b → chainStep st' a b) ∧
      (∀ a, a < st.slots.length → slotHart st' a = slotHart st a) ∧
      (∀ h, h ∉ hs → st'.tail h = st.tail h) ∧
      (∀ dI h, h ∉ hs → st'.table dI h = st.table dI h) ∧
      (∀ a h0, slotHart st a = some h0 → h0 ∉ hs →
        nextOf st' a = nextOf st a) ∧
      (∀ h, h ∈ hs → ∃ rt, st'.table rIdx h = some rt ∧
        nextOf st' rt = none ∧
        ∀ dI sid, st'.table dI h = some sid →
          Relation.ReflTransGen (chainStep st') sid rt) := by
  intro hs
  induction hs with
  | nil =>
    intro st _ hedges _ _ _ _ r st' hr
    rw [setupHarts_nil] at hr
    injection hr with h1 h2
    subst h2
    refine ⟨hedges, fun a b hab => hab, fun a _ => rfl, fun h _ => rfl,
      fun dI h _ => rfl, fun a h0 _ _ => rfl, ?_⟩
    intro h hm
    cases hm
  | cons h hs' ih =>
    intro st hnd hedges htails hheads hnotl htsrc r st' hr
    have hndt : hs'.Nodup := (List.nodup_cons.mp hnd).2
    have hhnot : h ∉ hs' := (List.nodup_cons.mp hnd).1
    cases hOr : oracle st.allocCount with
    | false =>
      rw [setupHarts_cons_allocFail hOr] at hr
      simp at hr
    | true =>
      by_cases hass : h ∈ root.assigned_harts
      · -- assigned root hart: a fresh head (and, for root, also the tail)
        rw [setupHarts_cons_assigned hOr hass] at hr
        have htail : st.tail h = none := by
          rcases hx : st.tail h with _ | t0
          · rfl
          · rcases htsrc h (List.mem_cons_self _ _) t0 hx with ⟨d', hd', hh⟩
            exact absurd hass (hdisjr d' hd' h hh)
        have hnotab : ∀ dI, st.table dI h = none :=
          hnotl h (List.mem_cons_self _ _) htail
        set st2 := setTail (allocSlot st rIdx h) h (some st.slots.length)
          with hst2
        have hlen2 : st2.slots.length = st.slots.length + 1 := by
          rw [hst2]
          simp
        have hnx : ∀ a, nextOf st2 a = nextOf st a := by
          intro a
          rw [hst2, nextOf_setTail]
          exact nextOf_allocSlot st rIdx h a
        have hchain2 : ∀ a b, chainStep st2 a b ↔ chainStep st a b := by
          intro a b
          unfold chainStep
          rw [hnx a]
        have hsh_old : ∀ a, a < st.slots.length →
            slotHart st2 a = slotHart st a := by
          intro a ha
          rw [hst2, slotHart_setTail]
          exact slotHart_allocSlot_old st rIdx h a ha
        have hsh_new : slotHart st2 st.slots.length = some h := by
          rw [hst2, slotHart_setTail]
          exact slotHart_allocSlot_new st rIdx h
        have htl2 : ∀ h', st2.tail h'
            = if h' = h then some st.slots.length else st.tail h' := by
          intro h'
          rw [hst2, setTail_tail, allocSlot_tail]
        have htb2 : ∀ dI h', st2.table dI h'
            = if dI = rIdx ∧ h' = h then some st.slots.length
              else st.table dI h' := by
          intro dI h'
          rw [hst2, setTail_table]
          exact allocSlot_table st rIdx h dI h'
        have hne' : ∀ h', h' ∈ hs' → h' ≠ h := by
          intro h' hm heq
          subst heq
          exact hhnot hm
        have rec := ih st2 hndt
          (fun a b hab => by
            have hb2 := hedges a b ((hchain2 a b).mp hab)
            exact ⟨hb2.1, by omega⟩)
          (fun h' hm t' ht' => by
            rw [htl2, if_neg (hne' h' hm)] at ht'
            rcases htails h' (List.mem_cons_of_mem _ hm) t' ht'
              with ⟨hb2, hsh, hnxt⟩
            refine ⟨by omega, ?_, ?_⟩
            · rw [hsh_old t' hb2]
              exact hsh
            · rw [hnx]
              exact hnxt)
          (fun h' hm dI sid hsid => by
            rw [htb2, if_neg (fun hc => hne' h' hm hc.2)] at hsid
            rcases hheads h' (List.mem_cons_of_mem _ hm) dI sid hsid
              with ⟨hsh, t0, ht0, hrtg⟩
            refine ⟨?_, t0, ?_, ?_⟩
            · rw [hsh_old sid (slotHart_lt hsh)]
              exact hsh
            · rw [htl2, if_neg (hne' h' hm)]
              exact ht0
            · exact Relation.ReflTransGen.mono
                (fun a b hab => (hchain2 a b).mpr hab) hrtg)
          (fun h' hm ht' dI => by
            rw [htl2, if_neg (hne' h' hm)] at ht'
            rw [htb2, if_neg (fun hc => hne' h' hm hc.2)]
            exact hnotl h' (List.mem_cons_of_mem _ hm) ht' dI)
          (fun h' hm t' ht' => by
            rw [htl2, if_neg (hne' h' hm)] at ht'
            exact htsrc h' (List.mem_cons_of_mem _ hm) t' ht')
          r st' hr
        obtain ⟨hE, hS1, hS2, hS3, hS4, hS5, hDone⟩ := rec
        refine ⟨hE, ?_, ?_, ?_, ?_, ?_, ?_⟩
        · intro a b hab
          exact hS1 a b ((hchain2 a b).mpr hab)
        · intro a ha
          rw [hS2 a (by omega)]
          exact hsh_old a ha
        · intro h0 hn0
          have hn0' : h0 ∉ hs' := fun hm => hn0 (List.mem_cons_of_mem _ hm)
          have hn0h : h0 ≠ h := fun heq => hn0 (heq ▸ List.mem_cons_self _ _)
          rw [hS3 h0 hn0', htl2, if_neg hn0h]
        · intro dI h0 hn0
          have hn0' : h0 ∉ hs' := fun hm => hn0 (List.mem_cons_of_mem _ hm)
          have hn0h : h0 ≠ h := fun heq => hn0 (heq ▸ List.mem_cons_self _ _)
          rw [hS4 dI h0 hn0', htb2, if_neg (fun hc => hn0h hc.2)]
        · intro a h0 hsh hn0
          have hn0' : h0 ∉ hs' := fun hm => hn0 (List.mem_cons_of_mem _ hm)
          have halt : a < st.slots.length := slotHart_lt hsh
          have hsh2 : slotHart st2 a = some h0 := by
            rw [hsh_old a halt]
            exact hsh
          rw [hS5 a h0 hsh2 hn0', hnx]
        · intro h0 hm0
          rcases List.mem_cons.mp hm0 with rfl | hm0'
          · refine ⟨st.slots.length, ?_, ?_, ?_⟩
            · rw [hS4 rIdx h0 hhnot, htb2, if_pos ⟨rfl, rfl⟩]
            · rw [hS5 st.slots.length h0 hsh_new hhnot, hnx]
              exact nextOf_ge st _ (le_refl _)
            · intro dI sid hsid
              rw [hS4 dI h0 hhnot, htb2] at hsid
              by_cases hdc : dI = rIdx
              · rw [if_pos ⟨hdc, rfl⟩] at hsid
                injection hsid with hsid
                subst hsid
                exact Relation.ReflTransGen.refl
              · rw [if_neg (fun hc => hdc hc.1), hnotab dI] at hsid
                cases hsid
          · exact hDone h0 hm0'
      · -- unassigned root hart: append the fresh slot to the tail
        rcases htl : st.tail h with _ | t
        · rw [setupHarts_cons_root_tailNone hOr hass htl] at hr
          simp at hr
        · rw [setupHarts_cons_root_append hOr hass htl] at hr
          rcases htails h (List.mem_cons_self _ _) t htl
            with ⟨htlt, hsh_t, hnx_t⟩
          rcases hgt : st.slots.get? t with _ | slt
          · exfalso
            unfold slotHart at hsh_t
            rw [hgt] at hsh_t
            cases hsh_t
          · set st2 := setNext (allocSlot st rIdx h) t (some st.slots.length)
              with hst2
            have hA_get_t : (allocSlot st rIdx h).slots.get? t = some slt := by
              rw [allocSlot_slots, List.get?_append htlt]
              exact hgt
            have hlen2 : st2.slots.length = st.slots.length + 1 := by
              rw [hst2]
              simp
            have hnx2 : ∀ a, nextOf st2 a
                = if a = t then some st.slots.length else nextOf st a := by
              intro a
              rw [hst2]
              by_cases he : a = t
              · subst he
                rw [if_pos rfl]
                exact nextOf_setNext_self _ a _ slt hA_get_t
              · rw [if_neg he,
                  nextOf_setNext_other _ t a _ (fun hq => he hq.symm)]
                exact nextOf_allocSlot st rIdx h a
            have hsh_old : ∀ a, a < st.slots.length →
                slotHart st2 a = slotHart st a := by
              intro a ha
              rw [hst2, slotHart_setNext]
              exact slotHart_allocSlot_old st rIdx h a ha
            have hsh_new : slotHart st2 st.slots.length = some h := by
              rw [hst2, slotHart_setNext]
              exact slotHart_allocSlot_new st rIdx h
            have htl2 : ∀ h', st2.tail h' = st.tail h' := by
              intro h'
              rw [hst2, setNext_tail, allocSlot_tail]
            have htb2 : ∀ dI h', st2.table dI h'
                = if dI = rIdx ∧ h' = h then some st.slots.length
                  else st.table dI h' := by
              intro dI h'
              rw [hst2, setNext_table]
              exact allocSlot_table st rIdx h dI h'
            have hup : ∀ a b, chainStep st a b → chainStep st2 a b := by
              intro a b hab
              have hab' : nextOf st a = some b := hab
              show nextOf st2 a = some b
              rw [hnx2 a]
              by_cases he : a = t
              · subst he
                rw [hnx_t] at hab'
                cases hab'
              · rw [if_neg he]
                exact hab'
            have hstep_t : chainStep st2 t st.slots.length := by
              show nextOf st2 t = some st.slots.length
              rw [hnx2 t, if_pos rfl]
            have hne' : ∀ h', h' ∈ hs' → h' ≠ h := by
              intro h' hm heq
              subst heq
              exact hhnot hm
            have rec := ih st2 hndt
              (fun a b hab => by
                have hab' : nextOf st2 a = some b := hab
                rw [hnx2 a] at hab'
                by_cases he : a = t
                · rw [if_pos he] at hab'
                  injection hab' with hab'
                  subst hab'
                  subst he
                  exact ⟨htlt, by omega⟩
                · rw [if_neg he] at hab'
                  have hb2 := hedges a b hab'
                  exact ⟨hb2.1, by omega⟩)
              (fun h' hm t' ht' => by
                rw [htl2] at ht'
                rcases htails h' (List.mem_cons_of_mem _ hm) t' ht'
                  with ⟨hb2, hsh2, hnxt2⟩
                have htne : t' ≠ t := by
                  intro hq
                  subst hq
                  rw [hsh2] at hsh_t
                  injection hsh_t with hq2
                  exact hne' h' hm hq2
                refine ⟨by omega, ?_, ?_⟩
                · rw [hsh_old t' hb2]
                  exact hsh2
                · rw [hnx2, if_neg htne]
                  exact hnxt2)
              (fun h' hm dI sid hsid => by
                rw [htb2, if_neg (fun hc => hne' h' hm hc.2)] at hsid
                rcases hheads h' (List.mem_cons_of_mem _ hm) dI sid hsid
                  with ⟨hsh2, t0, ht0, hrtg⟩
                refine ⟨?_, t0, ?_, ?_⟩
                · rw [hsh_old sid (slotHart_lt hsh2)]
                  exact hsh2
                · rw [htl2]
                  exact ht0
                · exact Relation.ReflTransGen.mono hup hrtg)
              (fun h' hm ht' dI => by
                rw [htl2] at ht'
                rw [htb2, if_neg (fun hc => hne' h' hm hc.2)]
                exact hnotl h' (List.mem_cons_of_mem _ hm) ht' dI)
              (fun h' hm t' ht' => by
                rw [htl2] at ht'
                exact htsrc h' (List.mem_cons_of_mem _ hm) t' ht')
              r st' hr
            obtain ⟨hE, hS1, hS2, hS3, hS4, hS5, hDone⟩ := rec
            refine ⟨hE, ?_, ?_, ?_, ?_, ?_, ?_⟩
            · intro a b hab
              exact hS1 a b (hup a b hab)
            · intro a ha
              rw [hS2 a (by omega)]
              exact hsh_old a ha
            · intro h0 hn0
              have hn0' : h0 ∉ hs' :=
                fun hm => hn0 (List.mem_cons_of_mem _ hm)
              rw [hS3 h0 hn0', htl2]
            · intro dI h0 hn0
              have hn0' : h0 ∉ hs' :=
                fun hm => hn0 (List.mem_cons_of_mem _ hm)
              have hn0h : h0 ≠ h :=
                fun heq => hn0 (heq ▸ List.mem_cons_self _ _)
              rw [hS4 dI h0 hn0', htb2, if_neg (fun hc => hn0h hc.2)]
            · intro a h0 hsh hn0
              have hn0' : h0 ∉ hs' :=
                fun hm => hn0 (List.mem_cons_of_mem _ hm)
              have hn0h : h0 ≠ h :=
                fun heq => hn0 (heq ▸ List.mem_cons_self _ _)
              have halt : a < st.slots.length := slotHart_lt hsh
              have hane : a ≠ t := by
                intro hq
                subst hq
                rw [hsh] at hsh_t
                injection hsh_t with hq2
                exact hn0h hq2
              have hsh2 : slotHart st2 a = some h0 := by
                rw [hsh_old a halt]
                exact hsh
              rw [hS5 a h0 hsh2 hn0', hnx2, if_neg hane]
            · intro h0 hm0
              rcases List.mem_cons.mp hm0 with rfl | hm0'
              · refine ⟨st.slots.length, ?_, ?_, ?_⟩
                · rw [hS4 rIdx h0 hhnot, htb2, if_pos ⟨rfl, rfl⟩]
                · rw [hS5 st.slots.length h0 hsh_new hhnot, hnx2,
                    if_neg (by omega)]
                  exact nextOf_ge st _ (le_refl _)
                · intro dI sid hsid
                  rw [hS4 dI h0 hhnot, htb2] at hsid
                  by_cases hdc : dI = rIdx
                  · rw [if_pos ⟨hdc, rfl⟩] at hsid
                    injection hsid with hsid
                    subst hsid
                    exact Relation.ReflTransGen.refl
                  · rw [if_neg (fun hc => hdc hc.1)] at hsid
                    rcases hheads h0 (List.mem_cons_self _ _) dI sid hsid
                      with ⟨hsh2, t0, ht0, hrtg⟩
                    have ht0t : t0 = t := by
                      rw [htl] at ht0
                      injection ht0 with hq
                      exact hq.symm
                    subst ht0t
                    refine Relation.ReflTransGen.mono hS1 ?_
                    exact Relation.ReflTransGen.tail
                      (Relation.ReflTransGen.mono hup hrtg) hstep_t
              · exact hDone h0 hm0'

theorem chain_transGen_lt (st : InitSt)
    (hedge : ∀ a b, chainStep st a b → a < b) :
    ∀ a b, Relation.TransGen (chainStep st) a b → a < b := by
  intro a b hab
  induction hab with
  | single h => exact hedge _ _ h
  | tail hxy hyz ih => exact lt_trans ih (hedge _ _ hyz)

set_option maxHeartbeats 1000000 in
/-- **C6**: after `sbi_context_mgmt_init` succeeds, the boot-up chains
linked through `next_ctx` are acyclic (every edge goes strictly upward in
allocation order, so no slot can reach itself), and on every hart of the
root domain's possible mask every context-table entry's chain reaches the
root domain's slot for that hart — the slot registered for the root domain
(processed last, at index `doms.length`), which has no successor.
Hypotheses: hart masks are duplicate-free (they are bitmasks in C), and
distinct domains have disjoint assigned masks (at boot every hart is
assigned to exactly one domain). -/
theorem init_chain_acyclic_terminates_at_root (oracle : AllocOracle)
    (doms : List Domain) (root : Domain) (r : Unit) (st' : InitSt)
    (hok : sbi_context_mgmt_init oracle doms root = (Except.ok r, st'))
    (hnd : ∀ d, d ∈ doms → d.possible_harts.Nodup)
    (hndr : root.possible_harts.Nodup)
    (hdisj : List.Pairwise DisjA (doms ++ [root])) :
    (∀ a, ¬ Relation.TransGen (chainStep st') a a) ∧
    ∀ dI h sid, st'.table dI h = some sid → h ∈ root.possible_harts →
      ∃ rt, st'.table doms.length h = some rt ∧
        Relation.ReflTransGen (chainStep st') sid rt ∧
        nextOf st' rt = none := by
  unfold sbi_context_mgmt_init at hok
  rcases hrd : runDomains oracle doms.enum InitSt.empty with ⟨r0, st1⟩
  rw [hrd] at hok
  cases r0 with
  | error e =>
    have hok2 : ((Except.error e, st1) : Except SbiErr Unit × InitSt)
        = (Except.ok r, st') := hok
    simp at hok2
  | ok u =>
    have hok2 : setup_domain_context oracle doms.length root true st1
        = (Except.ok r, st') := hok
    unfold setup_domain_context at hok2
    have hsrc0 : ∀ h t, InitSt.empty.tail h = some t →
        ∃ d', d' ∈ ([] : List Domain) ∧ h ∈ d'.assigned_harts := by
      intro h t ht
      exact absurd ht (by simp [InitSt.empty])
    have hpw : List.Pairwise DisjA
        (([] : List Domain) ++ doms.enum.map Prod.snd) := by
      rw [List.nil_append, List.enum_map_snd]
      exact (List.pairwise_append.mp hdisj).1
    have hndl : ∀ p, p ∈ doms.enum → (p.2).possible_harts.Nodup := by
      intro p hm
      exact hnd p.2 (List.getElem?_mem (List.mk_mem_enum_iff_getElem?.mp hm))
    have hrun := runDomains_core oracle doms.enum [] InitSt.empty hndl hpw
      chainCore_empty hsrc0 u st1 hrd
    have hcore1 : ChainCore st1 := hrun.1
    have hsrc1 : ∀ h t, st1.tail h = some t →
        ∃ d', d' ∈ doms ∧ h ∈ d'.assigned_harts := by
      intro h t ht
      rcases hrun.2 h t ht with ⟨d', hd', hh⟩
      rw [List.nil_append, List.enum_map_snd] at hd'
      exact ⟨d', hd', hh⟩
    have hdisjr : ∀ d', d' ∈ doms → DisjA d' root := by
      intro d' hd'
      exact (List.pairwise_append.mp hdisj).2.2 d' hd' root (by simp)
    have hpost := setupHarts_root_post oracle doms.length root doms hdisjr
      root.possible_harts st1 hndr hcore1.edges
      (fun h _ t ht => hcore1.tails h t ht)
      (fun h _ dI sid hsid => hcore1.heads dI h sid hsid)
      (fun h _ htn dI => hcore1.noTail h htn dI)
      (fun h _ t ht => hsrc1 h t ht)
      r st' hok2
    refine ⟨?_, ?_⟩
    · intro a hcy
      exact absurd
        (chain_transGen_lt st' (fun x y hxy => (hpost.1 x y hxy).1) a a hcy)
        (lt_irrefl a)
    · intro dI h sid hsid hposs
      rcases hpost.2.2.2.2.2.2 h hposs with ⟨rt, hrt, hnone, hreach⟩
      exact ⟨rt, hrt, hreach dI sid hsid, hnone⟩

/-- C6, witness: init of `[nsD]` over `rootA` succeeds, the hypotheses
hold at this configuration, and the claim's conclusion follows. -/
theorem init_chain_acyclic_terminates_at_root_witness :
    (sbi_context_mgmt_init allocAlways [nsD] rootA
        = (Except.ok (), (sbi_context_mgmt_init allocAlways [nsD] rootA).2) ∧
      (∀ d, d ∈ [nsD] → d.possible_harts.Nodup) ∧
      rootA.possible_harts.Nodup ∧
      List.Pairwise DisjA ([nsD] ++ [rootA])) ∧
    ((∀ a, ¬ Relation.TransGen
        (chainStep (sbi_context_mgmt_init allocAlways [nsD] rootA).2) a a) ∧
      ∀ dI h sid,
        ((sbi_context_mgmt_init allocAlways [nsD] rootA).2).table dI h
          = some sid → h ∈ rootA.possible_harts →
        ∃ rt, ((sbi_context_mgmt_init allocAlways [nsD] rootA).2).table
            [nsD].length h = some rt ∧
          Relation.ReflTransGen
            (chainStep (sbi_context_mgmt_init allocAlways [nsD] rootA).2)
            sid rt ∧
          nextOf (sbi_context_mgmt_init allocAlways [nsD] rootA).2 rt
            = none) :=
  ⟨⟨by rfl, by decide, by decide, by decide⟩,
   init_chain_acyclic_terminates_at_root allocAlways [nsD] rootA ()
     (sbi_context_mgmt_init allocAlways [nsD] rootA).2 (by rfl)
     (by decide) (by decide) (by decide)⟩

end DomainContext
